import Mathlib

/-!
# JsonFx: chunked bump allocators and the value model

A shallow embedding of `src/JsonFx/Allocator.h`, `src/JsonFx/Value.h`,
`src/JsonFx/Document.h` and `src/JsonFx/IOStream/FileStream.h`.

Conventions of the embedding.

* `size_t` values are natural numbers below `wordSize` (a 64-bit target); the
  source's `+`, `-`, `+=`, `-=` on `size_t` are `wadd` and `wsub`.
* Addresses (`void *`, `char *`) are natural numbers; pointer arithmetic is
  exact, a pointer difference that would fall below zero is an `Int`.
* A singly linked chunk list is a `List`, newest chunk first; the `next` field
  of a chunk is the tail of the list, `NULL` is `[]`.
* `jimi_assert` is compiled out (the unchecked build), except in `BasicValue.index`
  and `BasicValue.findMemberChecked`, which take the build as a parameter.
* A dereference of a `NULL` chunk pointer makes the operation return `none`.
-/

namespace JsonFx

/-! ## Machine words and the raw allocator -/

/-- Number of values of a `size_t` on a 64-bit target, `2 ^ 64`. -/
def wordSize : Nat := 18446744073709551616

/-- Sum of two `size_t` values. -/
def wadd (a b : Nat) : Nat := (a + b) % wordSize

/-- Difference of two `size_t` values; wraps around below zero. -/
def wsub (a b : Nat) : Nat := (a % wordSize + (wordSize - b % wordSize)) % wordSize

/-- The constant `JSONFX_MALLOC_ALIGNMENT_SIZE`. -/
def kMallocAlignmentSize : Nat := 8

/-- Modelled from the spec: the macro `JIMI_ALIGNED_TO(size, alignment)`, whose header
`jimi/basic/stddef.h` is not part of the sources. The spec says "round the requested
size up to an 8-byte boundary"; the source stores the result back into the `size_t`
variable `size`, hence the reduction modulo `wordSize`. -/
def alignedTo (size alignment : Nat) : Nat :=
  ((size + (alignment - 1)) / alignment * alignment) % wordSize

/-- The raw allocator (`AllocatorType`; `CrtAllocator` forwards to `std::malloc` and
`std::free`) as the pools observe it: the number of blocks handed out so far and the
log of the addresses passed to `free`, oldest first. -/
structure RawAllocator where
  mallocCount : Nat
  freed : List Nat
deriving DecidableEq, Repr

/-- Build parameters the source leaves open: the template parameter `ChunkCapacity`,
the `sizeof` of the per-chunk header of the variant at hand, and the address the raw
allocator returns for its `k`-th block. -/
structure Config where
  chunkCapacity : Nat
  headSize : Nat
  heapAddr : Nat → Nat

/-- The call `AllocatorType::malloc(size)`: the address of a fresh block. -/
def RawAllocator.malloc (cfg : Config) (raw : RawAllocator) : Nat × RawAllocator :=
  (cfg.heapAddr raw.mallocCount, { raw with mallocCount := raw.mallocCount + 1 })

/-- The call `AllocatorType::free(ptr)`. -/
def RawAllocator.free (raw : RawAllocator) (ptr : Nat) : RawAllocator :=
  { raw with freed := raw.freed ++ [ptr] }

/-- Byte memory: the byte stored at each address. -/
abbrev Memory := Nat → Nat

/-- The call `std::memcpy(dst, src, n)` on non-overlapping ranges: every byte of
`[dst, dst + n)` receives the byte that was at the same offset from `src`. -/
def memcpy (mem : Memory) (dst src n : Nat) : Memory :=
  fun a => if dst ≤ a ∧ a < dst + n then mem (src + (a - dst)) else mem a

/-! ## MemoryPoolAllocator: the header lives at the start of each chunk -/

namespace MemoryPoolAllocator

/-- The constant `kNeedFree`. -/
def kNeedFree : Bool := false

/-- The constant `kAutoRelease`. -/
def kAutoRelease : Bool := true

/-- The struct `ChunkHead`, together with the address `addr` of the chunk it heads
(the header is the first `sizeof(ChunkHead)` bytes of the chunk). The field `next`
is the rest of the chunk list. -/
structure ChunkHead where
  addr : Nat
  cursor : Nat
  remain : Nat
  capacity : Nat
deriving DecidableEq, Repr

/-- The allocator object: the list reached from `mChunkHead`, and the raw allocator. -/
structure Pool where
  mChunkHead : List ChunkHead
  raw : RawAllocator
deriving DecidableEq, Repr

/-- Modelled from the spec: `sizeof(ChunkInfo)` as written in
`MemoryPoolAllocator::reallocate`; this class declares no type `ChunkInfo`. The spec's
test "pointer equals chunk-base + used-bytes − oldSize" makes it the size of the
chunk header, which is what the sibling classes call `ChunkInfo`. -/
def sizeofChunkInfo (cfg : Config) : Nat := cfg.headSize

/-- The member `addNewChunk(size_t size)`. -/
def addNewChunk (cfg : Config) (s : Pool) (size : Nat) : Nat × Pool :=
  let m := s.raw.malloc cfg
  let cursor := m.1 + cfg.headSize
  let newChunk : ChunkHead :=
    { addr := m.1
      cursor := cursor + size
      remain := wsub cfg.chunkCapacity (wadd cfg.headSize size)
      capacity := cfg.chunkCapacity }
  (cursor, { mChunkHead := newChunk :: s.mChunkHead, raw := m.2 })

/-- The constructor: `mChunkHead(NULL)` followed by `init()`, that is `addNewChunk(0)`. -/
def init (cfg : Config) (raw : RawAllocator) : Pool :=
  (addNewChunk cfg { mChunkHead := [], raw := raw } 0).2

/-- The member `allocate(size_t size)` with `JSONFX_ALLOW_ALLOC_BIGSIZE == 0`. On the
growth path the source writes `addNewChunk()` with an empty argument list: the request
size is not handed over. The only one-parameter overload is `addNewChunk(size_t size)`
and its only explicit caller, `init`, passes `0`; the embedding passes `0` as well. -/
def allocate (cfg : Config) (s : Pool) (size : Nat) : Option (Nat × Pool) :=
  let size := alignedTo size kMallocAlignmentSize
  match s.mChunkHead with
  | [] => none
  | c :: next =>
    if size ≤ c.remain then
      some (c.cursor,
        { s with mChunkHead :=
            { c with cursor := c.cursor + size, remain := wsub c.remain size } :: next })
    else
      some (addNewChunk cfg s 0)

/-- The member `reallocate(ptr, size, new_size)`; the memory is threaded through for
the `memcpy` of the fallback path. -/
def reallocate (cfg : Config) (s : Pool) (mem : Memory) (ptr size new_size : Nat) :
    Option (Nat × Pool × Memory) :=
  if size ≥ new_size then some (ptr, s, mem)
  else
    let fallback : Option (Nat × Pool × Memory) :=
      match allocate cfg s new_size with
      | none => none
      | some (newBuffer, s') => some (newBuffer, s', memcpy mem newBuffer ptr size)
    match s.mChunkHead with
    | [] => none
    | c :: next =>
      if (ptr : Int) =
          ((c.addr + cfg.headSize
            + wsub (wsub c.capacity c.remain) (sizeofChunkInfo cfg) : Nat) : Int)
            - (size : Int) then
        let increment := alignedTo (wsub new_size size) kMallocAlignmentSize
        if increment ≤ c.remain then
          some (ptr, { s with mChunkHead := { c with remain := wsub c.remain increment } :: next },
            mem)
        else fallback
      else fallback

/-- Both overloads of the static member `deallocate`: the body is empty. -/
def deallocate (s : Pool) (_ptr : Nat) (_size : Option Nat) : Pool := s

/-- The loop of `destroy`: every chunk reached through `next` is passed to `free`. -/
def freeChunks (raw : RawAllocator) : List ChunkHead → RawAllocator
  | [] => raw
  | c :: next => freeChunks (raw.free c.addr) next

/-- The member `destroy()`. -/
def destroy (s : Pool) : Pool :=
  if kAutoRelease then { mChunkHead := [], raw := freeChunks s.raw s.mChunkHead } else s

/-- A sequence of `allocate` calls, one per requested size, issued in order; the result
is the list of returned addresses and the final allocator. -/
def allocateSeq (cfg : Config) : Pool → List Nat → Option (List Nat × Pool)
  | s, [] => some ([], s)
  | s, n :: ns =>
    match allocate cfg s n with
    | none => none
    | some (p, s') =>
      match allocateSeq cfg s' ns with
      | none => none
      | some (ps, s'') => some (p :: ps, s'')

/-- The allocators a client can obtain: a freshly constructed one, and whatever a
successful `allocate` or `reallocate` leaves behind. -/
inductive Reachable (cfg : Config) : Pool → Prop
  | init (raw : RawAllocator) : Reachable cfg (init cfg raw)
  | allocate {s s' : Pool} {n p : Nat} :
      Reachable cfg s → allocate cfg s n = some (p, s') → Reachable cfg s'
  | reallocate {s s' : Pool} {mem mem' : Memory} {ptr size new_size p : Nat} :
      Reachable cfg s → reallocate cfg s mem ptr size new_size = some (p, s', mem') →
      Reachable cfg s'

end MemoryPoolAllocator

/-! ## SimpleMemoryPoolAllocator: the state of the current chunk is hoisted -/

namespace SimpleMemoryPoolAllocator

/-- The constant `kNeedFree`. -/
def kNeedFree : Bool := false

/-- The constant `kAutoRelease`. -/
def kAutoRelease : Bool := true

/-- The struct `ChunkInfo` at the start of each chunk, with the address `addr` of the
chunk; the field `next` is the rest of the chunk list. -/
structure ChunkInfo where
  addr : Nat
  capacity : Nat
deriving DecidableEq, Repr

/-- The struct `ChunkHead` (with `JSONFX_ALLOCATOR_USE_PROFILE` set, as in the source):
the hoisted state of the current chunk and the list reached from `head`. -/
structure ChunkHead where
  cursor : Nat
  remain : Nat
  capacity : Nat
  head : List ChunkInfo
  sizeTotal : Nat
  capacityTotal : Nat
deriving DecidableEq, Repr

/-- The allocator object: the member `mChunkHead`, and the raw allocator. -/
structure Pool where
  mChunkHead : ChunkHead
  raw : RawAllocator
deriving DecidableEq, Repr

/-- The value of the pointer `mChunkHead.head` as an address (`NULL` is `0`). -/
def headAddr (h : ChunkHead) : Nat :=
  match h.head with
  | [] => 0
  | c :: _ => c.addr

/-- The member `addNewChunk(size_t size)`. -/
def addNewChunk (cfg : Config) (s : Pool) (size : Nat) : Nat × Pool :=
  let m := s.raw.malloc cfg
  let newChunk : ChunkInfo := { addr := m.1, capacity := cfg.chunkCapacity }
  let cursor := m.1 + cfg.headSize
  (cursor,
    { mChunkHead :=
        { cursor := cursor + size
          remain := wsub cfg.chunkCapacity (wadd cfg.headSize size)
          capacity := cfg.chunkCapacity
          head := newChunk :: s.mChunkHead.head
          sizeTotal := wadd s.mChunkHead.sizeTotal
            (wsub s.mChunkHead.capacity s.mChunkHead.remain)
          capacityTotal := wadd s.mChunkHead.capacityTotal cfg.chunkCapacity }
      raw := m.2 })

/-- The constructor: `init()` clears the hoisted record and calls `addNewChunk(0)`. -/
def init (cfg : Config) (raw : RawAllocator) : Pool :=
  (addNewChunk cfg
    { mChunkHead :=
        { cursor := 0, remain := 0, capacity := 0, head := [], sizeTotal := 0,
          capacityTotal := 0 }
      raw := raw } 0).2

/-- The member `allocate(size_t size)` with `JSONFX_ALLOW_ALLOC_BIGSIZE == 0`; the
growth path is the argument-less call `addNewChunk()`, embedded as for
`MemoryPoolAllocator.allocate`. No chunk pointer is dereferenced. -/
def allocate (cfg : Config) (s : Pool) (size : Nat) : Nat × Pool :=
  let size := alignedTo size kMallocAlignmentSize
  if size ≤ s.mChunkHead.remain then
    (s.mChunkHead.cursor,
      { s with mChunkHead :=
          { s.mChunkHead with
            cursor := s.mChunkHead.cursor + size
            remain := wsub s.mChunkHead.remain size } })
  else
    addNewChunk cfg s 0

/-- The member `reallocate(ptr, size, new_size)`. -/
def reallocate (cfg : Config) (s : Pool) (mem : Memory) (ptr size new_size : Nat) :
    Nat × Pool × Memory :=
  if size ≥ new_size then (ptr, s, mem)
  else
    let fallback : Nat × Pool × Memory :=
      let r := allocate cfg s new_size
      (r.1, r.2, memcpy mem r.1 ptr size)
    if (ptr : Int) =
        ((headAddr s.mChunkHead + wsub s.mChunkHead.capacity s.mChunkHead.remain : Nat) : Int)
          - (size : Int) then
      let increment := alignedTo (wsub new_size size) kMallocAlignmentSize
      if increment ≤ s.mChunkHead.remain then
        (ptr,
          { s with mChunkHead :=
              { s.mChunkHead with remain := wsub s.mChunkHead.remain increment } },
          mem)
      else fallback
    else fallback

/-- Both overloads of the static member `deallocate`: the body is empty. -/
def deallocate (s : Pool) (_ptr : Nat) (_size : Option Nat) : Pool := s

/-- The loop of `destroy`: every chunk reached through `next` is passed to `free`. -/
def freeChunks (raw : RawAllocator) : List ChunkInfo → RawAllocator
  | [] => raw
  | c :: next => freeChunks (raw.free c.addr) next

/-- The member `destroy()`. -/
def destroy (s : Pool) : Pool :=
  if kAutoRelease then
    { mChunkHead := { s.mChunkHead with head := [] }
      raw := freeChunks s.raw s.mChunkHead.head }
  else s

/-- A sequence of `allocate` calls, one per requested size, issued in order; the result
is the list of returned addresses and the final allocator. -/
def allocateSeq (cfg : Config) : Pool → List Nat → List Nat × Pool
  | s, [] => ([], s)
  | s, n :: ns =>
    let r := allocate cfg s n
    let rs := allocateSeq cfg r.2 ns
    (r.1 :: rs.1, rs.2)

/-- The allocators a client can obtain: a freshly constructed one, and whatever
`allocate` or `reallocate` leaves behind. -/
inductive Reachable (cfg : Config) : Pool → Prop
  | init (raw : RawAllocator) : Reachable cfg (init cfg raw)
  | allocate {s : Pool} (n : Nat) : Reachable cfg s → Reachable cfg (allocate cfg s n).2
  | reallocate {s : Pool} (mem : Memory) (ptr size new_size : Nat) :
      Reachable cfg s → Reachable cfg (reallocate cfg s mem ptr size new_size).2.1

end SimpleMemoryPoolAllocator

/-! ## FastMemoryPoolAllocator: each chunk header stores used bytes and capacity -/

namespace FastMemoryPoolAllocator

/-- The constant `kNeedFree`. -/
def kNeedFree : Bool := false

/-- The constant `kAutoRelease`. -/
def kAutoRelease : Bool := true

/-- The struct `ChunkInfo`, with the address `addr` of the chunk; `next` is the rest of
the chunk list. The field `reserve` is never written or read and is left out. -/
structure ChunkInfo where
  addr : Nat
  used : Nat
  capacity : Nat
deriving DecidableEq, Repr

/-- The allocator object (with `JSONFX_ALLOCATOR_USE_PROFILE` set, as in the source):
the list reached from `mChunkHead`, the two running totals, and the raw allocator. -/
structure Pool where
  mChunkHead : List ChunkInfo
  mUsedTotal : Nat
  mCapacityTotal : Nat
  raw : RawAllocator
deriving DecidableEq, Repr

/-- The member `addNewChunk(size_t size)`. -/
def addNewChunk (cfg : Config) (s : Pool) (size : Nat) : Nat × Pool :=
  let m := s.raw.malloc cfg
  let newChunk : ChunkInfo :=
    { addr := m.1, used := wadd cfg.headSize size, capacity := cfg.chunkCapacity }
  (m.1 + cfg.headSize,
    { mChunkHead := newChunk :: s.mChunkHead
      mUsedTotal :=
        match s.mChunkHead with
        | [] => s.mUsedTotal
        | c :: _ => wadd s.mUsedTotal c.used
      mCapacityTotal := wadd s.mCapacityTotal cfg.chunkCapacity
      raw := m.2 })

/-- The constructor: `mChunkHead(NULL), mUsedTotal(0), mCapacityTotal(0)`, then `init()`,
that is `addNewChunk(0)`. -/
def init (cfg : Config) (raw : RawAllocator) : Pool :=
  (addNewChunk cfg { mChunkHead := [], mUsedTotal := 0, mCapacityTotal := 0, raw := raw } 0).2

/-- The member `allocate(size_t size)` with `JSONFX_ALLOW_ALLOC_BIGSIZE == 0`; the
growth path is the argument-less call `addNewChunk()`, embedded as for
`MemoryPoolAllocator.allocate`. -/
def allocate (cfg : Config) (s : Pool) (size : Nat) : Option (Nat × Pool) :=
  let size := alignedTo size kMallocAlignmentSize
  match s.mChunkHead with
  | [] => none
  | c :: next =>
    if wadd c.used size ≤ c.capacity then
      some (c.addr + c.used, { s with mChunkHead := { c with used := wadd c.used size } :: next })
    else
      some (addNewChunk cfg s 0)

/-- The member `reallocate(ptr, size, new_size)`. -/
def reallocate (cfg : Config) (s : Pool) (mem : Memory) (ptr size new_size : Nat) :
    Option (Nat × Pool × Memory) :=
  if size ≥ new_size then some (ptr, s, mem)
  else
    let fallback : Option (Nat × Pool × Memory) :=
      match allocate cfg s new_size with
      | none => none
      | some (newBuffer, s') => some (newBuffer, s', memcpy mem newBuffer ptr size)
    match s.mChunkHead with
    | [] => none
    | c :: next =>
      if (ptr : Int) = ((c.addr + c.used : Nat) : Int) - (size : Int) then
        let increment := alignedTo (wsub new_size size) kMallocAlignmentSize
        if wadd c.used increment ≤ c.capacity then
          some (ptr, { s with mChunkHead := { c with used := wadd c.used increment } :: next },
            mem)
        else fallback
      else fallback

/-- Both overloads of the static member `deallocate`: the body is empty. -/
def deallocate (s : Pool) (_ptr : Nat) (_size : Option Nat) : Pool := s

/-- The loop of `destroy`: every chunk reached through `next` is passed to `free`. -/
def freeChunks (raw : RawAllocator) : List ChunkInfo → RawAllocator
  | [] => raw
  | c :: next => freeChunks (raw.free c.addr) next

/-- The member `destroy()`. -/
def destroy (s : Pool) : Pool :=
  if kAutoRelease then { s with mChunkHead := [], raw := freeChunks s.raw s.mChunkHead } else s

/-- A sequence of `allocate` calls, one per requested size, issued in order; the result
is the list of returned addresses and the final allocator. -/
def allocateSeq (cfg : Config) : Pool → List Nat → Option (List Nat × Pool)
  | s, [] => some ([], s)
  | s, n :: ns =>
    match allocate cfg s n with
    | none => none
    | some (p, s') =>
      match allocateSeq cfg s' ns with
      | none => none
      | some (ps, s'') => some (p :: ps, s'')

/-- The allocators a client can obtain: a freshly constructed one, and whatever a
successful `allocate` or `reallocate` leaves behind. -/
inductive Reachable (cfg : Config) : Pool → Prop
  | init (raw : RawAllocator) : Reachable cfg (init cfg raw)
  | allocate {s s' : Pool} {n p : Nat} :
      Reachable cfg s → allocate cfg s n = some (p, s') → Reachable cfg s'
  | reallocate {s s' : Pool} {mem mem' : Memory} {ptr size new_size p : Nat} :
      Reachable cfg s → reallocate cfg s mem ptr size new_size = some (p, s', mem') →
      Reachable cfg s'

end FastMemoryPoolAllocator

/-! ## Sample builds used to evaluate the code -/

/-- A build with 128-byte chunks and a 32-byte chunk header (four 8-byte fields, as in
`MemoryPoolAllocator::ChunkHead` and `FastMemoryPoolAllocator::ChunkInfo`); the raw
allocator hands out page-aligned blocks 4096 bytes apart. -/
def sampleConfig : Config :=
  { chunkCapacity := 128, headSize := 32, heapAddr := fun k => 4096 * (k + 1) }

/-- The same build for `SimpleMemoryPoolAllocator`, whose `ChunkInfo` has two 8-byte
fields. -/
def sampleConfigSimple : Config :=
  { chunkCapacity := 128, headSize := 16, heapAddr := fun k => 4096 * (k + 1) }

/-- A raw allocator that has not been used yet. -/
def freshRaw : RawAllocator := { mallocCount := 0, freed := [] }

/-- A memory in which every byte is labelled by its own address. -/
def labelledMemory : Memory := fun a => a

/-- The bytes handed out from the chunk `[addr, addr + capacity)`: the rounded sizes of
the blocks `(address, requested size)` whose address lies in that chunk. -/
def bytesHandedOut (blocks : List (Nat × Nat)) (addr capacity : Nat) : Nat :=
  ((blocks.filter (fun b => decide (addr ≤ b.1 ∧ b.1 < addr + capacity))).map
    (fun b => alignedTo b.2 kMallocAlignmentSize)).sum

/-- Two blocks `[p, p + m)` and `[q, q + n)` share no byte. -/
def disjointBlocks (p m q n : Nat) : Bool := decide (p + m ≤ q ∨ q + n ≤ p)

/-! ## Value.h: type tags

`enum ValueType` and `enum ValueTypeMask`, with the source's names and values. -/

/-- Number of values of a `uint32_t` (`SizeType` and the tag type), `2 ^ 32`. -/
def sizeTypeSize : Nat := 4294967296

def kObjectType : Nat := 0
def kStringType : Nat := 1
def kNumberType : Nat := 2
def kTrueType : Nat := 3
def kFalseType : Nat := 4
def kArrayType : Nat := 5
def kNullType : Nat := 6
def kMaxValueType : Nat := kNullType + 1
def kBoolType : Nat := kMaxValueType
def kIntegerType : Nat := kBoolType + 1
def kDoubleType : Nat := kIntegerType + 1
def kFloatType : Nat := kDoubleType + 1
def kMaxValueTypeEx : Nat := kFloatType + 1

def kBoolMask : Nat := 0x000100
def kInt8Mask : Nat := 0x000200
def kUInt8Mask : Nat := 0x000400
def kInt16Mask : Nat := 0x000800
def kUInt16Mask : Nat := 0x001000
def kInt32Mask : Nat := 0x002000
def kUInt32Mask : Nat := 0x004000
def kInt64Mask : Nat := 0x008000
def kUInt64Mask : Nat := 0x010000
def kIntegerMask : Nat := 0x020000
def kFloatMask : Nat := 0x040000
def kDoubleMask : Nat := 0x080000
def kNumberMask : Nat := 0x100000
def kStringMask : Nat := 0x200000
def kCopyStrMask : Nat := 0x400000
def kInlineStrMask : Nat := 0x800000
def kNumberBoolMaskBase : Nat := kNumberMask ||| kIntegerMask ||| kBoolMask
def kNumberBoolMask : Nat := kNumberMask ||| kIntegerMask ||| kBoolMask ||| kBoolType
def kTrueMask : Nat := kNumberMask ||| kIntegerMask ||| kBoolMask ||| kTrueType
def kFalseMask : Nat := kNumberMask ||| kIntegerMask ||| kBoolMask ||| kFalseType
def kNumberIntegerMaskBase : Nat := kNumberMask ||| kIntegerMask
def kNumberIntegerMask : Nat := kNumberMask ||| kIntegerMask ||| kIntegerType
def kNumberIntMask : Nat := kNumberMask ||| kIntegerMask ||| kInt32Mask ||| kNumberType
def kNumberUIntMask : Nat := kNumberMask ||| kIntegerMask ||| kUInt32Mask ||| kNumberType
def kNumberInt64Mask : Nat := kNumberMask ||| kIntegerMask ||| kInt64Mask ||| kNumberType
def kNumberUInt64Mask : Nat := kNumberMask ||| kIntegerMask ||| kUInt64Mask ||| kNumberType
def kNumberFloatMask : Nat := kNumberMask ||| kFloatMask ||| kNumberType
def kNumberDoubleMask : Nat := kNumberMask ||| kDoubleMask ||| kNumberType
def kNumberAnyMask : Nat :=
  kNumberMask ||| kIntegerMask ||| kInt32Mask ||| kUInt32Mask ||| kInt64Mask ||| kUInt64Mask
    ||| kFloatMask ||| kDoubleMask ||| kNumberType
def kConstStringMask : Nat := kStringMask ||| kStringType
def kCopyStringMask : Nat := kStringMask ||| kCopyStrMask ||| kStringType
def kShortStringMask : Nat := kStringMask ||| kCopyStrMask ||| kInlineStrMask ||| kStringType
def kArrayMask : Nat := kArrayType
def kObjectMask : Nat := kObjectType
def kNullMask : Nat := kNullType
def kTypeMask : Nat := 0xFF

/-! ## Value.h: `BasicValue` -/

/-- The union `ValueData`. Its alternatives `String`, `ShortString`, `Array` and `Object`
have the same layout under `#pragma pack(1)`: a pointer (`data`, `items`, `members`),
then `size`, `capacity` and `hashCode`; `Number` overlays the pointer. One record with
these four slots stands for all views. A `CharType *` is a byte address; a `BasicValue *`
or `Member *` is counted in elements, so that `p + 1` is the next element. -/
structure ValueData where
  ptr : Nat
  size : Nat
  capacity : Nat
  hashCode : Nat
deriving DecidableEq, Repr

/-- The class `BasicValue`: the packed tag `mValueType` and the payload `mValueData`. -/
structure BasicValue where
  mValueType : Nat
  mValueData : ValueData
deriving DecidableEq, Repr

/-- The struct `BasicMember`. -/
structure BasicMember where
  name : BasicValue
  value : BasicValue
deriving DecidableEq, Repr

/-- The memory the values point into: characters, the `BasicValue` stored at each element
address (array items) and the `BasicMember` stored at each element address (object
members). -/
structure Heap where
  chars : Memory
  items : Nat → BasicValue
  members : Nat → BasicMember

/-- Modelled from the spec: `BasicStringRef` (`StringRef.h` is not part of the sources),
a "string reference (data, size)": the members `mData` and `mSize` that `setStringRaw`
reads. -/
structure BasicStringRef where
  mData : Nat
  mSize : Nat
deriving DecidableEq, Repr

/-- The class `BasicMemberIterator<IsConst, ...>`: a pointer to a member. -/
structure BasicMemberIterator (IsConst : Bool) where
  mPtr : Nat
deriving DecidableEq, Repr

/-- The typedef `MemberIterator`. -/
abbrev MemberIterator := BasicMemberIterator false

/-- The typedef `ConstMemberIterator`. -/
abbrev ConstMemberIterator := BasicMemberIterator true

/-- The converting constructor `BasicMemberIterator(const NonConstIterator & it)`. -/
def BasicMemberIterator.ofNonConst {IsConst : Bool} (it : BasicMemberIterator false) :
    BasicMemberIterator IsConst :=
  { mPtr := it.mPtr }

/-- The member `operator !=(ConstIterator that)`. -/
def BasicMemberIterator.ne {IsConst : Bool} (it : BasicMemberIterator IsConst)
    (that : ConstMemberIterator) : Bool :=
  it.mPtr != that.mPtr

namespace BasicValue

/-- The constructor `BasicValue()`: a null tag and a zeroed payload. -/
def construct : BasicValue :=
  { mValueType := kNullMask, mValueData := { ptr := 0, size := 0, capacity := 0, hashCode := 0 } }

/-- The constructor `BasicValue(const CharType * str)`. It has no member initialisers:
`old` is whatever the storage held, and only the tag, `str.data` and `str.size` are
assigned. `len` is the result of `::strlen(str)`, converted to the 32-bit `SizeType`. -/
def ofCString (old : ValueData) (str len : Nat) : BasicValue :=
  { mValueType := kStringMask
    mValueData := { old with ptr := str, size := len % sizeTypeSize } }

/-- The member `setStringRaw(StringRefType str)`; the size is stored in a `SizeType`. -/
def setStringRaw (v : BasicValue) (str : BasicStringRef) : BasicValue :=
  { mValueType := kConstStringMask
    mValueData := { v.mValueData with ptr := str.mData, size := str.mSize % sizeTypeSize } }

/-- The constructor `BasicValue(StringRefType str)`: zeroed members, then
`setStringRaw(str)`. -/
def ofStringRef (str : BasicStringRef) : BasicValue :=
  setStringRaw { mValueType := 0, mValueData := { ptr := 0, size := 0, capacity := 0, hashCode := 0 } }
    str

/-- The member `setObject()`. -/
def setObject (v : BasicValue) : BasicValue :=
  { mValueType := kObjectMask
    mValueData := { v.mValueData with ptr := 0, size := 0, capacity := 0 } }

/-- The member `getType()`. -/
def getType (v : BasicValue) : Nat := v.mValueType &&& kTypeMask

def isNull (v : BasicValue) : Bool := v.mValueType == kNullMask
def isFalse (v : BasicValue) : Bool := v.mValueType == kFalseMask
def isTrue (v : BasicValue) : Bool := v.mValueType == kTrueMask
def isBool (v : BasicValue) : Bool := (v.mValueType &&& kBoolMask) != 0
def isObject (v : BasicValue) : Bool := v.mValueType == kObjectMask
def isArray (v : BasicValue) : Bool := v.mValueType == kArrayMask
def isNumber (v : BasicValue) : Bool := (v.mValueType &&& kNumberMask) != 0
def isInt (v : BasicValue) : Bool := (v.mValueType &&& kNumberIntMask) != 0
def isUint (v : BasicValue) : Bool := (v.mValueType &&& kNumberUIntMask) != 0
def isInt64 (v : BasicValue) : Bool := (v.mValueType &&& kInt64Mask) != 0
def isUint64 (v : BasicValue) : Bool := (v.mValueType &&& kUInt64Mask) != 0
def isFloat (v : BasicValue) : Bool := (v.mValueType &&& kDoubleMask) != 0
def isDouble (v : BasicValue) : Bool := (v.mValueType &&& kDoubleMask) != 0
def isString (v : BasicValue) : Bool := (v.mValueType &&& kStringMask) != 0

/-- The member `getString()`: `sso.data` for an inline string, else `str.data`; both
views name the pointer slot. -/
def getString (v : BasicValue) : Nat :=
  if (v.mValueType &&& kInlineStrMask) != 0 then v.mValueData.ptr else v.mValueData.ptr

/-- The member `getStringLength()`: `sso.GetLength()`, which returns `sso.size`, for an
inline string, else `str.size`; both views name the size slot. -/
def getStringLength (v : BasicValue) : Nat :=
  if (v.mValueType &&& kInlineStrMask) != 0 then v.mValueData.size else v.mValueData.size

end BasicValue

/-- The call `std::memcmp(p, q, n)`: zero when the `n` bytes agree, else the difference of
the first pair of bytes that differ. -/
def memcmp (mem : Memory) : Nat → Nat → Nat → Int
  | _, _, 0 => 0
  | p, q, n + 1 =>
    if mem p = mem q then memcmp mem (p + 1) (q + 1) n else (mem p : Int) - (mem q : Int)

namespace BasicValue

/-- The member `stringEqual(rhs)`; `charSize` is `sizeof(CharType)`, and the product
`sizeof(CharType) * len1` is a `size_t`. -/
def stringEqual (charSize : Nat) (h : Heap) (self rhs : BasicValue) : Bool :=
  let len1 := getStringLength self
  let len2 := getStringLength rhs
  if len1 != len2 then false
  else
    let str1 := getString self
    let str2 := getString rhs
    if str1 == str2 then true
    else memcmp h.chars str1 str2 ((charSize * len1) % wordSize) == 0

/-- The member `getMemberBegin()`. -/
def getMemberBegin (v : BasicValue) : MemberIterator := { mPtr := v.mValueData.ptr }

/-- The member `getMemberEnd()`. -/
def getMemberEnd (v : BasicValue) : MemberIterator :=
  { mPtr := v.mValueData.ptr + v.mValueData.size }

/-- The member `getMemberBegin() const`. -/
def getMemberBeginConst (v : BasicValue) : ConstMemberIterator := { mPtr := v.mValueData.ptr }

/-- The member `getMemberEnd() const`. -/
def getMemberEndConst (v : BasicValue) : ConstMemberIterator :=
  { mPtr := v.mValueData.ptr + v.mValueData.size }

/-- The loop of `findMember`, from the iterator `member` on. The source runs while
`member != getMemberEnd()`; `steps` bounds the number of iterations, and `findMember`
starts it with the distance from begin to end, which the loop cannot exceed. -/
def findMemberLoop (charSize : Nat) (h : Heap) (v name : BasicValue) :
    Nat → MemberIterator → MemberIterator
  | 0, member => member
  | steps + 1, member =>
    if member.ne (BasicMemberIterator.ofNonConst (getMemberEnd v)) then
      if stringEqual charSize h name (h.members member.mPtr).name then member
      else findMemberLoop charSize h v name steps { mPtr := member.mPtr + 1 }
    else member

/-- The member template `findMember(const BasicValue & name)`. -/
def findMember (charSize : Nat) (h : Heap) (v name : BasicValue) : MemberIterator :=
  findMemberLoop charSize h v name v.mValueData.size (getMemberBegin v)

/-- The member `findMember(const CharType * name)`: a temporary `BasicValue n(name)` is
built in storage holding `old`, and looked up; `len` is the result of `::strlen(name)`.
The destructor of the temporary, whose tag is `kStringMask`, frees nothing. -/
def findMemberCStr (charSize : Nat) (h : Heap) (v : BasicValue) (old : ValueData)
    (name len : Nat) : MemberIterator :=
  findMember charSize h v (ofCString old name len)

/-- The member template `findMember(const BasicValue & name) const`. -/
def findMemberConst (charSize : Nat) (h : Heap) (v name : BasicValue) : ConstMemberIterator :=
  BasicMemberIterator.ofNonConst (findMember charSize h v name)

/-- The member `findMember(const CharType * name) const`. -/
def findMemberCStrConst (charSize : Nat) (h : Heap) (v : BasicValue) (old : ValueData)
    (name len : Nat) : ConstMemberIterator :=
  BasicMemberIterator.ofNonConst (findMemberCStr charSize h v old name len)

/-- The member template `hasMember(const BasicValue & name) const`. -/
def hasMember (charSize : Nat) (h : Heap) (v name : BasicValue) : Bool :=
  (findMemberConst charSize h v name).ne (getMemberEndConst v)

/-- The member `hasMember(const CharType * name) const`. -/
def hasMemberCStr (charSize : Nat) (h : Heap) (v : BasicValue) (old : ValueData)
    (name len : Nat) : Bool :=
  (findMemberCStrConst charSize h v old name len).ne (getMemberEndConst v)

end BasicValue

/-! ## Value.h: `release` -/

/-- What `release` does to the outside, in order: the destructor call on the array
element at an address (`v->~BasicValue()`), the destructor call on the member at an
address (`m->~Member()`), a call `PoolAllocatorType::free(ptr)`, and the diagnostic line
printed by the `default` branch. `release` assigns to no field. -/
inductive ReleaseEvent where
  | destroyValue (addr : Nat)
  | destroyMember (addr : Nat)
  | free (ptr : Nat)
  | print
deriving DecidableEq, Repr

/-- The constant `CrtAllocator::kNeedFree`. -/
def CrtAllocator.kNeedFree : Bool := true

/-- The constant `StackPoolAllocator::kNeedFree`. -/
def StackPoolAllocator.kNeedFree : Bool := false

namespace BasicValue

/-- The array loop of `release`: `count` elements from address `v` on, each destroyed
by `~BasicValue()`, which calls `release` (here `rel`). -/
def destroyValues (rel : BasicValue → Option (List ReleaseEvent)) (h : Heap) :
    Nat → Nat → Option (List ReleaseEvent)
  | _, 0 => some []
  | v, count + 1 =>
    match rel (h.items v), destroyValues rel h (v + 1) count with
    | some a, some b => some (ReleaseEvent.destroyValue v :: (a ++ b))
    | _, _ => none

/-- The object loop of `release`: `count` members from address `m` on, each destroyed
by the implicit `~Member()`, which destroys `value` and then `name` (members are destroyed
in reverse order of declaration). -/
def destroyMembers (rel : BasicValue → Option (List ReleaseEvent)) (h : Heap) :
    Nat → Nat → Option (List ReleaseEvent)
  | _, 0 => some []
  | m, count + 1 =>
    match rel (h.members m).value, rel (h.members m).name,
      destroyMembers rel h (m + 1) count with
    | some a, some b, some c => some (ReleaseEvent.destroyMember m :: (a ++ b ++ c))
    | _, _, _ => none

/-- The member `release()`, for an allocator with the given `kNeedFree`. The recursion
through the destructors of the children is bounded by `depth`: `none` means the bound
was reached. -/
def release (kNeedFree : Bool) (h : Heap) : Nat → BasicValue → Option (List ReleaseEvent)
  | depth, v =>
    if kNeedFree then
      if v.mValueType = kArrayMask then
        match depth with
        | 0 => none
        | depth + 1 =>
          (destroyValues (release kNeedFree h depth) h v.mValueData.ptr v.mValueData.size).map
            (fun events => events ++ [ReleaseEvent.free v.mValueData.ptr])
      else if v.mValueType = kObjectMask then
        match depth with
        | 0 => none
        | depth + 1 =>
          (destroyMembers (release kNeedFree h depth) h v.mValueData.ptr v.mValueData.size).map
            (fun events => events ++ [ReleaseEvent.free v.mValueData.ptr])
      else if v.mValueType = kCopyStrMask then
        some [ReleaseEvent.free v.mValueData.ptr]
      else
        some [ReleaseEvent.print]
    else
      some []

end BasicValue

/-! ## Value trees

The shape of a tree of values laid out in a heap, against which the order of the effects
of `release` is stated. -/

mutual
/-- A tree of values: a value that is neither array nor object, an array value with the
trees of its elements, or an object value with the trees of its members. -/
inductive ValueTree where
  | leaf (v : BasicValue)
  | array (v : BasicValue) (items : ValueForest)
  | object (v : BasicValue) (members : MemberForest)
/-- The element trees of an array, in index order. -/
inductive ValueForest where
  | nil
  | cons (t : ValueTree) (rest : ValueForest)
/-- The (name, value) trees of the members of an object, in index order. -/
inductive MemberForest where
  | nil
  | cons (name value : ValueTree) (rest : MemberForest)
end

/-- The value at the root of a tree. -/
def ValueTree.root : ValueTree → BasicValue
  | .leaf v => v
  | .array v _ => v
  | .object v _ => v

/-- Number of element trees. -/
def ValueForest.length : ValueForest → Nat
  | .nil => 0
  | .cons _ rest => rest.length + 1

/-- Number of member trees. -/
def MemberForest.length : MemberForest → Nat
  | .nil => 0
  | .cons _ _ rest => rest.length + 1

mutual
/-- Nesting depth of containers in a tree. -/
def ValueTree.height : ValueTree → Nat
  | .leaf _ => 0
  | .array _ items => items.height + 1
  | .object _ members => members.height + 1
/-- Largest height among the element trees. -/
def ValueForest.height : ValueForest → Nat
  | .nil => 0
  | .cons t rest => max t.height rest.height
/-- Largest height among the name and value trees. -/
def MemberForest.height : MemberForest → Nat
  | .nil => 0
  | .cons name value rest => max (max name.height value.height) rest.height
end

mutual
/-- The heap holds the tree: a leaf carries a tag that `release` does not act on, an array
of `size` elements has its element trees stored from `items` on, an object of `size`
members has its member trees stored from `members` on. -/
def ValueTree.LaidOut (h : Heap) : ValueTree → Prop
  | .leaf v =>
    v.mValueType ≠ kArrayMask ∧ v.mValueType ≠ kObjectMask ∧ v.mValueType ≠ kCopyStrMask
  | .array v items =>
    v.mValueType = kArrayMask ∧ items.length = v.mValueData.size
      ∧ items.LaidOut h v.mValueData.ptr
  | .object v members =>
    v.mValueType = kObjectMask ∧ members.length = v.mValueData.size
      ∧ members.LaidOut h v.mValueData.ptr
/-- The element trees are stored from address `addr` on. -/
def ValueForest.LaidOut (h : Heap) : Nat → ValueForest → Prop
  | _, .nil => True
  | addr, .cons t rest => h.items addr = t.root ∧ t.LaidOut h ∧ rest.LaidOut h (addr + 1)
/-- The member trees are stored from address `addr` on. -/
def MemberForest.LaidOut (h : Heap) : Nat → MemberForest → Prop
  | _, .nil => True
  | addr, .cons name value rest =>
    h.members addr = { name := name.root, value := value.root }
      ∧ name.LaidOut h ∧ value.LaidOut h ∧ rest.LaidOut h (addr + 1)
end

mutual
/-- The effects of releasing a tree, children first: for an array, each element in index
order (its destructor call, then the effects of releasing it), then the free of the item
buffer; for an object, each member in index order (its destructor call, the effects of
releasing its value, then those of its name), then the free of the member buffer. -/
def ValueTree.releaseEvents : ValueTree → List ReleaseEvent
  | .leaf _ => [ReleaseEvent.print]
  | .array v items => items.releaseEvents v.mValueData.ptr ++ [ReleaseEvent.free v.mValueData.ptr]
  | .object v members =>
    members.releaseEvents v.mValueData.ptr ++ [ReleaseEvent.free v.mValueData.ptr]
/-- The effects of destroying the elements stored from `addr` on. -/
def ValueForest.releaseEvents : Nat → ValueForest → List ReleaseEvent
  | _, .nil => []
  | addr, .cons t rest =>
    ReleaseEvent.destroyValue addr :: (t.releaseEvents ++ rest.releaseEvents (addr + 1))
/-- The effects of destroying the members stored from `addr` on. -/
def MemberForest.releaseEvents : Nat → MemberForest → List ReleaseEvent
  | _, .nil => []
  | addr, .cons name value rest =>
    ReleaseEvent.destroyMember addr
      :: (value.releaseEvents ++ name.releaseEvents ++ rest.releaseEvents (addr + 1))
end

mutual
/-- The buffers of the containers of a tree, every container after all its descendants
(post-order), siblings in index order and the value of a member before its name. -/
def ValueTree.buffers : ValueTree → List Nat
  | .leaf _ => []
  | .array v items => items.buffers ++ [v.mValueData.ptr]
  | .object v members => members.buffers ++ [v.mValueData.ptr]
/-- The container buffers of the element trees. -/
def ValueForest.buffers : ValueForest → List Nat
  | .nil => []
  | .cons t rest => t.buffers ++ rest.buffers
/-- The container buffers of the member trees. -/
def MemberForest.buffers : MemberForest → List Nat
  | .nil => []
  | .cons name value rest => value.buffers ++ name.buffers ++ rest.buffers
end

/-- The allocator state after the `free` calls of a list of effects, for an allocator
whose `free` is the given function. -/
def runFrees {σ : Type} (free : σ → Nat → σ) (s : σ) : List ReleaseEvent → σ
  | [] => s
  | ReleaseEvent.free p :: rest => runFrees free (free s p) rest
  | _ :: rest => runFrees free s rest

/-- The addresses passed to `free`, in order. -/
def freedBy : List ReleaseEvent → List Nat
  | [] => []
  | ReleaseEvent.free p :: rest => p :: freedBy rest
  | _ :: rest => freedBy rest

/-! ## Sample values used to evaluate the code -/

/-- The tags a `BasicValue` can carry: null, true, false, object, array, the int32,
uint32, int64, uint64, float and double number tags, and the borrowed, owned and inline
string tags. -/
def valueTags : List Nat :=
  [kNullMask, kTrueMask, kFalseMask, kObjectMask, kArrayMask, kNumberIntMask, kNumberUIntMask,
    kNumberInt64Mask, kNumberUInt64Mask, kNumberFloatMask, kNumberDoubleMask,
    kConstStringMask, kCopyStringMask, kShortStringMask]

/-- The answers of the six top-level predicates `isNull`, `isBool`, `isObject`, `isArray`,
`isString`, `isNumber`, in this order. -/
def BasicValue.topLevelPredicates (v : BasicValue) : List Bool :=
  [v.isNull, v.isBool, v.isObject, v.isArray, v.isString, v.isNumber]

/-- A payload of zeroes. -/
def zeroData : ValueData := { ptr := 0, size := 0, capacity := 0, hashCode := 0 }

/-- Characters of the sample heap: "a" at 4096, "b" at 4100, "a" again at 4200, "ab" at
4300 and at 4400, "ac" at 4500; zero elsewhere. -/
def sampleChars : Memory := fun a =>
  if a = 4096 then 97 else if a = 4100 then 98 else if a = 4200 then 97
  else if a = 4300 then 97 else if a = 4301 then 98
  else if a = 4400 then 97 else if a = 4401 then 98
  else if a = 4500 then 97 else if a = 4501 then 99 else 0

/-- Members of the sample heap: the object built by appending ("a", 1), ("b", 2),
("a", 3), stored at the member addresses 10, 11, 12; the second "a" lives at another
character address than the first. -/
def sampleMembers : Nat → BasicMember := fun m =>
  if m = 10 then ⟨⟨kConstStringMask, ⟨4096, 1, 0, 0⟩⟩, ⟨kNumberIntMask, ⟨1, 0, 0, 0⟩⟩⟩
  else if m = 11 then ⟨⟨kConstStringMask, ⟨4100, 1, 0, 0⟩⟩, ⟨kNumberIntMask, ⟨2, 0, 0, 0⟩⟩⟩
  else if m = 12 then ⟨⟨kConstStringMask, ⟨4200, 1, 0, 0⟩⟩, ⟨kNumberIntMask, ⟨3, 0, 0, 0⟩⟩⟩
  else ⟨BasicValue.construct, BasicValue.construct⟩

/-- Array items of the sample heap: at the item addresses 20 and 21, the object of
`sampleMembers` and a null value. -/
def sampleItems : Nat → BasicValue := fun v =>
  if v = 20 then ⟨kObjectMask, ⟨10, 3, 4, 0⟩⟩ else BasicValue.construct

/-- The sample heap. -/
def sampleHeap : Heap := { chars := sampleChars, items := sampleItems, members := sampleMembers }

/-- The object of the sample heap: three members stored from member address 10 on. -/
def sampleObject : BasicValue := ⟨kObjectMask, ⟨10, 3, 4, 0⟩⟩

/-- Characters of a heap holding one C string of `2 ^ 32` characters "x" from address
4700 on, followed by its terminating zero. -/
def longChars : Memory := fun a => if 4700 ≤ a ∧ a < 4700 + 4294967296 then 120 else 0

/-- A heap whose members all carry the empty name (a string of length 0 at 4600) and a
null value, and whose characters are `longChars`. -/
def longHeap : Heap :=
  { chars := longChars
    items := fun _ => BasicValue.construct
    members := fun _ => ⟨⟨kConstStringMask, ⟨4600, 0, 0, 0⟩⟩, BasicValue.construct⟩ }

/-- An object with one member, stored at member address 30. -/
def emptyNameObject : BasicValue := ⟨kObjectMask, ⟨30, 1, 1, 0⟩⟩

/-! ## Allocator.h: the build with `JSONFX_ALLOW_ALLOC_BIGSIZE` set

The branch of `allocate` that the default build leaves out, and the two members only
this branch calls. The constant `kDefaultChunkCapacity` (`Config.h` is not part of the
sources) is a parameter. -/

/-- The powers of two from `p` on, doubled at most `steps` times, up to the first that is
at least `n`. -/
def roundToPowerOf2Loop : Nat → Nat → Nat → Nat
  | 0, p, _ => p
  | steps + 1, p, n => if n ≤ p then p else roundToPowerOf2Loop steps (2 * p) n

/-- Modelled from the spec: `internal::RoundToPowerOf2` (`Utils.h` is not part of the
sources), "the next power of two" at or above its argument: the least of 1, 2, 4, ...,
`2 ^ 64` that is at least `n`; the source stores the result in a `size_t`. -/
def RoundToPowerOf2 (n : Nat) : Nat :=
  roundToPowerOf2Loop 64 1 n % wordSize

namespace SimpleMemoryPoolAllocator

/-- The member `addNewChunk(size_t nChunkCapacity, size_t size)`. -/
def addNewChunkOfCapacity (cfg : Config) (s : Pool) (nChunkCapacity size : Nat) : Nat × Pool :=
  let m := s.raw.malloc cfg
  let newChunk : ChunkInfo := { addr := m.1, capacity := nChunkCapacity }
  let cursor := m.1 + cfg.headSize
  (cursor,
    { mChunkHead :=
        { cursor := cursor + size
          remain := wsub nChunkCapacity (wadd cfg.headSize size)
          capacity := nChunkCapacity
          head := newChunk :: s.mChunkHead.head
          sizeTotal := wadd s.mChunkHead.sizeTotal
            (wsub s.mChunkHead.capacity s.mChunkHead.remain)
          capacityTotal := wadd s.mChunkHead.capacityTotal nChunkCapacity }
      raw := m.2 })

/-- The member `insertNewChunkToLast(size_t nChunkCapacity, size_t size)`: the new chunk
is linked between `mChunkHead.head` and `mChunkHead.head->next`; the hoisted `cursor`,
`remain` and `capacity` are not assigned. `mChunkHead.head` is dereferenced. -/
def insertNewChunkToLast (cfg : Config) (s : Pool) (nChunkCapacity size : Nat) :
    Option (Nat × Pool) :=
  let m := s.raw.malloc cfg
  match s.mChunkHead.head with
  | [] => none
  | c :: next =>
    let newChunk : ChunkInfo := { addr := m.1, capacity := nChunkCapacity }
    some (m.1 + cfg.headSize,
      { mChunkHead :=
          { s.mChunkHead with
            head := c :: newChunk :: next
            sizeTotal := wadd s.mChunkHead.sizeTotal (wadd cfg.headSize size)
            capacityTotal := wadd s.mChunkHead.capacityTotal nChunkCapacity }
        raw := m.2 })

/-- The member `allocate(size_t size)` with `JSONFX_ALLOW_ALLOC_BIGSIZE != 0`. -/
def allocateBigSize (cfg : Config) (kDefaultChunkCapacity : Nat) (s : Pool) (size : Nat) :
    Option (Nat × Pool) :=
  let size := alignedTo size kMallocAlignmentSize
  if size ≤ s.mChunkHead.remain then
    some (s.mChunkHead.cursor,
      { s with mChunkHead :=
          { s.mChunkHead with
            cursor := s.mChunkHead.cursor + size
            remain := wsub s.mChunkHead.remain size } })
  else if size ≤ kDefaultChunkCapacity then
    some (addNewChunk cfg s size)
  else
    let newAllocSize := wadd size cfg.headSize
    let newChunkCapacity := RoundToPowerOf2 newAllocSize
    if wsub newChunkCapacity newAllocSize > s.mChunkHead.remain then
      some (addNewChunkOfCapacity cfg s newChunkCapacity size)
    else
      insertNewChunkToLast cfg s newAllocSize size

end SimpleMemoryPoolAllocator

namespace FastMemoryPoolAllocator

/-- The member `addNewChunk(size_t nChunkCapacity, size_t size)`; unlike the
one-parameter overload it reads `mChunkHead->used` without a `NULL` test. -/
def addNewChunkOfCapacity (cfg : Config) (s : Pool) (nChunkCapacity size : Nat) :
    Option (Nat × Pool) :=
  let m := s.raw.malloc cfg
  match s.mChunkHead with
  | [] => none
  | c :: _ =>
    let newChunk : ChunkInfo :=
      { addr := m.1, used := wadd cfg.headSize size, capacity := nChunkCapacity }
    some (m.1 + cfg.headSize,
      { mChunkHead := newChunk :: s.mChunkHead
        mUsedTotal := wadd s.mUsedTotal c.used
        mCapacityTotal := wadd s.mCapacityTotal nChunkCapacity
        raw := m.2 })

/-- The member `insertNewChunkToLast(size_t nChunkCapacity, size_t size)`: the new chunk
is linked between `mChunkHead` and `mChunkHead->next`; `mChunkHead` itself and the fields
of the chunk it points to, other than `next`, are not assigned. -/
def insertNewChunkToLast (cfg : Config) (s : Pool) (nChunkCapacity size : Nat) :
    Option (Nat × Pool) :=
  let m := s.raw.malloc cfg
  match s.mChunkHead with
  | [] => none
  | c :: next =>
    let newChunk : ChunkInfo :=
      { addr := m.1, used := wadd cfg.headSize size, capacity := nChunkCapacity }
    some (m.1 + cfg.headSize,
      { mChunkHead := c :: newChunk :: next
        mUsedTotal := wadd s.mUsedTotal (wadd cfg.headSize size)
        mCapacityTotal := wadd s.mCapacityTotal nChunkCapacity
        raw := m.2 })

/-- The member `allocate(size_t size)` with `JSONFX_ALLOW_ALLOC_BIGSIZE != 0`. -/
def allocateBigSize (cfg : Config) (kDefaultChunkCapacity : Nat) (s : Pool) (size : Nat) :
    Option (Nat × Pool) :=
  let size := alignedTo size kMallocAlignmentSize
  match s.mChunkHead with
  | [] => none
  | c :: next =>
    if wadd c.used size ≤ c.capacity then
      some (c.addr + c.used, { s with mChunkHead := { c with used := wadd c.used size } :: next })
    else if size ≤ kDefaultChunkCapacity then
      some (addNewChunk cfg s size)
    else
      let newAllocSize := wadd size cfg.headSize
      let newChunkCapacity := RoundToPowerOf2 newAllocSize
      if wsub newChunkCapacity newAllocSize > wsub c.capacity c.used then
        addNewChunkOfCapacity cfg s newChunkCapacity size
      else
        insertNewChunkToLast cfg s newAllocSize size

end FastMemoryPoolAllocator

/-! ## Value.h: member iterators and `operator[]` -/

/-- The member `operator ==(ConstIterator that)`. -/
def BasicMemberIterator.eq {IsConst : Bool} (it : BasicMemberIterator IsConst)
    (that : ConstMemberIterator) : Bool :=
  it.mPtr == that.mPtr

/-- The member `operator ++()`. -/
def BasicMemberIterator.inc {IsConst : Bool} (it : BasicMemberIterator IsConst) :
    BasicMemberIterator IsConst :=
  { mPtr := it.mPtr + 1 }

/-- The member `operator *()`: the member the iterator points to. -/
def BasicMemberIterator.deref {IsConst : Bool} (h : Heap) (it : BasicMemberIterator IsConst) :
    BasicMember :=
  h.members it.mPtr

/-- The distance `operator -(ConstIterator that)`, a `DifferenceType`. -/
def BasicMemberIterator.distance {IsConst : Bool} (it : BasicMemberIterator IsConst)
    (that : ConstMemberIterator) : Int :=
  (it.mPtr : Int) - (that.mPtr : Int)

/-- Modelled from the spec: the macro `jimi_assert(cond)` (`jimi/basic/assert.h` is not
part of the sources). The spec has "assertion checks that are compiled out in unchecked
builds" and failures that are "immediately fatal": with `checked` set a false condition
ends the call (`none`), otherwise the macro does nothing. -/
def jimiAssert (checked cond : Bool) : Option Unit :=
  if checked && !cond then none else some ()

namespace BasicValue

/-- The loop of `findMember` in the build given by `checked`: as `findMemberLoop`, with the
assertions met on the way, those of `stringEqual` (`isString()` of `name` and of the member
name compared). `none` is a failed assertion. -/
def findMemberLoopChecked (checked : Bool) (charSize : Nat) (h : Heap) (v name : BasicValue) :
    Nat → MemberIterator → Option MemberIterator
  | 0, member => some member
  | steps + 1, member =>
    if member.ne (BasicMemberIterator.ofNonConst (getMemberEnd v)) then
      match jimiAssert checked (isString name),
        jimiAssert checked (isString (h.members member.mPtr).name) with
      | some _, some _ =>
        if stringEqual charSize h name (h.members member.mPtr).name then some member
        else findMemberLoopChecked checked charSize h v name steps { mPtr := member.mPtr + 1 }
      | _, _ => none
    else some member

/-- The member template `findMember(const BasicValue & name)` in the build given by
`checked`: `jimi_assert(isObject())` and `jimi_assert(name.isString())`, then the loop.
The assertion of `getMemberBegin` and `getMemberEnd` is `isObject()` again. -/
def findMemberChecked (checked : Bool) (charSize : Nat) (h : Heap) (v name : BasicValue) :
    Option MemberIterator :=
  match jimiAssert checked (isObject v), jimiAssert checked (isString name) with
  | some _, some _ =>
    findMemberLoopChecked checked charSize h v name v.mValueData.size (getMemberBegin v)
  | _, _ => none

/-- The member template `operator[] (const BasicValue & name)`, in the build given by
`checked`; `none` is a failed assertion. On a miss the source executes `jimi_assert(false)`
and then returns `NullValue`, a name declared nowhere, right after declaring
`static BasicValue nullValue;` the embedding returns that default-constructed static. -/
def index (checked : Bool) (charSize : Nat) (h : Heap) (v name : BasicValue) :
    Option BasicValue :=
  match findMemberChecked checked charSize h v name with
  | none => none
  | some member =>
    if member.ne (BasicMemberIterator.ofNonConst (getMemberEnd v)) then
      some (member.deref h).value
    else
      match jimiAssert checked false with
      | none => none
      | some _ => some construct

end BasicValue

/-! ## Document.h: `BasicDocument` -/

/-- What a document does to the free store: `new PoolAllocatorType()`, which yields the
address of a default-constructed pool allocator, and `delete` of a pool allocator. -/
inductive StoreEvent where
  | newPoolAllocator (addr : Nat)
  | deletePoolAllocator (addr : Nat)
deriving DecidableEq, Repr

/-- The data members of the class `BasicDocument`; a `PoolAllocatorType *` is an address,
`NULL` is `0`. -/
structure BasicDocument where
  mPoolAllocator : Nat
  mPoolAllocatorNeedFree : Bool
deriving DecidableEq, Repr

namespace BasicDocument

/-- The member `initPoolAllocator(poolAllocator)`; `fresh` is the address that
`new PoolAllocatorType()` returns. -/
def initPoolAllocator (d : BasicDocument) (poolAllocator fresh : Nat) :
    BasicDocument × List StoreEvent :=
  if poolAllocator = 0 then
    let newPoolAllocator := fresh
    if newPoolAllocator ≠ 0 then
      ({ mPoolAllocator := newPoolAllocator, mPoolAllocatorNeedFree := true },
        [StoreEvent.newPoolAllocator fresh])
    else (d, [StoreEvent.newPoolAllocator fresh])
  else (d, [])

/-- The constructor `BasicDocument(const PoolAllocatorType * poolAllocator = NULL)`. -/
def construct (poolAllocator fresh : Nat) : BasicDocument × List StoreEvent :=
  initPoolAllocator { mPoolAllocator := poolAllocator, mPoolAllocatorNeedFree := false }
    poolAllocator fresh

/-- The member `getAllocator()`. -/
def getAllocator (d : BasicDocument) : Nat := d.mPoolAllocator

/-- The member `destroy()`, the body of the destructor. -/
def destroy (d : BasicDocument) : BasicDocument × List StoreEvent :=
  if d.mPoolAllocatorNeedFree then
    if d.mPoolAllocator ≠ 0 then
      ({ d with mPoolAllocator := 0 }, [StoreEvent.deletePoolAllocator d.mPoolAllocator])
    else (d, [])
  else (d, [])

end BasicDocument

/-! ## IOStream/FileStream.h: `BasicFileStream` -/

/-- The data member of the class `BasicFileStream`: the handle `mFile` (`NULL` is `0`). -/
structure BasicFileStream where
  mFile : Nat
deriving DecidableEq, Repr

namespace BasicFileStream

/-- The constant `kSupportMarked`. -/
def kSupportMarked : Bool := true

/-- The member `markSupported()`. -/
def markSupported (_s : BasicFileStream) : Bool := kSupportMarked

/-- The member `mark(int readlimit)`: the body is empty. -/
def mark (s : BasicFileStream) (_readlimit : Int) : BasicFileStream := s

/-- The member `reset()`: the body is empty. -/
def reset (s : BasicFileStream) : BasicFileStream := s

end BasicFileStream

/-! ## Further sample values -/

/-- The name "a" of the sample heap, as a borrowed string at another address (4200) than
the first member name. -/
def sampleNameA : BasicValue := ⟨kConstStringMask, ⟨4200, 1, 0, 0⟩⟩

/-- The name "ac" of the sample heap, which no member of `sampleObject` carries. -/
def sampleNameAC : BasicValue := ⟨kConstStringMask, ⟨4500, 2, 0, 0⟩⟩

/-- The result of `steps` applications of `operator ++()`. -/
def BasicMemberIterator.incTimes {IsConst : Bool} (it : BasicMemberIterator IsConst) :
    Nat → BasicMemberIterator IsConst
  | 0 => it
  | steps + 1 => (it.incTimes steps).inc

/-- The number of chunks in the list of a `MemoryPoolAllocator` after `count` calls
`allocate(size)` on a freshly constructed allocator; `none` if a call fails. -/
def MemoryPoolAllocator.chunkCountAfter (cfg : Config) (raw : RawAllocator)
    (count size : Nat) : Option Nat :=
  (MemoryPoolAllocator.allocateSeq cfg (MemoryPoolAllocator.init cfg raw)
    (List.replicate count size)).map (fun r => r.2.mChunkHead.length)

/-! ## Arithmetic of machine words -/

theorem wsub_of_le {a b : Nat} (ha : a < wordSize) (hb : b ≤ a) : wsub a b = a - b := by
  unfold wsub wordSize at *
  omega

theorem wadd_of_lt {a b : Nat} (h : a + b < wordSize) : wadd a b = a + b := by
  unfold wadd
  exact Nat.mod_eq_of_lt h

theorem alignedTo_eight (n : Nat) (h : (n + 7) / 8 * 8 < wordSize) :
    alignedTo n kMallocAlignmentSize = (n + 7) / 8 * 8 := by
  unfold alignedTo kMallocAlignmentSize
  exact Nat.mod_eq_of_lt h

theorem alignedTo_mod_eight (n : Nat) : alignedTo n kMallocAlignmentSize % 8 = 0 := by
  unfold alignedTo kMallocAlignmentSize wordSize
  omega

/-! ## The fast path of `allocate` -/

theorem MemoryPoolAllocator.mp_allocate_fast (cfg : Config) (c : ChunkHead)
    (next : List ChunkHead) (raw : RawAllocator) (n : Nat) (hw : c.remain < wordSize)
    (h : (n + 7) / 8 * 8 ≤ c.remain) :
    allocate cfg ⟨c :: next, raw⟩ n
      = some (c.cursor,
          ⟨{ c with cursor := c.cursor + (n + 7) / 8 * 8,
                    remain := c.remain - (n + 7) / 8 * 8 } :: next, raw⟩) := by
  have hr : alignedTo n kMallocAlignmentSize = (n + 7) / 8 * 8 :=
    alignedTo_eight n (lt_of_le_of_lt h hw)
  simp only [allocate, hr, if_pos h, wsub_of_le hw h]

theorem SimpleMemoryPoolAllocator.simple_allocate_fast (cfg : Config) (s : Pool) (n : Nat)
    (hw : s.mChunkHead.remain < wordSize) (h : (n + 7) / 8 * 8 ≤ s.mChunkHead.remain) :
    allocate cfg s n
      = (s.mChunkHead.cursor,
          { s with mChunkHead :=
              { s.mChunkHead with
                cursor := s.mChunkHead.cursor + (n + 7) / 8 * 8
                remain := s.mChunkHead.remain - (n + 7) / 8 * 8 } }) := by
  have hr : alignedTo n kMallocAlignmentSize = (n + 7) / 8 * 8 :=
    alignedTo_eight n (lt_of_le_of_lt h hw)
  simp only [allocate, hr, if_pos h, wsub_of_le hw h]

theorem FastMemoryPoolAllocator.fast_allocate_fast (cfg : Config) (c : ChunkInfo)
    (next : List ChunkInfo) (ut ct : Nat) (raw : RawAllocator) (n : Nat)
    (hw : c.capacity < wordSize) (hu : c.used ≤ c.capacity)
    (h : (n + 7) / 8 * 8 ≤ c.capacity - c.used) :
    allocate cfg ⟨c :: next, ut, ct, raw⟩ n
      = some (c.addr + c.used,
          ⟨{ c with used := c.used + (n + 7) / 8 * 8 } :: next, ut, ct, raw⟩) := by
  have hsum : c.used + (n + 7) / 8 * 8 < wordSize := by omega
  have hr : alignedTo n kMallocAlignmentSize = (n + 7) / 8 * 8 :=
    alignedTo_eight n (by omega)
  have hle : c.used + (n + 7) / 8 * 8 ≤ c.capacity := by omega
  simp only [allocate, hr, wadd_of_lt hsum, if_pos hle]

/-- C1. Fast path of `allocate` in the three pool variants. Let `r` be `n` rounded up
to the next multiple of 8. If `r` is at most the remaining bytes of the current chunk
(`remain`; for `FastMemoryPoolAllocator`, `capacity - used`), then `allocate(n)` returns
the cursor as it was before the call (`cursor`; for `FastMemoryPoolAllocator`, chunk
address plus used bytes), advances the cursor by exactly `r`, decreases the remaining
bytes by exactly `r`, and leaves the chunk list and everything else as they were. The
counters are `size_t` values, and the used bytes of a `FastMemoryPoolAllocator` chunk do
not exceed its capacity. -/
theorem allocate_fast_path (cfg : Config) (n : Nat) (raw : RawAllocator)
    (c : MemoryPoolAllocator.ChunkHead) (next : List MemoryPoolAllocator.ChunkHead)
    (s : SimpleMemoryPoolAllocator.Pool)
    (f : FastMemoryPoolAllocator.ChunkInfo) (fnext : List FastMemoryPoolAllocator.ChunkInfo)
    (usedTotal capacityTotal : Nat)
    (hc : c.remain < wordSize) (hs : s.mChunkHead.remain < wordSize)
    (hf : f.capacity < wordSize) (hfu : f.used ≤ f.capacity) :
    ((n + 7) / 8 * 8 ≤ c.remain →
      MemoryPoolAllocator.allocate cfg ⟨c :: next, raw⟩ n
        = some (c.cursor,
            ⟨{ c with cursor := c.cursor + (n + 7) / 8 * 8,
                      remain := c.remain - (n + 7) / 8 * 8 } :: next, raw⟩))
    ∧ ((n + 7) / 8 * 8 ≤ s.mChunkHead.remain →
      SimpleMemoryPoolAllocator.allocate cfg s n
        = (s.mChunkHead.cursor,
            { s with mChunkHead :=
                { s.mChunkHead with
                  cursor := s.mChunkHead.cursor + (n + 7) / 8 * 8
                  remain := s.mChunkHead.remain - (n + 7) / 8 * 8 } }))
    ∧ ((n + 7) / 8 * 8 ≤ f.capacity - f.used →
      FastMemoryPoolAllocator.allocate cfg ⟨f :: fnext, usedTotal, capacityTotal, raw⟩ n
        = some (f.addr + f.used,
            ⟨{ f with used := f.used + (n + 7) / 8 * 8 } :: fnext, usedTotal, capacityTotal,
              raw⟩)
        ∧ f.capacity - (f.used + (n + 7) / 8 * 8) = (f.capacity - f.used) - (n + 7) / 8 * 8) :=
  ⟨fun h => MemoryPoolAllocator.mp_allocate_fast cfg c next raw n hc h,
   fun h => SimpleMemoryPoolAllocator.simple_allocate_fast cfg s n hs h,
   fun h => ⟨FastMemoryPoolAllocator.fast_allocate_fast cfg f fnext usedTotal capacityTotal raw n
      hf hfu h, by omega⟩⟩

/-- C1, at a concrete input: a request of 5 bytes on freshly constructed pools (128-byte
chunks) returns the first byte after the chunk header and consumes 8 bytes. -/
theorem allocate_fast_path_witness :
    MemoryPoolAllocator.allocate sampleConfig
        (MemoryPoolAllocator.init sampleConfig freshRaw) 5
      = some (4128, ⟨[⟨4096, 4136, 88, 128⟩], ⟨1, []⟩⟩)
    ∧ SimpleMemoryPoolAllocator.allocate sampleConfig
        (SimpleMemoryPoolAllocator.init sampleConfigSimple freshRaw) 5
      = (4112, ⟨⟨4120, 104, 128, [⟨4096, 128⟩], 0, 128⟩, ⟨1, []⟩⟩)
    ∧ FastMemoryPoolAllocator.allocate sampleConfig
        (FastMemoryPoolAllocator.init sampleConfig freshRaw) 5
      = some (4128, ⟨[⟨4096, 40, 128⟩], 0, 128, ⟨1, []⟩⟩) :=
  have h := allocate_fast_path sampleConfig 5 ⟨1, []⟩ ⟨4096, 4128, 96, 128⟩ []
    (SimpleMemoryPoolAllocator.init sampleConfigSimple freshRaw) ⟨4096, 32, 128⟩ [] 0 128
    (by decide) (by decide) (by decide) (by decide)
  ⟨h.1 (by decide), h.2.1 (by decide), (h.2.2 (by decide)).1⟩

/-! ## `reallocate` to a size that is not larger -/

/-- C3. `reallocate` never shrinks: in each of the three variants, for every pool
state, memory, pointer `p` and sizes with `newSize ≤ oldSize`, `reallocate(p, oldSize,
newSize)` returns `p` and leaves the whole pool state (chunk list, cursor, remaining and
used counters, raw allocator) and the memory unchanged. -/
theorem reallocate_never_shrinks (cfg : Config) (mem : Memory) (p oldSize newSize : Nat)
    (m : MemoryPoolAllocator.Pool) (s : SimpleMemoryPoolAllocator.Pool)
    (f : FastMemoryPoolAllocator.Pool) (h : newSize ≤ oldSize) :
    MemoryPoolAllocator.reallocate cfg m mem p oldSize newSize = some (p, m, mem)
    ∧ SimpleMemoryPoolAllocator.reallocate cfg s mem p oldSize newSize = (p, s, mem)
    ∧ FastMemoryPoolAllocator.reallocate cfg f mem p oldSize newSize = some (p, f, mem) := by
  have h' : oldSize ≥ newSize := h
  refine ⟨?_, ?_, ?_⟩
  · simp only [MemoryPoolAllocator.reallocate, if_pos h']
  · simp only [SimpleMemoryPoolAllocator.reallocate, if_pos h']
  · simp only [FastMemoryPoolAllocator.reallocate, if_pos h']

/-- C3, at a concrete input: shrinking a 24-byte block at address 4128 to 8 bytes on
freshly constructed pools. -/
theorem reallocate_never_shrinks_witness :
    MemoryPoolAllocator.reallocate sampleConfig
        (MemoryPoolAllocator.init sampleConfig freshRaw) labelledMemory 4128 24 8
      = some (4128, MemoryPoolAllocator.init sampleConfig freshRaw, labelledMemory)
    ∧ SimpleMemoryPoolAllocator.reallocate sampleConfigSimple
        (SimpleMemoryPoolAllocator.init sampleConfigSimple freshRaw) labelledMemory 4128 24 8
      = (4128, SimpleMemoryPoolAllocator.init sampleConfigSimple freshRaw, labelledMemory)
    ∧ FastMemoryPoolAllocator.reallocate sampleConfig
        (FastMemoryPoolAllocator.init sampleConfig freshRaw) labelledMemory 4128 24 8
      = some (4128, FastMemoryPoolAllocator.init sampleConfig freshRaw, labelledMemory) :=
  ⟨(reallocate_never_shrinks sampleConfig labelledMemory 4128 24 8
      (MemoryPoolAllocator.init sampleConfig freshRaw)
      (SimpleMemoryPoolAllocator.init sampleConfigSimple freshRaw)
      (FastMemoryPoolAllocator.init sampleConfig freshRaw) (by decide)).1,
   (reallocate_never_shrinks sampleConfigSimple labelledMemory 4128 24 8
      (MemoryPoolAllocator.init sampleConfig freshRaw)
      (SimpleMemoryPoolAllocator.init sampleConfigSimple freshRaw)
      (FastMemoryPoolAllocator.init sampleConfig freshRaw) (by decide)).2.1,
   (reallocate_never_shrinks sampleConfig labelledMemory 4128 24 8
      (MemoryPoolAllocator.init sampleConfig freshRaw)
      (SimpleMemoryPoolAllocator.init sampleConfigSimple freshRaw)
      (FastMemoryPoolAllocator.init sampleConfig freshRaw) (by decide)).2.2⟩

/-! ## `deallocate` and `kNeedFree` -/

/-- C10. In each of the three bump-allocator variants `kNeedFree` is `false`, and both
overloads of `deallocate` (with and without a size) are no-ops: for every pool state and
every pointer, the pool state after the call equals the state before it. -/
theorem deallocate_is_noop (p size : Nat) (m : MemoryPoolAllocator.Pool)
    (s : SimpleMemoryPoolAllocator.Pool) (f : FastMemoryPoolAllocator.Pool) :
    (MemoryPoolAllocator.kNeedFree = false
      ∧ MemoryPoolAllocator.deallocate m p none = m
      ∧ MemoryPoolAllocator.deallocate m p (some size) = m)
    ∧ (SimpleMemoryPoolAllocator.kNeedFree = false
      ∧ SimpleMemoryPoolAllocator.deallocate s p none = s
      ∧ SimpleMemoryPoolAllocator.deallocate s p (some size) = s)
    ∧ (FastMemoryPoolAllocator.kNeedFree = false
      ∧ FastMemoryPoolAllocator.deallocate f p none = f
      ∧ FastMemoryPoolAllocator.deallocate f p (some size) = f) :=
  ⟨⟨rfl, rfl, rfl⟩, ⟨rfl, rfl, rfl⟩, ⟨rfl, rfl, rfl⟩⟩

/-! ## The growth path of `allocate` -/

/-- C2, the code at a concrete input. Fresh pools with 128-byte chunks serve a first
request that leaves 32 bytes in the current chunk and then receive `allocate(40)`. One
default-capacity chunk is added in front of the
list and its first byte after the header is returned, but the new chunk is left with no
byte accounted as used: all `128 - header` bytes remain (96, or 112 for the 16-byte
header), not `128 - header - 40`, the cursor still equals the returned address, and the
next `allocate(8)` returns that same address again. -/
theorem allocate_growth_accounts_nothing :
    (MemoryPoolAllocator.allocate sampleConfig
          (MemoryPoolAllocator.init sampleConfig freshRaw) 64
        = some (4128, ⟨[⟨4096, 4192, 32, 128⟩], ⟨1, []⟩⟩)
      ∧ MemoryPoolAllocator.allocate sampleConfig ⟨[⟨4096, 4192, 32, 128⟩], ⟨1, []⟩⟩ 40
        = some (8224, ⟨[⟨8192, 8224, 96, 128⟩, ⟨4096, 4192, 32, 128⟩], ⟨2, []⟩⟩)
      ∧ MemoryPoolAllocator.allocate sampleConfig
          ⟨[⟨8192, 8224, 96, 128⟩, ⟨4096, 4192, 32, 128⟩], ⟨2, []⟩⟩ 8
        = some (8224, ⟨[⟨8192, 8232, 88, 128⟩, ⟨4096, 4192, 32, 128⟩], ⟨2, []⟩⟩))
    ∧ (SimpleMemoryPoolAllocator.allocate sampleConfigSimple
          (SimpleMemoryPoolAllocator.init sampleConfigSimple freshRaw) 80
        = (4112, ⟨⟨4192, 32, 128, [⟨4096, 128⟩], 0, 128⟩, ⟨1, []⟩⟩)
      ∧ SimpleMemoryPoolAllocator.allocate sampleConfigSimple
          ⟨⟨4192, 32, 128, [⟨4096, 128⟩], 0, 128⟩, ⟨1, []⟩⟩ 40
        = (8208, ⟨⟨8208, 112, 128, [⟨8192, 128⟩, ⟨4096, 128⟩], 96, 256⟩, ⟨2, []⟩⟩)
      ∧ SimpleMemoryPoolAllocator.allocate sampleConfigSimple
          ⟨⟨8208, 112, 128, [⟨8192, 128⟩, ⟨4096, 128⟩], 96, 256⟩, ⟨2, []⟩⟩ 8
        = (8208, ⟨⟨8216, 104, 128, [⟨8192, 128⟩, ⟨4096, 128⟩], 96, 256⟩, ⟨2, []⟩⟩))
    ∧ (FastMemoryPoolAllocator.allocate sampleConfig
          (FastMemoryPoolAllocator.init sampleConfig freshRaw) 64
        = some (4128, ⟨[⟨4096, 96, 128⟩], 0, 128, ⟨1, []⟩⟩)
      ∧ FastMemoryPoolAllocator.allocate sampleConfig ⟨[⟨4096, 96, 128⟩], 0, 128, ⟨1, []⟩⟩ 40
        = some (8224, ⟨[⟨8192, 32, 128⟩, ⟨4096, 96, 128⟩], 96, 256, ⟨2, []⟩⟩)
      ∧ FastMemoryPoolAllocator.allocate sampleConfig
          ⟨[⟨8192, 32, 128⟩, ⟨4096, 96, 128⟩], 96, 256, ⟨2, []⟩⟩ 8
        = some (8224, ⟨[⟨8192, 40, 128⟩, ⟨4096, 96, 128⟩], 96, 256, ⟨2, []⟩⟩)) := by
  decide

/-! ## `reallocate` of the most recent allocation -/

/-- C4, the code at a concrete input. On a freshly constructed pool `p = allocate(5)` is
the most recent allocation of the current chunk and the chunk has 88 (or 104) bytes
left, yet `reallocate(p, 5, 6)` does not return `p`: the test compares `p` with the
cursor position minus the unrounded old size 5, fails, and the block is allocated anew 8
bytes further on. -/
theorem reallocate_in_place_misses_unaligned_size :
    (MemoryPoolAllocator.allocate sampleConfig
          (MemoryPoolAllocator.init sampleConfig freshRaw) 5
        = some (4128, ⟨[⟨4096, 4136, 88, 128⟩], ⟨1, []⟩⟩)
      ∧ (MemoryPoolAllocator.reallocate sampleConfig ⟨[⟨4096, 4136, 88, 128⟩], ⟨1, []⟩⟩
            labelledMemory 4128 5 6).map (fun r => (r.1, r.2.1))
        = some (4136, ⟨[⟨4096, 4144, 80, 128⟩], ⟨1, []⟩⟩))
    ∧ (SimpleMemoryPoolAllocator.allocate sampleConfigSimple
          (SimpleMemoryPoolAllocator.init sampleConfigSimple freshRaw) 5
        = (4112, ⟨⟨4120, 104, 128, [⟨4096, 128⟩], 0, 128⟩, ⟨1, []⟩⟩)
      ∧ (SimpleMemoryPoolAllocator.reallocate sampleConfigSimple
            ⟨⟨4120, 104, 128, [⟨4096, 128⟩], 0, 128⟩, ⟨1, []⟩⟩ labelledMemory 4112 5 6).1
        = 4120)
    ∧ (FastMemoryPoolAllocator.allocate sampleConfig
          (FastMemoryPoolAllocator.init sampleConfig freshRaw) 5
        = some (4128, ⟨[⟨4096, 40, 128⟩], 0, 128, ⟨1, []⟩⟩)
      ∧ (FastMemoryPoolAllocator.reallocate sampleConfig ⟨[⟨4096, 40, 128⟩], 0, 128, ⟨1, []⟩⟩
            labelledMemory 4128 5 6).map (fun r => (r.1, r.2.1))
        = some (4136, ⟨[⟨4096, 48, 128⟩], 0, 128, ⟨1, []⟩⟩)) := by
  decide

/-! ## The fallback path of `reallocate` -/

/-- C5, the code at concrete inputs. In `MemoryPoolAllocator` and
`SimpleMemoryPoolAllocator`, on a fresh pool: `p = allocate(8)`; `reallocate(p, 8, 24)`
extends `p` in place (the remaining bytes drop by 16, the cursor stays); `allocate(8)`
then returns `p + 8`, so `p` is no longer the most recent allocation; finally
`reallocate(p, 24, 40)` falls back, returns `q = p + 16` and copies 24 bytes to `q`, which
overwrites the bytes `p + 16 .. p + 23` of the block at `p` (the byte at `p + 16`, labelled
by its address before the call, afterwards carries the label of `p`). In
`FastMemoryPoolAllocator` the same happens after a growth: with the first chunk full,
`p = allocate(16)` opens a chunk and returns 8224, `allocate(8)` returns 8224 again, and
`reallocate(p, 16, 32)` returns `q = p + 8` and overwrites the bytes `p + 8 .. p + 15`. -/
theorem reallocate_fallback_overwrites_old_block :
    (MemoryPoolAllocator.allocate sampleConfig
          (MemoryPoolAllocator.init sampleConfig freshRaw) 8
        = some (4128, ⟨[⟨4096, 4136, 88, 128⟩], ⟨1, []⟩⟩)
      ∧ (MemoryPoolAllocator.reallocate sampleConfig ⟨[⟨4096, 4136, 88, 128⟩], ⟨1, []⟩⟩
            labelledMemory 4128 8 24).map (fun r => (r.1, r.2.1))
        = some (4128, ⟨[⟨4096, 4136, 72, 128⟩], ⟨1, []⟩⟩)
      ∧ MemoryPoolAllocator.allocate sampleConfig ⟨[⟨4096, 4136, 72, 128⟩], ⟨1, []⟩⟩ 8
        = some (4136, ⟨[⟨4096, 4144, 64, 128⟩], ⟨1, []⟩⟩)
      ∧ (MemoryPoolAllocator.reallocate sampleConfig ⟨[⟨4096, 4144, 64, 128⟩], ⟨1, []⟩⟩
            labelledMemory 4128 24 40).map (fun r => (r.1, r.2.2 4144, r.2.2 4151))
        = some (4144, 4128, 4135)
      ∧ labelledMemory 4144 = 4144 ∧ labelledMemory 4151 = 4151)
    ∧ (SimpleMemoryPoolAllocator.allocate sampleConfigSimple
          (SimpleMemoryPoolAllocator.init sampleConfigSimple freshRaw) 8
        = (4112, ⟨⟨4120, 104, 128, [⟨4096, 128⟩], 0, 128⟩, ⟨1, []⟩⟩)
      ∧ ((fun r => (r.1, r.2.1)) (SimpleMemoryPoolAllocator.reallocate sampleConfigSimple
            ⟨⟨4120, 104, 128, [⟨4096, 128⟩], 0, 128⟩, ⟨1, []⟩⟩ labelledMemory 4112 8 24))
        = (4112, ⟨⟨4120, 88, 128, [⟨4096, 128⟩], 0, 128⟩, ⟨1, []⟩⟩)
      ∧ SimpleMemoryPoolAllocator.allocate sampleConfigSimple
          ⟨⟨4120, 88, 128, [⟨4096, 128⟩], 0, 128⟩, ⟨1, []⟩⟩ 8
        = (4120, ⟨⟨4128, 80, 128, [⟨4096, 128⟩], 0, 128⟩, ⟨1, []⟩⟩)
      ∧ ((fun r => (r.1, r.2.2 4128, r.2.2 4135))
          (SimpleMemoryPoolAllocator.reallocate sampleConfigSimple
            ⟨⟨4128, 80, 128, [⟨4096, 128⟩], 0, 128⟩, ⟨1, []⟩⟩ labelledMemory 4112 24 40))
        = (4128, 4112, 4119)
      ∧ labelledMemory 4128 = 4128 ∧ labelledMemory 4135 = 4135)
    ∧ (FastMemoryPoolAllocator.allocate sampleConfig
          (FastMemoryPoolAllocator.init sampleConfig freshRaw) 96
        = some (4128, ⟨[⟨4096, 128, 128⟩], 0, 128, ⟨1, []⟩⟩)
      ∧ FastMemoryPoolAllocator.allocate sampleConfig ⟨[⟨4096, 128, 128⟩], 0, 128, ⟨1, []⟩⟩ 16
        = some (8224, ⟨[⟨8192, 32, 128⟩, ⟨4096, 128, 128⟩], 128, 256, ⟨2, []⟩⟩)
      ∧ FastMemoryPoolAllocator.allocate sampleConfig
          ⟨[⟨8192, 32, 128⟩, ⟨4096, 128, 128⟩], 128, 256, ⟨2, []⟩⟩ 8
        = some (8224, ⟨[⟨8192, 40, 128⟩, ⟨4096, 128, 128⟩], 128, 256, ⟨2, []⟩⟩)
      ∧ (FastMemoryPoolAllocator.reallocate sampleConfig
            ⟨[⟨8192, 40, 128⟩, ⟨4096, 128, 128⟩], 128, 256, ⟨2, []⟩⟩
            labelledMemory 8224 16 32).map (fun r => (r.1, r.2.2 8232, r.2.2 8239))
        = some (8232, 8224, 8231)
      ∧ labelledMemory 8232 = 8232 ∧ labelledMemory 8239 = 8239) := by
  decide

/-! ## Sequences of `allocate` calls on a fresh pool -/

/-- C6, the code at a concrete input. On fresh pools with 128-byte chunks the requests
64, 40, 8 (all non-zero and smaller than the chunk capacity) are answered with the
addresses `a, b, b`: the second request opens a new chunk and the third is served from
the very same address, so the consecutive blocks `[b, b + 40)` and `[b, b + 8)`
overlap. -/
theorem consecutive_blocks_overlap_after_growth :
    ((MemoryPoolAllocator.allocateSeq sampleConfig
          (MemoryPoolAllocator.init sampleConfig freshRaw) [64, 40, 8]).map (fun r => r.1)
        = some [4128, 8224, 8224]
      ∧ (SimpleMemoryPoolAllocator.allocateSeq sampleConfigSimple
          (SimpleMemoryPoolAllocator.init sampleConfigSimple freshRaw) [80, 40, 8]).1
        = [4112, 8208, 8208]
      ∧ (FastMemoryPoolAllocator.allocateSeq sampleConfig
          (FastMemoryPoolAllocator.init sampleConfig freshRaw) [64, 40, 8]).map (fun r => r.1)
        = some [4128, 8224, 8224])
    ∧ disjointBlocks 8224 40 8224 8 = false
    ∧ disjointBlocks 8208 40 8208 8 = false := by
  decide

/-- C7, the code at a concrete input. On fresh pools with 128-byte chunks, after the
requests 64 and 40 (80 and 40 for the 16-byte header) the current chunk is the second
one; 40 bytes have been handed out from it, yet its remaining counter still holds the
whole usable capacity (96, resp. 112), so handed-out plus remaining bytes exceed the
usable capacity `128 - header` by 40. -/
theorem chunk_accounting_broken_after_growth :
    ((MemoryPoolAllocator.allocateSeq sampleConfig
          (MemoryPoolAllocator.init sampleConfig freshRaw) [64, 40]).map
          (fun r => (bytesHandedOut (r.1.zip [64, 40]) 8192 128,
            r.2.mChunkHead.map (fun c => (c.addr, c.remain, c.capacity))))
        = some (40, [(8192, 96, 128), (4096, 32, 128)])
      ∧ 40 + 96 ≠ 128 - sampleConfig.headSize)
    ∧ ((fun r => (bytesHandedOut (r.1.zip [80, 40]) 8192 128,
            r.2.mChunkHead.head.map (fun c => c.addr), r.2.mChunkHead.remain,
            r.2.mChunkHead.capacity))
          (SimpleMemoryPoolAllocator.allocateSeq sampleConfigSimple
            (SimpleMemoryPoolAllocator.init sampleConfigSimple freshRaw) [80, 40])
        = (40, [8192, 4096], 112, 128)
      ∧ 40 + 112 ≠ 128 - sampleConfigSimple.headSize)
    ∧ ((FastMemoryPoolAllocator.allocateSeq sampleConfig
          (FastMemoryPoolAllocator.init sampleConfig freshRaw) [64, 40]).map
          (fun r => (bytesHandedOut (r.1.zip [64, 40]) 8192 128,
            r.2.mChunkHead.map (fun c => (c.addr, c.capacity - c.used, c.capacity))))
        = some (40, [(8192, 96, 128), (4096, 32, 128)])
      ∧ 40 + 96 ≠ 128 - sampleConfig.headSize) := by
  decide

/-! ## Case analysis and invariants of the reachable pools -/

namespace MemoryPoolAllocator

theorem mp_allocate_cases {cfg : Config} {s s' : Pool} {n p : Nat}
    (h : allocate cfg s n = some (p, s')) :
    (∃ c next, s.mChunkHead = c :: next ∧ p = c.cursor ∧ s'.raw = s.raw
        ∧ s'.mChunkHead =
          { c with cursor := c.cursor + alignedTo n kMallocAlignmentSize,
                   remain := wsub c.remain (alignedTo n kMallocAlignmentSize) } :: next)
    ∨ (s.mChunkHead ≠ [] ∧ (p, s') = addNewChunk cfg s 0) := by
  cases hc : s.mChunkHead with
  | nil => simp [allocate, hc] at h
  | cons c next =>
    by_cases hfit : alignedTo n kMallocAlignmentSize ≤ c.remain
    · left
      simp only [allocate, hc, if_pos hfit, Option.some.injEq, Prod.mk.injEq] at h
      obtain ⟨hp, hs⟩ := h
      subst hs
      exact ⟨c, next, rfl, hp.symm, rfl, rfl⟩
    · right
      simp only [allocate, hc, if_neg hfit, Option.some.injEq] at h
      exact ⟨by simp, h.symm⟩

theorem mp_fallback_cases {cfg : Config} {s s' : Pool} {mem mem' : Memory}
    {ptr size new_size p : Nat}
    (h : (match allocate cfg s new_size with
        | none => none
        | some (newBuffer, s') => some (newBuffer, s', memcpy mem newBuffer ptr size))
      = some (p, s', mem')) :
    allocate cfg s new_size = some (p, s') ∧ mem' = memcpy mem p ptr size := by
  cases ha : allocate cfg s new_size with
  | none => simp [ha] at h
  | some r =>
    obtain ⟨nb, t⟩ := r
    simp only [ha, Option.some.injEq, Prod.mk.injEq] at h
    obtain ⟨h1, h2, h3⟩ := h
    subst h1 h2
    exact ⟨rfl, h3.symm⟩

theorem mp_reallocate_cases {cfg : Config} {s s' : Pool} {mem mem' : Memory}
    {ptr size new_size p : Nat}
    (h : reallocate cfg s mem ptr size new_size = some (p, s', mem')) :
    (p = ptr ∧ s' = s)
    ∨ (∃ c next inc, s.mChunkHead = c :: next ∧ p = ptr ∧ s'.raw = s.raw
        ∧ s'.mChunkHead = { c with remain := wsub c.remain inc } :: next)
    ∨ allocate cfg s new_size = some (p, s') := by
  by_cases hsz : size ≥ new_size
  · left
    simp only [reallocate, if_pos hsz, Option.some.injEq, Prod.mk.injEq] at h
    exact ⟨h.1.symm, h.2.1.symm⟩
  · right
    cases hc : s.mChunkHead with
    | nil => simp [reallocate, if_neg hsz, hc] at h
    | cons c next =>
      simp only [reallocate, if_neg hsz, hc] at h
      split at h
      · split at h
        · left
          simp only [Option.some.injEq, Prod.mk.injEq] at h
          obtain ⟨hp, hs, _⟩ := h
          subst hs
          exact ⟨c, next, _, rfl, hp.symm, rfl, rfl⟩
        · right
          exact (mp_fallback_cases h).1
      · right
        exact (mp_fallback_cases h).1


theorem mp_addNewChunk_aligned (cfg : Config) (s : Pool) (h8 : cfg.headSize % 8 = 0) :
    ∃ c next, (addNewChunk cfg s 0).2.mChunkHead = c :: next ∧ c.addr ≤ c.cursor
      ∧ (c.cursor - c.addr) % 8 = 0 ∧ c.addr ≤ (addNewChunk cfg s 0).1
      ∧ ((addNewChunk cfg s 0).1 - c.addr) % 8 = 0 := by
  refine ⟨_, _, rfl, ?_, ?_, ?_, ?_⟩ <;> simp only [addNewChunk, RawAllocator.malloc] <;> omega

theorem mp_allocate_aligned {cfg : Config} {s s' : Pool} {n p : Nat} (h8 : cfg.headSize % 8 = 0)
    (hinv : ∃ c next, s.mChunkHead = c :: next ∧ c.addr ≤ c.cursor
      ∧ (c.cursor - c.addr) % 8 = 0)
    (h : allocate cfg s n = some (p, s')) :
    ∃ c next, s'.mChunkHead = c :: next ∧ c.addr ≤ c.cursor ∧ (c.cursor - c.addr) % 8 = 0
      ∧ c.addr ≤ p ∧ (p - c.addr) % 8 = 0 := by
  rcases mp_allocate_cases h with ⟨c, next, hc, hp, _, hs'⟩ | ⟨_, hg⟩
  · obtain ⟨c0, next0, hc0, hle, hmod⟩ := hinv
    rw [hc] at hc0
    obtain ⟨rfl, rfl⟩ := List.cons.inj hc0
    have hr := alignedTo_mod_eight n
    refine ⟨_, _, hs', ?_, ?_, ?_, ?_⟩ <;> simp only [hp] <;> omega
  · have := mp_addNewChunk_aligned cfg s h8
    rw [← hg] at this
    exact this

theorem mp_reachable_aligned {cfg : Config} {s : Pool} (h8 : cfg.headSize % 8 = 0)
    (hr : Reachable cfg s) :
    ∃ c next, s.mChunkHead = c :: next ∧ c.addr ≤ c.cursor ∧ (c.cursor - c.addr) % 8 = 0 := by
  induction hr with
  | init raw =>
    obtain ⟨c, next, h1, h2, h3, _⟩ := mp_addNewChunk_aligned cfg ⟨[], raw⟩ h8
    exact ⟨c, next, h1, h2, h3⟩
  | allocate _ h ih =>
    obtain ⟨c, next, h1, h2, h3, _⟩ := mp_allocate_aligned h8 ih h
    exact ⟨c, next, h1, h2, h3⟩
  | reallocate _ h ih =>
    rcases mp_reallocate_cases h with ⟨_, hs⟩ | ⟨c, next, inc, hc, _, _, hs'⟩ | ha
    · rw [hs]; exact ih
    · obtain ⟨c0, next0, hc0, hle, hmod⟩ := ih
      rw [hc] at hc0
      obtain ⟨rfl, rfl⟩ := List.cons.inj hc0
      exact ⟨_, _, hs', hle, hmod⟩
    · obtain ⟨c, next, h1, h2, h3, _⟩ := mp_allocate_aligned h8 ih ha
      exact ⟨c, next, h1, h2, h3⟩

theorem mp_freeChunks_eq (raw : RawAllocator) (l : List ChunkHead) :
    freeChunks raw l = ⟨raw.mallocCount, raw.freed ++ l.map (fun c => c.addr)⟩ := by
  induction l generalizing raw with
  | nil => simp [freeChunks]
  | cons c next ih => simp [freeChunks, ih, RawAllocator.free]

theorem mp_addNewChunk_chunks (cfg : Config) (s : Pool) (size : Nat)
    (hinj : Function.Injective cfg.heapAddr)
    (hinv : (s.mChunkHead.map (fun c => c.addr)).Nodup
      ∧ ∀ a ∈ s.mChunkHead.map (fun c => c.addr), ∃ k, k < s.raw.mallocCount ∧ a = cfg.heapAddr k) :
    ((addNewChunk cfg s size).2.mChunkHead.map (fun c => c.addr)).Nodup
      ∧ ∀ a ∈ (addNewChunk cfg s size).2.mChunkHead.map (fun c => c.addr),
          ∃ k, k < (addNewChunk cfg s size).2.raw.mallocCount ∧ a = cfg.heapAddr k := by
  obtain ⟨hnd, hall⟩ := hinv
  simp only [addNewChunk, RawAllocator.malloc, List.map_cons, List.nodup_cons, List.mem_cons]
  refine ⟨⟨?_, hnd⟩, ?_⟩
  · intro hmem
    obtain ⟨k, hk, he⟩ := hall _ hmem
    have := hinj he
    omega
  · rintro a (rfl | ha)
    · exact ⟨_, Nat.lt_succ_self _, rfl⟩
    · obtain ⟨k, hk, he⟩ := hall a ha
      exact ⟨k, Nat.lt_succ_of_lt hk, he⟩

theorem mp_reachable_chunks {cfg : Config} {s : Pool} (hinj : Function.Injective cfg.heapAddr)
    (hr : Reachable cfg s) :
    (s.mChunkHead.map (fun c => c.addr)).Nodup
      ∧ ∀ a ∈ s.mChunkHead.map (fun c => c.addr), ∃ k, k < s.raw.mallocCount ∧ a = cfg.heapAddr k := by
  have hstep : ∀ {s s' : Pool} {n p : Nat},
      ((s.mChunkHead.map (fun c => c.addr)).Nodup
        ∧ ∀ a ∈ s.mChunkHead.map (fun c => c.addr),
            ∃ k, k < s.raw.mallocCount ∧ a = cfg.heapAddr k) →
      allocate cfg s n = some (p, s') →
      ((s'.mChunkHead.map (fun c => c.addr)).Nodup
        ∧ ∀ a ∈ s'.mChunkHead.map (fun c => c.addr),
            ∃ k, k < s'.raw.mallocCount ∧ a = cfg.heapAddr k) := by
    intro s s' n p ih h
    rcases mp_allocate_cases h with ⟨c, next, hc, _, hraw, hs'⟩ | ⟨_, hg⟩
    · rw [hs', hraw]
      rw [hc] at ih
      exact ih
    · have := mp_addNewChunk_chunks cfg s 0 hinj ih
      rw [← hg] at this
      exact this
  induction hr with
  | init raw =>
    exact mp_addNewChunk_chunks cfg ⟨[], raw⟩ 0 hinj ⟨by simp, by simp⟩
  | allocate _ h ih => exact hstep ih h
  | reallocate _ h ih =>
    rcases mp_reallocate_cases h with ⟨_, hs⟩ | ⟨c, next, inc, hc, _, hraw, hs'⟩ | ha
    · rw [hs]; exact ih
    · rw [hs', hraw]
      rw [hc] at ih
      exact ih
    · exact hstep ih ha

end MemoryPoolAllocator

namespace SimpleMemoryPoolAllocator

theorem simple_allocate_cases (cfg : Config) (s : Pool) (n : Nat) :
    ((allocate cfg s n).1 = s.mChunkHead.cursor ∧ (allocate cfg s n).2.raw = s.raw
        ∧ (allocate cfg s n).2.mChunkHead =
          { s.mChunkHead with
            cursor := s.mChunkHead.cursor + alignedTo n kMallocAlignmentSize
            remain := wsub s.mChunkHead.remain (alignedTo n kMallocAlignmentSize) })
    ∨ allocate cfg s n = addNewChunk cfg s 0 := by
  by_cases hfit : alignedTo n kMallocAlignmentSize ≤ s.mChunkHead.remain
  · left
    simp only [allocate, if_pos hfit, and_self]
  · right
    simp only [allocate, if_neg hfit]

theorem simple_reallocate_cases (cfg : Config) (s : Pool) (mem : Memory) (ptr size new_size : Nat) :
    (reallocate cfg s mem ptr size new_size).2.1 = s
    ∨ (∃ inc, (reallocate cfg s mem ptr size new_size).2.1.raw = s.raw
        ∧ (reallocate cfg s mem ptr size new_size).2.1.mChunkHead =
          { s.mChunkHead with remain := wsub s.mChunkHead.remain inc })
    ∨ (reallocate cfg s mem ptr size new_size).2.1 = (allocate cfg s new_size).2 := by
  by_cases hsz : size ≥ new_size
  · left
    simp only [reallocate, if_pos hsz]
  · right
    simp only [reallocate, if_neg hsz]
    split
    · split
      · left
        exact ⟨_, rfl, rfl⟩
      · right
        rfl
    · right
      rfl

theorem simple_addNewChunk_aligned (cfg : Config) (s : Pool) (h8 : cfg.headSize % 8 = 0) :
    (addNewChunk cfg s 0).2.mChunkHead.head ≠ []
      ∧ headAddr (addNewChunk cfg s 0).2.mChunkHead ≤ (addNewChunk cfg s 0).2.mChunkHead.cursor
      ∧ ((addNewChunk cfg s 0).2.mChunkHead.cursor
          - headAddr (addNewChunk cfg s 0).2.mChunkHead) % 8 = 0
      ∧ headAddr (addNewChunk cfg s 0).2.mChunkHead ≤ (addNewChunk cfg s 0).1
      ∧ ((addNewChunk cfg s 0).1 - headAddr (addNewChunk cfg s 0).2.mChunkHead) % 8 = 0 := by
  refine ⟨?_, ?_, ?_, ?_, ?_⟩ <;>
    simp only [addNewChunk, RawAllocator.malloc, headAddr, ne_eq, reduceCtorEq,
      not_false_eq_true] <;> omega

theorem simple_allocate_aligned (cfg : Config) (s : Pool) (n : Nat) (h8 : cfg.headSize % 8 = 0)
    (hinv : s.mChunkHead.head ≠ [] ∧ headAddr s.mChunkHead ≤ s.mChunkHead.cursor
      ∧ (s.mChunkHead.cursor - headAddr s.mChunkHead) % 8 = 0) :
    (allocate cfg s n).2.mChunkHead.head ≠ []
      ∧ headAddr (allocate cfg s n).2.mChunkHead ≤ (allocate cfg s n).2.mChunkHead.cursor
      ∧ ((allocate cfg s n).2.mChunkHead.cursor
          - headAddr (allocate cfg s n).2.mChunkHead) % 8 = 0
      ∧ headAddr (allocate cfg s n).2.mChunkHead ≤ (allocate cfg s n).1
      ∧ ((allocate cfg s n).1 - headAddr (allocate cfg s n).2.mChunkHead) % 8 = 0 := by
  rcases simple_allocate_cases cfg s n with ⟨hp, _, hs'⟩ | hg
  · obtain ⟨hne, hle, hmod⟩ := hinv
    have hr := alignedTo_mod_eight n
    rw [hp, hs']
    refine ⟨hne, ?_, ?_, ?_, ?_⟩ <;> simp only [headAddr] at * <;> omega
  · rw [hg]
    exact simple_addNewChunk_aligned cfg s h8

theorem simple_reachable_aligned {cfg : Config} {s : Pool} (h8 : cfg.headSize % 8 = 0)
    (hr : Reachable cfg s) :
    s.mChunkHead.head ≠ [] ∧ headAddr s.mChunkHead ≤ s.mChunkHead.cursor
      ∧ (s.mChunkHead.cursor - headAddr s.mChunkHead) % 8 = 0 := by
  induction hr with
  | init raw =>
    obtain ⟨h1, h2, h3, _⟩ := simple_addNewChunk_aligned cfg
      ⟨⟨0, 0, 0, [], 0, 0⟩, raw⟩ h8
    exact ⟨h1, h2, h3⟩
  | allocate n _ ih =>
    obtain ⟨h1, h2, h3, _⟩ := simple_allocate_aligned cfg _ n h8 ih
    exact ⟨h1, h2, h3⟩
  | @reallocate s mem ptr size new_size _ ih =>
    rcases simple_reallocate_cases cfg s mem ptr size new_size with hs | ⟨inc, _, hs'⟩ | ha
    · rw [hs]; exact ih
    · rw [hs']
      exact ih
    · rw [ha]
      obtain ⟨h1, h2, h3, _⟩ := simple_allocate_aligned cfg s new_size h8 ih
      exact ⟨h1, h2, h3⟩

theorem simple_freeChunks_eq (raw : RawAllocator) (l : List ChunkInfo) :
    freeChunks raw l = ⟨raw.mallocCount, raw.freed ++ l.map (fun c => c.addr)⟩ := by
  induction l generalizing raw with
  | nil => simp [freeChunks]
  | cons c next ih => simp [freeChunks, ih, RawAllocator.free]

theorem simple_addNewChunk_chunks (cfg : Config) (s : Pool) (size : Nat)
    (hinj : Function.Injective cfg.heapAddr)
    (hinv : (s.mChunkHead.head.map (fun c => c.addr)).Nodup
      ∧ ∀ a ∈ s.mChunkHead.head.map (fun c => c.addr),
          ∃ k, k < s.raw.mallocCount ∧ a = cfg.heapAddr k) :
    ((addNewChunk cfg s size).2.mChunkHead.head.map (fun c => c.addr)).Nodup
      ∧ ∀ a ∈ (addNewChunk cfg s size).2.mChunkHead.head.map (fun c => c.addr),
          ∃ k, k < (addNewChunk cfg s size).2.raw.mallocCount ∧ a = cfg.heapAddr k := by
  obtain ⟨hnd, hall⟩ := hinv
  simp only [addNewChunk, RawAllocator.malloc, List.map_cons, List.nodup_cons, List.mem_cons]
  refine ⟨⟨?_, hnd⟩, ?_⟩
  · intro hmem
    obtain ⟨k, hk, he⟩ := hall _ hmem
    have := hinj he
    omega
  · rintro a (rfl | ha)
    · exact ⟨_, Nat.lt_succ_self _, rfl⟩
    · obtain ⟨k, hk, he⟩ := hall a ha
      exact ⟨k, Nat.lt_succ_of_lt hk, he⟩

theorem simple_reachable_chunks {cfg : Config} {s : Pool} (hinj : Function.Injective cfg.heapAddr)
    (hr : Reachable cfg s) :
    (s.mChunkHead.head.map (fun c => c.addr)).Nodup
      ∧ ∀ a ∈ s.mChunkHead.head.map (fun c => c.addr),
          ∃ k, k < s.raw.mallocCount ∧ a = cfg.heapAddr k := by
  have hstep : ∀ (s : Pool) (n : Nat),
      ((s.mChunkHead.head.map (fun c => c.addr)).Nodup
        ∧ ∀ a ∈ s.mChunkHead.head.map (fun c => c.addr),
            ∃ k, k < s.raw.mallocCount ∧ a = cfg.heapAddr k) →
      (((allocate cfg s n).2.mChunkHead.head.map (fun c => c.addr)).Nodup
        ∧ ∀ a ∈ (allocate cfg s n).2.mChunkHead.head.map (fun c => c.addr),
            ∃ k, k < (allocate cfg s n).2.raw.mallocCount ∧ a = cfg.heapAddr k) := by
    intro s n ih
    rcases simple_allocate_cases cfg s n with ⟨_, hraw, hs'⟩ | hg
    · rw [hs', hraw]
      exact ih
    · rw [hg]
      exact simple_addNewChunk_chunks cfg s 0 hinj ih
  induction hr with
  | init raw =>
    exact simple_addNewChunk_chunks cfg ⟨⟨0, 0, 0, [], 0, 0⟩, raw⟩ 0 hinj ⟨by simp, by simp⟩
  | allocate n _ ih => exact hstep _ n ih
  | @reallocate s mem ptr size new_size _ ih =>
    rcases simple_reallocate_cases cfg s mem ptr size new_size with hs | ⟨inc, hraw, hs'⟩ | ha
    · rw [hs]; exact ih
    · rw [hs', hraw]
      exact ih
    · rw [ha]
      exact hstep s new_size ih

end SimpleMemoryPoolAllocator

namespace FastMemoryPoolAllocator

theorem fast_allocate_cases {cfg : Config} {s s' : Pool} {n p : Nat}
    (h : allocate cfg s n = some (p, s')) :
    (∃ c next, s.mChunkHead = c :: next ∧ p = c.addr + c.used ∧ s'.raw = s.raw
        ∧ s'.mChunkHead =
          { c with used := wadd c.used (alignedTo n kMallocAlignmentSize) } :: next)
    ∨ (s.mChunkHead ≠ [] ∧ (p, s') = addNewChunk cfg s 0) := by
  cases hc : s.mChunkHead with
  | nil => simp [allocate, hc] at h
  | cons c next =>
    by_cases hfit : wadd c.used (alignedTo n kMallocAlignmentSize) ≤ c.capacity
    · left
      simp only [allocate, hc, if_pos hfit, Option.some.injEq, Prod.mk.injEq] at h
      obtain ⟨hp, hs⟩ := h
      subst hs
      exact ⟨c, next, rfl, hp.symm, rfl, rfl⟩
    · right
      simp only [allocate, hc, if_neg hfit, Option.some.injEq] at h
      exact ⟨by simp, h.symm⟩

theorem fast_fallback_cases {cfg : Config} {s s' : Pool} {mem mem' : Memory}
    {ptr size new_size p : Nat}
    (h : (match allocate cfg s new_size with
        | none => none
        | some (newBuffer, s') => some (newBuffer, s', memcpy mem newBuffer ptr size))
      = some (p, s', mem')) :
    allocate cfg s new_size = some (p, s') ∧ mem' = memcpy mem p ptr size := by
  cases ha : allocate cfg s new_size with
  | none => simp [ha] at h
  | some r =>
    obtain ⟨nb, t⟩ := r
    simp only [ha, Option.some.injEq, Prod.mk.injEq] at h
    obtain ⟨h1, h2, h3⟩ := h
    subst h1 h2
    exact ⟨rfl, h3.symm⟩

theorem fast_reallocate_cases {cfg : Config} {s s' : Pool} {mem mem' : Memory}
    {ptr size new_size p : Nat}
    (h : reallocate cfg s mem ptr size new_size = some (p, s', mem')) :
    (p = ptr ∧ s' = s)
    ∨ (∃ c next inc, s.mChunkHead = c :: next ∧ p = ptr ∧ s'.raw = s.raw
        ∧ inc = alignedTo (wsub new_size size) kMallocAlignmentSize
        ∧ s'.mChunkHead = { c with used := wadd c.used inc } :: next)
    ∨ allocate cfg s new_size = some (p, s') := by
  by_cases hsz : size ≥ new_size
  · left
    simp only [reallocate, if_pos hsz, Option.some.injEq, Prod.mk.injEq] at h
    exact ⟨h.1.symm, h.2.1.symm⟩
  · right
    cases hc : s.mChunkHead with
    | nil => simp [reallocate, if_neg hsz, hc] at h
    | cons c next =>
      simp only [reallocate, if_neg hsz, hc] at h
      split at h
      · split at h
        · left
          simp only [Option.some.injEq, Prod.mk.injEq] at h
          obtain ⟨hp, hs, _⟩ := h
          subst hs
          exact ⟨c, next, _, rfl, hp.symm, rfl, rfl, rfl⟩
        · right
          exact (fast_fallback_cases h).1
      · right
        exact (fast_fallback_cases h).1

theorem fast_wadd_aligned {a : Nat} (n : Nat) (ha : a % 8 = 0) :
    wadd a (alignedTo n kMallocAlignmentSize) % 8 = 0 := by
  have hr := alignedTo_mod_eight n
  unfold wadd wordSize
  omega

theorem fast_addNewChunk_aligned (cfg : Config) (s : Pool) (h8 : cfg.headSize % 8 = 0) :
    ∃ c next, (addNewChunk cfg s 0).2.mChunkHead = c :: next ∧ c.used % 8 = 0
      ∧ c.addr ≤ (addNewChunk cfg s 0).1 ∧ ((addNewChunk cfg s 0).1 - c.addr) % 8 = 0 := by
  refine ⟨_, _, rfl, ?_, ?_, ?_⟩ <;>
    simp only [addNewChunk, RawAllocator.malloc, wadd, wordSize] <;> omega

theorem fast_allocate_aligned {cfg : Config} {s s' : Pool} {n p : Nat} (h8 : cfg.headSize % 8 = 0)
    (hinv : ∃ c next, s.mChunkHead = c :: next ∧ c.used % 8 = 0)
    (h : allocate cfg s n = some (p, s')) :
    ∃ c next, s'.mChunkHead = c :: next ∧ c.used % 8 = 0
      ∧ c.addr ≤ p ∧ (p - c.addr) % 8 = 0 := by
  rcases fast_allocate_cases h with ⟨c, next, hc, hp, _, hs'⟩ | ⟨_, hg⟩
  · obtain ⟨c0, next0, hc0, hmod⟩ := hinv
    rw [hc] at hc0
    obtain ⟨rfl, rfl⟩ := List.cons.inj hc0
    refine ⟨_, _, hs', fast_wadd_aligned n hmod, ?_, ?_⟩ <;> simp only [hp] <;> omega
  · have := fast_addNewChunk_aligned cfg s h8
    rw [← hg] at this
    exact this

theorem fast_reachable_aligned {cfg : Config} {s : Pool} (h8 : cfg.headSize % 8 = 0)
    (hr : Reachable cfg s) :
    ∃ c next, s.mChunkHead = c :: next ∧ c.used % 8 = 0 := by
  induction hr with
  | init raw =>
    obtain ⟨c, next, h1, h2, _⟩ := fast_addNewChunk_aligned cfg ⟨[], 0, 0, raw⟩ h8
    exact ⟨c, next, h1, h2⟩
  | allocate _ h ih =>
    obtain ⟨c, next, h1, h2, _⟩ := fast_allocate_aligned h8 ih h
    exact ⟨c, next, h1, h2⟩
  | reallocate _ h ih =>
    rcases fast_reallocate_cases h with ⟨_, hs⟩ | ⟨c, next, inc, hc, _, _, hinc, hs'⟩ | ha
    · rw [hs]; exact ih
    · obtain ⟨c0, next0, hc0, hmod⟩ := ih
      rw [hc] at hc0
      obtain ⟨rfl, rfl⟩ := List.cons.inj hc0
      rw [hinc] at hs'
      exact ⟨_, _, hs', fast_wadd_aligned _ hmod⟩
    · obtain ⟨c, next, h1, h2, _⟩ := fast_allocate_aligned h8 ih ha
      exact ⟨c, next, h1, h2⟩

theorem fast_freeChunks_eq (raw : RawAllocator) (l : List ChunkInfo) :
    freeChunks raw l = ⟨raw.mallocCount, raw.freed ++ l.map (fun c => c.addr)⟩ := by
  induction l generalizing raw with
  | nil => simp [freeChunks]
  | cons c next ih => simp [freeChunks, ih, RawAllocator.free]

theorem fast_addNewChunk_chunks (cfg : Config) (s : Pool) (size : Nat)
    (hinj : Function.Injective cfg.heapAddr)
    (hinv : (s.mChunkHead.map (fun c => c.addr)).Nodup
      ∧ ∀ a ∈ s.mChunkHead.map (fun c => c.addr), ∃ k, k < s.raw.mallocCount ∧ a = cfg.heapAddr k) :
    ((addNewChunk cfg s size).2.mChunkHead.map (fun c => c.addr)).Nodup
      ∧ ∀ a ∈ (addNewChunk cfg s size).2.mChunkHead.map (fun c => c.addr),
          ∃ k, k < (addNewChunk cfg s size).2.raw.mallocCount ∧ a = cfg.heapAddr k := by
  obtain ⟨hnd, hall⟩ := hinv
  simp only [addNewChunk, RawAllocator.malloc, List.map_cons, List.nodup_cons, List.mem_cons]
  refine ⟨⟨?_, hnd⟩, ?_⟩
  · intro hmem
    obtain ⟨k, hk, he⟩ := hall _ hmem
    have := hinj he
    omega
  · rintro a (rfl | ha)
    · exact ⟨_, Nat.lt_succ_self _, rfl⟩
    · obtain ⟨k, hk, he⟩ := hall a ha
      exact ⟨k, Nat.lt_succ_of_lt hk, he⟩

theorem fast_reachable_chunks {cfg : Config} {s : Pool} (hinj : Function.Injective cfg.heapAddr)
    (hr : Reachable cfg s) :
    (s.mChunkHead.map (fun c => c.addr)).Nodup
      ∧ ∀ a ∈ s.mChunkHead.map (fun c => c.addr), ∃ k, k < s.raw.mallocCount ∧ a = cfg.heapAddr k := by
  have hstep : ∀ {s s' : Pool} {n p : Nat},
      ((s.mChunkHead.map (fun c => c.addr)).Nodup
        ∧ ∀ a ∈ s.mChunkHead.map (fun c => c.addr),
            ∃ k, k < s.raw.mallocCount ∧ a = cfg.heapAddr k) →
      allocate cfg s n = some (p, s') →
      ((s'.mChunkHead.map (fun c => c.addr)).Nodup
        ∧ ∀ a ∈ s'.mChunkHead.map (fun c => c.addr),
            ∃ k, k < s'.raw.mallocCount ∧ a = cfg.heapAddr k) := by
    intro s s' n p ih h
    rcases fast_allocate_cases h with ⟨c, next, hc, _, hraw, hs'⟩ | ⟨_, hg⟩
    · rw [hs', hraw]
      rw [hc] at ih
      exact ih
    · have := fast_addNewChunk_chunks cfg s 0 hinj ih
      rw [← hg] at this
      exact this
  induction hr with
  | init raw =>
    exact fast_addNewChunk_chunks cfg ⟨[], 0, 0, raw⟩ 0 hinj ⟨by simp, by simp⟩
  | allocate _ h ih => exact hstep ih h
  | reallocate _ h ih =>
    rcases fast_reallocate_cases h with ⟨_, hs⟩ | ⟨c, next, inc, hc, _, hraw, _, hs'⟩ | ha
    · rw [hs]; exact ih
    · rw [hs', hraw]
      rw [hc] at ih
      exact ih
    · exact hstep ih ha

end FastMemoryPoolAllocator

/-- The raw allocator of the sample builds returns pairwise distinct addresses. -/
theorem sampleConfig_heapAddr_injective : Function.Injective sampleConfig.heapAddr := by
  intro a b h
  simp only [sampleConfig] at h
  omega

/-- The raw allocator of the sample builds returns pairwise distinct addresses. -/
theorem sampleConfigSimple_heapAddr_injective :
    Function.Injective sampleConfigSimple.heapAddr := by
  intro a b h
  simp only [sampleConfigSimple] at h
  omega

/-! ## `destroy` -/

/-- C9. Destroy, in each of the three variants, for every pool reachable from
construction by `allocate` and `reallocate` (the raw allocator handing out pairwise
distinct addresses): `destroy()` appends to the log of `free` calls exactly the addresses
of the chunks of the chunk list, in list order (newest first), these addresses are
pairwise distinct (each chunk is freed exactly once), the chunk list is empty afterwards,
and a second `destroy()` changes nothing, so it frees nothing. -/
theorem destroy_frees_each_chunk_once (cm cs cf : Config)
    (m : MemoryPoolAllocator.Pool) (s : SimpleMemoryPoolAllocator.Pool)
    (f : FastMemoryPoolAllocator.Pool)
    (im : Function.Injective cm.heapAddr) (is : Function.Injective cs.heapAddr)
    (ifa : Function.Injective cf.heapAddr)
    (rm : MemoryPoolAllocator.Reachable cm m) (rs : SimpleMemoryPoolAllocator.Reachable cs s)
    (rf : FastMemoryPoolAllocator.Reachable cf f) :
    ((MemoryPoolAllocator.destroy m).raw.freed
          = m.raw.freed ++ m.mChunkHead.map (fun c => c.addr)
      ∧ (m.mChunkHead.map (fun c => c.addr)).Nodup
      ∧ (MemoryPoolAllocator.destroy m).mChunkHead = []
      ∧ MemoryPoolAllocator.destroy (MemoryPoolAllocator.destroy m)
          = MemoryPoolAllocator.destroy m)
    ∧ ((SimpleMemoryPoolAllocator.destroy s).raw.freed
          = s.raw.freed ++ s.mChunkHead.head.map (fun c => c.addr)
      ∧ (s.mChunkHead.head.map (fun c => c.addr)).Nodup
      ∧ (SimpleMemoryPoolAllocator.destroy s).mChunkHead.head = []
      ∧ SimpleMemoryPoolAllocator.destroy (SimpleMemoryPoolAllocator.destroy s)
          = SimpleMemoryPoolAllocator.destroy s)
    ∧ ((FastMemoryPoolAllocator.destroy f).raw.freed
          = f.raw.freed ++ f.mChunkHead.map (fun c => c.addr)
      ∧ (f.mChunkHead.map (fun c => c.addr)).Nodup
      ∧ (FastMemoryPoolAllocator.destroy f).mChunkHead = []
      ∧ FastMemoryPoolAllocator.destroy (FastMemoryPoolAllocator.destroy f)
          = FastMemoryPoolAllocator.destroy f) := by
  refine ⟨⟨?_, (MemoryPoolAllocator.mp_reachable_chunks im rm).1, ?_, ?_⟩,
    ⟨?_, (SimpleMemoryPoolAllocator.simple_reachable_chunks is rs).1, ?_, ?_⟩,
    ⟨?_, (FastMemoryPoolAllocator.fast_reachable_chunks ifa rf).1, ?_, ?_⟩⟩
  · simp [MemoryPoolAllocator.destroy, MemoryPoolAllocator.kAutoRelease,
      MemoryPoolAllocator.mp_freeChunks_eq]
  · simp [MemoryPoolAllocator.destroy, MemoryPoolAllocator.kAutoRelease]
  · simp [MemoryPoolAllocator.destroy, MemoryPoolAllocator.kAutoRelease,
      MemoryPoolAllocator.freeChunks]
  · simp [SimpleMemoryPoolAllocator.destroy, SimpleMemoryPoolAllocator.kAutoRelease,
      SimpleMemoryPoolAllocator.simple_freeChunks_eq]
  · simp [SimpleMemoryPoolAllocator.destroy, SimpleMemoryPoolAllocator.kAutoRelease]
  · simp [SimpleMemoryPoolAllocator.destroy, SimpleMemoryPoolAllocator.kAutoRelease,
      SimpleMemoryPoolAllocator.freeChunks]
  · simp [FastMemoryPoolAllocator.destroy, FastMemoryPoolAllocator.kAutoRelease,
      FastMemoryPoolAllocator.fast_freeChunks_eq]
  · simp [FastMemoryPoolAllocator.destroy, FastMemoryPoolAllocator.kAutoRelease]
  · simp [FastMemoryPoolAllocator.destroy, FastMemoryPoolAllocator.kAutoRelease,
      FastMemoryPoolAllocator.freeChunks]

/-- C9, at a concrete input: pools that have grown to two chunks (at 8192 and 4096);
`destroy()` frees 8192, then 4096, and leaves no chunk. -/
theorem destroy_frees_each_chunk_once_witness :
    ((MemoryPoolAllocator.destroy
          ⟨[⟨8192, 8224, 96, 128⟩, ⟨4096, 4192, 32, 128⟩], ⟨2, []⟩⟩).raw.freed = [8192, 4096]
      ∧ (MemoryPoolAllocator.destroy
          ⟨[⟨8192, 8224, 96, 128⟩, ⟨4096, 4192, 32, 128⟩], ⟨2, []⟩⟩).mChunkHead = [])
    ∧ ((SimpleMemoryPoolAllocator.destroy
          ⟨⟨8208, 112, 128, [⟨8192, 128⟩, ⟨4096, 128⟩], 96, 256⟩, ⟨2, []⟩⟩).raw.freed
          = [8192, 4096]
      ∧ (SimpleMemoryPoolAllocator.destroy
          ⟨⟨8208, 112, 128, [⟨8192, 128⟩, ⟨4096, 128⟩], 96, 256⟩, ⟨2, []⟩⟩).mChunkHead.head = [])
    ∧ ((FastMemoryPoolAllocator.destroy
          ⟨[⟨8192, 32, 128⟩, ⟨4096, 96, 128⟩], 96, 256, ⟨2, []⟩⟩).raw.freed = [8192, 4096]
      ∧ (FastMemoryPoolAllocator.destroy
          ⟨[⟨8192, 32, 128⟩, ⟨4096, 96, 128⟩], 96, 256, ⟨2, []⟩⟩).mChunkHead = []) :=
  have h := destroy_frees_each_chunk_once sampleConfig sampleConfigSimple sampleConfig
    ⟨[⟨8192, 8224, 96, 128⟩, ⟨4096, 4192, 32, 128⟩], ⟨2, []⟩⟩
    ⟨⟨8208, 112, 128, [⟨8192, 128⟩, ⟨4096, 128⟩], 96, 256⟩, ⟨2, []⟩⟩
    ⟨[⟨8192, 32, 128⟩, ⟨4096, 96, 128⟩], 96, 256, ⟨2, []⟩⟩
    sampleConfig_heapAddr_injective sampleConfigSimple_heapAddr_injective
    sampleConfig_heapAddr_injective
    (@MemoryPoolAllocator.Reachable.allocate sampleConfig
      ⟨[⟨4096, 4192, 32, 128⟩], ⟨1, []⟩⟩ _ 40 8224
      (@MemoryPoolAllocator.Reachable.allocate sampleConfig
        (MemoryPoolAllocator.init sampleConfig freshRaw) _ 64 4128
        (MemoryPoolAllocator.Reachable.init freshRaw) (by decide)) (by decide))
    (SimpleMemoryPoolAllocator.Reachable.allocate 40
      (SimpleMemoryPoolAllocator.Reachable.allocate 80
        (SimpleMemoryPoolAllocator.Reachable.init freshRaw)))
    (@FastMemoryPoolAllocator.Reachable.allocate sampleConfig
      ⟨[⟨4096, 96, 128⟩], 0, 128, ⟨1, []⟩⟩ _ 40 8224
      (@FastMemoryPoolAllocator.Reachable.allocate sampleConfig
        (FastMemoryPoolAllocator.init sampleConfig freshRaw) _ 64 4128
        (FastMemoryPoolAllocator.Reachable.init freshRaw) (by decide)) (by decide))
  ⟨⟨h.1.1, h.1.2.2.1⟩, ⟨h.2.1.1, h.2.1.2.2.1⟩, ⟨h.2.2.1, h.2.2.2.2.1⟩⟩

/-! ## Alignment -/

/-- C8, the claim at a concrete input. For the request size `2 ^ 64 - 1` the rounded
size wraps around to 0, which is not at least the request; on a fresh pool the call
returns the cursor and consumes no byte at all. -/
theorem rounded_size_wraps_at_max_request :
    alignedTo 18446744073709551615 kMallocAlignmentSize = 0
    ∧ ¬ (18446744073709551615 ≤ alignedTo 18446744073709551615 kMallocAlignmentSize)
    ∧ MemoryPoolAllocator.allocate sampleConfig
        (MemoryPoolAllocator.init sampleConfig freshRaw) 18446744073709551615
      = some (4128, MemoryPoolAllocator.init sampleConfig freshRaw)
    ∧ FastMemoryPoolAllocator.allocate sampleConfig
        (FastMemoryPoolAllocator.init sampleConfig freshRaw) 18446744073709551615
      = some (4128, FastMemoryPoolAllocator.init sampleConfig freshRaw) := by
  decide

/-- C8, amended. For every request size `n` the rounded size `r` that `allocate(n)` works
with is a multiple of 8, and for `n ≤ 2 ^ 64 - 8` it is at least `n` and less than
`n + 8`. On the fast path of each variant the cursor advances by exactly `r`. When the
chunk header size is a multiple of 8, every address returned by `allocate` on a pool
reachable from construction by `allocate` and `reallocate`, on the fast path and on the
growth path alike, lies at an offset from the base of the (then) current chunk that is
a multiple of 8. -/
theorem allocate_alignment (cm cs cf : Config) (n : Nat)
    (m : MemoryPoolAllocator.Pool) (s : SimpleMemoryPoolAllocator.Pool)
    (f : FastMemoryPoolAllocator.Pool)
    (hm : cm.headSize % 8 = 0) (hs : cs.headSize % 8 = 0) (hf : cf.headSize % 8 = 0)
    (rm : MemoryPoolAllocator.Reachable cm m) (rs : SimpleMemoryPoolAllocator.Reachable cs s)
    (rf : FastMemoryPoolAllocator.Reachable cf f) :
    (alignedTo n kMallocAlignmentSize % 8 = 0
      ∧ (n + 8 ≤ wordSize →
          n ≤ alignedTo n kMallocAlignmentSize ∧ alignedTo n kMallocAlignmentSize < n + 8))
    ∧ ((∀ c next, m.mChunkHead = c :: next → alignedTo n kMallocAlignmentSize ≤ c.remain →
          (MemoryPoolAllocator.allocate cm m n).map
              (fun r => (r.1, r.2.mChunkHead.map (fun d => (d.addr, d.cursor))))
            = some (c.cursor, (c.addr, c.cursor + alignedTo n kMallocAlignmentSize)
                :: next.map (fun d => (d.addr, d.cursor))))
      ∧ (alignedTo n kMallocAlignmentSize ≤ s.mChunkHead.remain →
          (SimpleMemoryPoolAllocator.allocate cs s n).1 = s.mChunkHead.cursor
            ∧ (SimpleMemoryPoolAllocator.allocate cs s n).2.mChunkHead.cursor
              = s.mChunkHead.cursor + alignedTo n kMallocAlignmentSize
            ∧ (SimpleMemoryPoolAllocator.allocate cs s n).2.mChunkHead.head = s.mChunkHead.head)
      ∧ (∀ c next, f.mChunkHead = c :: next →
          c.used + alignedTo n kMallocAlignmentSize ≤ c.capacity → c.capacity < wordSize →
          (FastMemoryPoolAllocator.allocate cf f n).map
              (fun r => (r.1, r.2.mChunkHead.map (fun d => (d.addr, d.used))))
            = some (c.addr + c.used, (c.addr, c.used + alignedTo n kMallocAlignmentSize)
                :: next.map (fun d => (d.addr, d.used)))))
    ∧ ((∀ p m', MemoryPoolAllocator.allocate cm m n = some (p, m') →
          ∃ c next, m'.mChunkHead = c :: next ∧ c.addr ≤ p ∧ (p - c.addr) % 8 = 0)
      ∧ (SimpleMemoryPoolAllocator.allocate cs s n).2.mChunkHead.head ≠ []
      ∧ SimpleMemoryPoolAllocator.headAddr (SimpleMemoryPoolAllocator.allocate cs s n).2.mChunkHead
          ≤ (SimpleMemoryPoolAllocator.allocate cs s n).1
      ∧ ((SimpleMemoryPoolAllocator.allocate cs s n).1
          - SimpleMemoryPoolAllocator.headAddr
              (SimpleMemoryPoolAllocator.allocate cs s n).2.mChunkHead) % 8 = 0
      ∧ (∀ p f', FastMemoryPoolAllocator.allocate cf f n = some (p, f') →
          ∃ c next, f'.mChunkHead = c :: next ∧ c.addr ≤ p ∧ (p - c.addr) % 8 = 0)) := by
  refine ⟨⟨alignedTo_mod_eight n, ?_⟩, ⟨?_, ?_, ?_⟩, ⟨?_, ?_, ?_, ?_, ?_⟩⟩
  · intro hn
    unfold alignedTo kMallocAlignmentSize wordSize at *
    omega
  · intro c next hc hfit
    simp only [MemoryPoolAllocator.allocate, hc, if_pos hfit, Option.map_some', List.map_cons]
  · intro hfit
    simp only [SimpleMemoryPoolAllocator.allocate, if_pos hfit, and_self]
  · intro c next hc hfit hw
    have hsum : wadd c.used (alignedTo n kMallocAlignmentSize)
        = c.used + alignedTo n kMallocAlignmentSize := wadd_of_lt (by omega)
    simp only [FastMemoryPoolAllocator.allocate, hc, hsum, if_pos hfit, Option.map_some',
      List.map_cons]
  · intro p m' h
    obtain ⟨c, next, h1, _, _, h4, h5⟩ := MemoryPoolAllocator.mp_allocate_aligned hm
      (MemoryPoolAllocator.mp_reachable_aligned hm rm) h
    exact ⟨c, next, h1, h4, h5⟩
  · exact (SimpleMemoryPoolAllocator.simple_allocate_aligned cs s n hs
      (SimpleMemoryPoolAllocator.simple_reachable_aligned hs rs)).1
  · exact (SimpleMemoryPoolAllocator.simple_allocate_aligned cs s n hs
      (SimpleMemoryPoolAllocator.simple_reachable_aligned hs rs)).2.2.2.1
  · exact (SimpleMemoryPoolAllocator.simple_allocate_aligned cs s n hs
      (SimpleMemoryPoolAllocator.simple_reachable_aligned hs rs)).2.2.2.2
  · intro p f' h
    obtain ⟨c, next, h1, _, h4, h5⟩ := FastMemoryPoolAllocator.fast_allocate_aligned hf
      (FastMemoryPoolAllocator.fast_reachable_aligned hf rf) h
    exact ⟨c, next, h1, h4, h5⟩

/-- C8 amended, at a concrete input: a request of 5 bytes on freshly constructed pools
is rounded to a multiple of 8 that is at least 5, and the returned address 4128 lies at
an offset from the base of the current chunk that is a multiple of 8. -/
theorem allocate_alignment_witness :
    alignedTo 5 kMallocAlignmentSize % 8 = 0
    ∧ 5 ≤ alignedTo 5 kMallocAlignmentSize
    ∧ (∃ c next, (⟨[⟨4096, 4136, 88, 128⟩], ⟨1, []⟩⟩ : MemoryPoolAllocator.Pool).mChunkHead
          = c :: next ∧ c.addr ≤ 4128 ∧ (4128 - c.addr) % 8 = 0)
    ∧ (∃ c next,
        (⟨[⟨4096, 40, 128⟩], 0, 128, ⟨1, []⟩⟩ : FastMemoryPoolAllocator.Pool).mChunkHead
          = c :: next ∧ c.addr ≤ 4128 ∧ (4128 - c.addr) % 8 = 0) :=
  have h := allocate_alignment sampleConfig sampleConfigSimple sampleConfig 5
    (MemoryPoolAllocator.init sampleConfig freshRaw)
    (SimpleMemoryPoolAllocator.init sampleConfigSimple freshRaw)
    (FastMemoryPoolAllocator.init sampleConfig freshRaw)
    (by decide) (by decide) (by decide)
    (MemoryPoolAllocator.Reachable.init freshRaw)
    (SimpleMemoryPoolAllocator.Reachable.init freshRaw)
    (FastMemoryPoolAllocator.Reachable.init freshRaw)
  ⟨h.1.1, (h.1.2 (by decide)).1,
    h.2.2.1 4128 ⟨[⟨4096, 4136, 88, 128⟩], ⟨1, []⟩⟩ (by decide),
    h.2.2.2.2.2.2 4128 ⟨[⟨4096, 40, 128⟩], 0, 128, ⟨1, []⟩⟩ (by decide)⟩

/-! ## Type tags -/

/-- C15, the claim at a concrete input: a value tagged `kTrueMask` (and likewise one
tagged `kFalseMask`) answers true to two of the six predicates, `isBool` and `isNumber`. -/
theorem bool_tags_are_numbers :
    BasicValue.topLevelPredicates ⟨kTrueMask, zeroData⟩
      = [false, true, false, false, false, true]
    ∧ BasicValue.topLevelPredicates ⟨kFalseMask, zeroData⟩
      = [false, true, false, false, false, true] := by
  decide

/-- C15, amended. For every tag a value can carry other than the two boolean tags, and
every payload, exactly one of `isNull`, `isBool`, `isObject`, `isArray`, `isString`,
`isNumber` is true; for `kTrueMask` and `kFalseMask` exactly two are, `isBool` and
`isNumber`, because the boolean tags are built on `kNumberBoolMaskBase` and carry the
number bit. -/
theorem top_level_predicates_by_tag (d : ValueData) :
    valueTags.map (fun t => BasicValue.topLevelPredicates ⟨t, d⟩)
      = [[true, false, false, false, false, false],
         [false, true, false, false, false, true],
         [false, true, false, false, false, true],
         [false, false, true, false, false, false],
         [false, false, false, true, false, false],
         [false, false, false, false, false, true],
         [false, false, false, false, false, true],
         [false, false, false, false, false, true],
         [false, false, false, false, false, true],
         [false, false, false, false, false, true],
         [false, false, false, false, false, true],
         [false, false, false, false, true, false],
         [false, false, false, false, true, false],
         [false, false, false, false, true, false]]
    ∧ (valueTags.filter (fun t => t != kTrueMask && t != kFalseMask)).all
        (fun t => (BasicValue.topLevelPredicates ⟨t, d⟩).count true == 1) = true
    ∧ (BasicValue.topLevelPredicates ⟨kTrueMask, d⟩).count true = 2
    ∧ (BasicValue.topLevelPredicates ⟨kFalseMask, d⟩).count true = 2 := by
  have hd : ∀ t, BasicValue.topLevelPredicates ⟨t, d⟩
      = BasicValue.topLevelPredicates ⟨t, zeroData⟩ := fun _ => rfl
  simp only [hd]
  decide

/-- C16, the code at the failing construction route. A value constructed from a C string
by `BasicValue(const CharType *)` gets the tag `kStringMask` without the discriminant
bits, so `getType()` returns 0, which is `kObjectType` and not `kStringType`, although
`isString()` holds. The other routes do return their discriminant: `kNullType` after
default construction, `kObjectType` after `setObject()`, `kStringType` after
`setStringRaw` and after construction from a string reference. -/
theorem getType_of_c_string_is_object (old : ValueData) (str len : Nat) (v : BasicValue)
    (ref : BasicStringRef) :
    (BasicValue.getType (BasicValue.ofCString old str len) = kObjectType
      ∧ BasicValue.getType (BasicValue.ofCString old str len) ≠ kStringType
      ∧ BasicValue.isString (BasicValue.ofCString old str len) = true)
    ∧ BasicValue.getType BasicValue.construct = kNullType
    ∧ BasicValue.getType (BasicValue.setObject v) = kObjectType
    ∧ BasicValue.getType (BasicValue.setStringRaw v ref) = kStringType
    ∧ BasicValue.getType (BasicValue.ofStringRef ref) = kStringType := by
  refine ⟨⟨?_, ?_, ?_⟩, ?_, ?_, ?_, ?_⟩
  · show kStringMask &&& kTypeMask = kObjectType
    decide
  · show kStringMask &&& kTypeMask ≠ kStringType
    decide
  · show ((kStringMask &&& kStringMask) != 0) = true
    decide
  · show kNullMask &&& kTypeMask = kNullType
    decide
  · show kObjectMask &&& kTypeMask = kObjectType
    decide
  · show kConstStringMask &&& kTypeMask = kStringType
    decide
  · show kConstStringMask &&& kTypeMask = kStringType
    decide

/-- C17. `setStringRaw` round trip: for every value `v` in any prior state and every
string reference whose size is a `SizeType` value, after `v.setStringRaw(ref)` the value
is a borrowed string: `isString()` is true, `getString()` is the data pointer of `ref`,
`getStringLength()` is the size of `ref`, and the tag, `kConstStringMask`, has neither the
needs-free bit `kCopyStrMask` nor the inline bit `kInlineStrMask`. -/
theorem setStringRaw_round_trip (v : BasicValue) (ref : BasicStringRef)
    (hsize : ref.mSize < sizeTypeSize) :
    BasicValue.isString (BasicValue.setStringRaw v ref) = true
    ∧ BasicValue.getString (BasicValue.setStringRaw v ref) = ref.mData
    ∧ BasicValue.getStringLength (BasicValue.setStringRaw v ref) = ref.mSize
    ∧ (BasicValue.setStringRaw v ref).mValueType = kConstStringMask
    ∧ (BasicValue.setStringRaw v ref).mValueType &&& kCopyStrMask = 0
    ∧ (BasicValue.setStringRaw v ref).mValueType &&& kInlineStrMask = 0 := by
  refine ⟨?_, ?_, ?_, rfl, ?_, ?_⟩
  · show ((kConstStringMask &&& kStringMask) != 0) = true
    decide
  · simp [BasicValue.getString, BasicValue.setStringRaw]
  · simp [BasicValue.getStringLength, BasicValue.setStringRaw, Nat.mod_eq_of_lt hsize]
  · show kConstStringMask &&& kCopyStrMask = 0
    decide
  · show kConstStringMask &&& kInlineStrMask = 0
    decide

/-- C17, at a concrete input: an array value of 3 items at address 64 is reset to the
borrowed string of 5 characters at address 4096. -/
theorem setStringRaw_round_trip_witness :
    BasicValue.isString (BasicValue.setStringRaw ⟨kArrayMask, ⟨64, 3, 4, 9⟩⟩ ⟨4096, 5⟩) = true
    ∧ BasicValue.getString (BasicValue.setStringRaw ⟨kArrayMask, ⟨64, 3, 4, 9⟩⟩ ⟨4096, 5⟩)
      = 4096
    ∧ BasicValue.getStringLength (BasicValue.setStringRaw ⟨kArrayMask, ⟨64, 3, 4, 9⟩⟩ ⟨4096, 5⟩)
      = 5 :=
  have h := setStringRaw_round_trip ⟨kArrayMask, ⟨64, 3, 4, 9⟩⟩ ⟨4096, 5⟩ (by decide)
  ⟨h.1, h.2.1, h.2.2.1⟩

/-! ## String equality -/

theorem memcmp_eq_zero_iff (mem : Memory) (n p q : Nat) :
    memcmp mem p q n = 0 ↔ ∀ k, k < n → mem (p + k) = mem (q + k) := by
  induction n generalizing p q with
  | zero => simp [memcmp]
  | succ n ih =>
    unfold memcmp
    by_cases hpq : mem p = mem q
    · rw [if_pos hpq, ih]
      constructor
      · intro hall k hk
        cases k with
        | zero => simpa using hpq
        | succ k =>
          have := hall k (by omega)
          simpa [Nat.add_assoc, Nat.add_comm 1 k] using this
      · intro hall k hk
        have := hall (k + 1) (by omega)
        simpa [Nat.add_assoc, Nat.add_comm 1 k] using this
    · rw [if_neg hpq]
      constructor
      · intro hz
        exact absurd (by omega : mem p = mem q) hpq
      · intro hall
        exact absurd (by simpa using hall 0 (by omega)) hpq

theorem charBytes_lt_wordSize {charSize len : Nat} (hlen : len < sizeTypeSize)
    (hcs : charSize ≤ sizeTypeSize) : charSize * len < wordSize := by
  have h1 : charSize * len ≤ sizeTypeSize * len := Nat.mul_le_mul_right len hcs
  unfold sizeTypeSize wordSize at *
  omega

theorem getString_eq (v : BasicValue) : v.getString = v.mValueData.ptr := by
  simp [BasicValue.getString]

theorem getStringLength_eq (v : BasicValue) : v.getStringLength = v.mValueData.size := by
  simp [BasicValue.getStringLength]

theorem stringEqual_iff_bytes (charSize : Nat) (h : Heap) (a b : BasicValue) :
    BasicValue.stringEqual charSize h a b = true
      ↔ a.getStringLength = b.getStringLength
        ∧ ∀ k, k < (charSize * a.getStringLength) % wordSize →
            h.chars (a.getString + k) = h.chars (b.getString + k) := by
  unfold BasicValue.stringEqual
  by_cases hlen : a.getStringLength = b.getStringLength
  · by_cases hptr : a.getString = b.getString
    · simp [hlen, hptr]
    · simp [hlen, hptr, memcmp_eq_zero_iff]
  · simp [hlen]

/-- C13. `stringEqual` decides content equality: for all values `a` and `b` (whatever
their tags: borrowed, owned or inline strings in any combination), with the character
size and the stored length in the range of the 32-bit `SizeType`, `a.stringEqual(b)` is
true if and only if the lengths are equal and the `sizeof(CharType) * length` bytes at the
two string pointers are equal byte for byte; in particular it is false whenever the
lengths differ, and true for equal content at different addresses. -/
theorem stringEqual_decides_content (charSize : Nat) (h : Heap) (a b : BasicValue)
    (hcs : charSize ≤ sizeTypeSize) (ha : a.mValueData.size < sizeTypeSize) :
    (BasicValue.stringEqual charSize h a b = true
      ↔ a.getStringLength = b.getStringLength
        ∧ ∀ k, k < charSize * a.getStringLength →
            h.chars (a.getString + k) = h.chars (b.getString + k))
    ∧ (a.getStringLength ≠ b.getStringLength →
        BasicValue.stringEqual charSize h a b = false) := by
  have hlt : charSize * a.getStringLength < wordSize := by
    rw [getStringLength_eq]
    exact charBytes_lt_wordSize ha hcs
  have hiff := stringEqual_iff_bytes charSize h a b
  rw [Nat.mod_eq_of_lt hlt] at hiff
  refine ⟨hiff, ?_⟩
  intro hne
  cases hs : BasicValue.stringEqual charSize h a b with
  | false => rfl
  | true => exact absurd (hiff.mp hs).1 hne

/-- C13, at a concrete input: the borrowed string "ab" at 4300 and the owned string "ab"
at 4400 are equal; "ab" and "ac" are not; "ab" and "a" are not. -/
theorem stringEqual_decides_content_witness :
    BasicValue.stringEqual 1 sampleHeap ⟨kConstStringMask, ⟨4300, 2, 0, 0⟩⟩
        ⟨kCopyStringMask, ⟨4400, 2, 2, 0⟩⟩ = true
    ∧ BasicValue.stringEqual 1 sampleHeap ⟨kConstStringMask, ⟨4300, 2, 0, 0⟩⟩
        ⟨kConstStringMask, ⟨4500, 2, 0, 0⟩⟩ = false
    ∧ BasicValue.stringEqual 1 sampleHeap ⟨kConstStringMask, ⟨4300, 2, 0, 0⟩⟩
        ⟨kConstStringMask, ⟨4096, 1, 0, 0⟩⟩ = false :=
  ⟨(stringEqual_decides_content 1 sampleHeap ⟨kConstStringMask, ⟨4300, 2, 0, 0⟩⟩
      ⟨kCopyStringMask, ⟨4400, 2, 2, 0⟩⟩ (by decide) (by decide)).1.mpr
      ⟨by decide, by decide⟩,
   by decide,
   (stringEqual_decides_content 1 sampleHeap ⟨kConstStringMask, ⟨4300, 2, 0, 0⟩⟩
      ⟨kConstStringMask, ⟨4096, 1, 0, 0⟩⟩ (by decide) (by decide)).2 (by decide)⟩

/-- C14. `stringEqual` is reflexive and symmetric: for every value `a`,
`a.stringEqual(a)` is true, and for all values `a` and `b`, `a.stringEqual(b)` and
`b.stringEqual(a)` give the same answer. -/
theorem stringEqual_reflexive_symmetric (charSize : Nat) (h : Heap) (a b : BasicValue) :
    BasicValue.stringEqual charSize h a a = true
    ∧ BasicValue.stringEqual charSize h a b = BasicValue.stringEqual charSize h b a := by
  refine ⟨(stringEqual_iff_bytes charSize h a a).mpr ⟨rfl, fun _ _ => rfl⟩, ?_⟩
  rw [Bool.eq_iff_iff, stringEqual_iff_bytes, stringEqual_iff_bytes]
  constructor
  · rintro ⟨hl, hb⟩
    refine ⟨hl.symm, fun k hk => ?_⟩
    rw [← hl] at hk
    exact (hb k hk).symm
  · rintro ⟨hl, hb⟩
    refine ⟨hl.symm, fun k hk => ?_⟩
    rw [← hl] at hk
    exact (hb k hk).symm

/-! ## Member lookup -/

theorem findMemberLoop_cases (charSize : Nat) (h : Heap) (v name : BasicValue) :
    ∀ (steps p : Nat), p + steps = v.mValueData.ptr + v.mValueData.size →
      (∃ i, i < steps
          ∧ BasicValue.stringEqual charSize h name (h.members (p + i)).name = true
          ∧ (∀ j, j < i →
              BasicValue.stringEqual charSize h name (h.members (p + j)).name = false)
          ∧ BasicValue.findMemberLoop charSize h v name steps ⟨p⟩ = ⟨p + i⟩)
      ∨ ((∀ j, j < steps →
            BasicValue.stringEqual charSize h name (h.members (p + j)).name = false)
          ∧ BasicValue.findMemberLoop charSize h v name steps ⟨p⟩ = ⟨p + steps⟩) := by
  intro steps
  induction steps with
  | zero =>
    intro p _
    right
    exact ⟨fun j hj => absurd hj (Nat.not_lt_zero j), rfl⟩
  | succ steps ih =>
    intro p hp
    have hne : (BasicMemberIterator.ne (⟨p⟩ : MemberIterator)
        (BasicMemberIterator.ofNonConst (BasicValue.getMemberEnd v))) = true := by
      simp only [BasicMemberIterator.ne, BasicMemberIterator.ofNonConst,
        BasicValue.getMemberEnd, bne_iff_ne, ne_eq]
      omega
    cases hm : BasicValue.stringEqual charSize h name (h.members p).name with
    | true =>
      left
      refine ⟨0, Nat.succ_pos _, by simpa using hm, fun j hj => absurd hj (Nat.not_lt_zero j), ?_⟩
      simp only [BasicValue.findMemberLoop, hne, hm, if_true, Nat.add_zero]
    | false =>
      have hstep : BasicValue.findMemberLoop charSize h v name (steps + 1) ⟨p⟩
          = BasicValue.findMemberLoop charSize h v name steps ⟨p + 1⟩ := by
        simp only [BasicValue.findMemberLoop, hne, hm, if_true, Bool.false_eq_true, if_false]
      rcases ih (p + 1) (by omega) with ⟨i, hi, hmi, hlow, hres⟩ | ⟨hall, hres⟩
      · left
        refine ⟨i + 1, by omega, ?_, ?_, ?_⟩
        · simpa [Nat.add_assoc, Nat.add_comm 1 i] using hmi
        · intro j hj
          cases j with
          | zero => simpa using hm
          | succ j =>
            have := hlow j (by omega)
            simpa [Nat.add_assoc, Nat.add_comm 1 j] using this
        · rw [hstep, hres]
          simp [Nat.add_assoc, Nat.add_comm 1 i]
      · right
        refine ⟨?_, ?_⟩
        · intro j hj
          cases j with
          | zero => simpa using hm
          | succ j =>
            have := hall j (by omega)
            simpa [Nat.add_assoc, Nat.add_comm 1 j] using this
        · rw [hstep, hres]
          simp [Nat.add_assoc, Nat.add_comm 1 steps]

theorem findMember_cases (charSize : Nat) (h : Heap) (v name : BasicValue) :
    (∃ i, i < v.mValueData.size
        ∧ BasicValue.stringEqual charSize h name
            (h.members (v.mValueData.ptr + i)).name = true
        ∧ (∀ j, j < i → BasicValue.stringEqual charSize h name
            (h.members (v.mValueData.ptr + j)).name = false)
        ∧ BasicValue.findMember charSize h v name = ⟨v.mValueData.ptr + i⟩)
    ∨ ((∀ j, j < v.mValueData.size → BasicValue.stringEqual charSize h name
            (h.members (v.mValueData.ptr + j)).name = false)
        ∧ BasicValue.findMember charSize h v name = BasicValue.getMemberEnd v) :=
  findMemberLoop_cases charSize h v name v.mValueData.size v.mValueData.ptr rfl

/-- C11. `findMember` returns the first match: for every object value `v` with member
run `m[0..size)` and every value `name`, if `i < size` is the least index such that
`name` is string-equal to `m[i].name`, then `findMember(name)` is the iterator at `m + i`;
if no member name is string-equal to `name`, it is `getMemberEnd()`, the iterator at
`m + size`. -/
theorem findMember_returns_first_match (charSize : Nat) (h : Heap) (v name : BasicValue) :
    (∀ i, i < v.mValueData.size →
        BasicValue.stringEqual charSize h name (h.members (v.mValueData.ptr + i)).name = true →
        (∀ j, j < i → BasicValue.stringEqual charSize h name
            (h.members (v.mValueData.ptr + j)).name = false) →
        BasicValue.findMember charSize h v name = ⟨v.mValueData.ptr + i⟩)
    ∧ ((∀ j, j < v.mValueData.size → BasicValue.stringEqual charSize h name
            (h.members (v.mValueData.ptr + j)).name = false) →
        BasicValue.findMember charSize h v name = BasicValue.getMemberEnd v
          ∧ (BasicValue.getMemberEnd v).mPtr = v.mValueData.ptr + v.mValueData.size) := by
  constructor
  · intro i hi hmi hlow
    rcases findMember_cases charSize h v name with ⟨i', hi', hmi', hlow', hres⟩ | ⟨hall, _⟩
    · have hii : i' = i := by
        rcases Nat.lt_trichotomy i' i with hlt | heq | hgt
        · have := hlow i' hlt
          rw [hmi'] at this
          exact absurd this (by simp)
        · exact heq
        · have := hlow' i hgt
          rw [hmi] at this
          exact absurd this (by simp)
      rw [hres, hii]
    · have := hall i hi
      rw [hmi] at this
      exact absurd this (by simp)
  · intro hall
    rcases findMember_cases charSize h v name with ⟨i', hi', hmi', _, _⟩ | ⟨_, hres⟩
    · have := hall i' hi'
      rw [hmi'] at this
      exact absurd this (by simp)
    · exact ⟨hres, rfl⟩

/-- C11, at a concrete input: in the object built by appending ("a", 1), ("b", 2),
("a", 3), stored at the member addresses 10..12, `findMember("a")` is the iterator at
the first member (value 1), `findMember("b")` the one at the second, and
`findMember("ab")` is `getMemberEnd()`. -/
theorem findMember_returns_first_match_witness :
    BasicValue.findMember 1 sampleHeap sampleObject ⟨kConstStringMask, ⟨4200, 1, 0, 0⟩⟩
      = ⟨10⟩
    ∧ (sampleHeap.members 10).value = ⟨kNumberIntMask, ⟨1, 0, 0, 0⟩⟩
    ∧ BasicValue.findMember 1 sampleHeap sampleObject ⟨kConstStringMask, ⟨4100, 1, 0, 0⟩⟩
      = ⟨11⟩
    ∧ BasicValue.findMember 1 sampleHeap sampleObject ⟨kConstStringMask, ⟨4300, 2, 0, 0⟩⟩
      = BasicValue.getMemberEnd sampleObject :=
  ⟨(findMember_returns_first_match 1 sampleHeap sampleObject
      ⟨kConstStringMask, ⟨4200, 1, 0, 0⟩⟩).1 0 (by decide) (by decide) (by decide),
   rfl,
   (findMember_returns_first_match 1 sampleHeap sampleObject
      ⟨kConstStringMask, ⟨4100, 1, 0, 0⟩⟩).1 1 (by decide) (by decide) (by decide),
   ((findMember_returns_first_match 1 sampleHeap sampleObject
      ⟨kConstStringMask, ⟨4300, 2, 0, 0⟩⟩).2 (by decide)).1⟩

theorem hasMember_iff_exists (charSize : Nat) (h : Heap) (v name : BasicValue) :
    BasicValue.hasMember charSize h v name = true
      ↔ ∃ i, i < v.mValueData.size
          ∧ BasicValue.stringEqual charSize h name
              (h.members (v.mValueData.ptr + i)).name = true := by
  have hdef : BasicValue.hasMember charSize h v name
      = ((BasicValue.findMember charSize h v name).mPtr
          != v.mValueData.ptr + v.mValueData.size) := rfl
  rw [hdef]
  rcases findMember_cases charSize h v name with ⟨i, hi, hmi, _, hres⟩ | ⟨hall, hres⟩
  · rw [hres]
    constructor
    · intro _
      exact ⟨i, hi, hmi⟩
    · intro _
      simp only [bne_iff_ne, ne_eq]
      omega
  · rw [hres]
    constructor
    · intro hne
      simp [BasicValue.getMemberEnd] at hne
    · rintro ⟨i, hi, hmi⟩
      have := hall i hi
      rw [hmi] at this
      exact absurd this (by simp)

theorem hasMember_eq_findMember_ne_end (charSize : Nat) (h : Heap) (v name : BasicValue) :
    BasicValue.hasMember charSize h v name
      = decide (BasicValue.findMember charSize h v name ≠ BasicValue.getMemberEnd v) := by
  have hdef : BasicValue.hasMember charSize h v name
      = ((BasicValue.findMember charSize h v name).mPtr
          != v.mValueData.ptr + v.mValueData.size) := rfl
  rw [hdef, Bool.eq_iff_iff]
  simp only [bne_iff_ne, ne_eq, decide_eq_true_eq, BasicValue.getMemberEnd]
  constructor
  · intro hne heq
    exact hne (by rw [heq])
  · intro hne heq
    apply hne
    cases hf : BasicValue.findMember charSize h v name with
    | mk q =>
      rw [hf] at heq
      simp only at heq
      rw [heq]

/-- C12, the claim at a concrete input. The object has one member, whose name is the
empty string; the C string at 4700 has `2 ^ 32` characters. Its length does not fit the
32-bit size field of the temporary value and is stored as 0, so `hasMember` answers
true, although no member has a name of that length. -/
theorem hasMember_c_string_length_wraps :
    BasicValue.hasMemberCStr 1 longHeap emptyNameObject zeroData 4700 4294967296 = true
    ∧ (∀ k, k < 4294967296 → longHeap.chars (4700 + k) ≠ 0)
    ∧ longHeap.chars (4700 + 4294967296) = 0
    ∧ ¬ ∃ i, i < emptyNameObject.mValueData.size
          ∧ (longHeap.members (emptyNameObject.mValueData.ptr + i)).name.getStringLength
              = 4294967296 := by
  refine ⟨by decide, ?_, by decide, ?_⟩
  · intro k hk
    simp only [longHeap, longChars]
    rw [if_pos (by omega)]
    decide
  · rintro ⟨i, _, hlen⟩
    simp [longHeap, BasicValue.getStringLength] at hlen

/-- C12, amended. With the character size and the stored length of `name` in the range
of the 32-bit `SizeType`: `hasMember(name)` is true if and only if some member of the
object has a name whose length and bytes equal those of `name`, and it equals
`findMember(name) != getMemberEnd()`. The C-string overload does the same with the
temporary value built from the C string, whose size field holds the string length modulo
`2 ^ 32`: for a C string shorter than `2 ^ 32` characters it is true if and only if some
member has a name of that length with the same bytes. -/
theorem hasMember_iff_some_member_equal (charSize : Nat) (h : Heap) (v name : BasicValue)
    (old : ValueData) (str len : Nat)
    (hcs : charSize ≤ sizeTypeSize) (hname : name.mValueData.size < sizeTypeSize)
    (hlen : len < sizeTypeSize) :
    (BasicValue.hasMember charSize h v name = true
      ↔ ∃ i, i < v.mValueData.size
          ∧ name.getStringLength = (h.members (v.mValueData.ptr + i)).name.getStringLength
          ∧ ∀ k, k < charSize * name.getStringLength →
              h.chars (name.getString + k)
                = h.chars ((h.members (v.mValueData.ptr + i)).name.getString + k))
    ∧ BasicValue.hasMember charSize h v name
        = decide (BasicValue.findMember charSize h v name ≠ BasicValue.getMemberEnd v)
    ∧ (BasicValue.hasMemberCStr charSize h v old str len = true
      ↔ ∃ i, i < v.mValueData.size
          ∧ len = (h.members (v.mValueData.ptr + i)).name.getStringLength
          ∧ ∀ k, k < charSize * len →
              h.chars (str + k)
                = h.chars ((h.members (v.mValueData.ptr + i)).name.getString + k))
    ∧ BasicValue.hasMemberCStr charSize h v old str len
        = decide (BasicValue.findMemberCStr charSize h v old str len
            ≠ BasicValue.getMemberEnd v) := by
  have key : ∀ (n : BasicValue), n.mValueData.size < sizeTypeSize →
      (BasicValue.hasMember charSize h v n = true
        ↔ ∃ i, i < v.mValueData.size
            ∧ n.getStringLength = (h.members (v.mValueData.ptr + i)).name.getStringLength
            ∧ ∀ k, k < charSize * n.getStringLength →
                h.chars (n.getString + k)
                  = h.chars ((h.members (v.mValueData.ptr + i)).name.getString + k)) := by
    intro n hn
    have hlt : charSize * n.getStringLength < wordSize := by
      rw [getStringLength_eq]
      exact charBytes_lt_wordSize hn hcs
    rw [hasMember_iff_exists]
    constructor
    · rintro ⟨i, hi, hm⟩
      have := (stringEqual_iff_bytes charSize h n _).mp hm
      rw [Nat.mod_eq_of_lt hlt] at this
      exact ⟨i, hi, this.1, this.2⟩
    · rintro ⟨i, hi, hl, hb⟩
      refine ⟨i, hi, (stringEqual_iff_bytes charSize h n _).mpr ⟨hl, ?_⟩⟩
      rw [Nat.mod_eq_of_lt hlt]
      exact hb
  have hc := key (BasicValue.ofCString old str len)
    (by simp only [BasicValue.ofCString]; exact Nat.mod_lt _ (by decide))
  have hl : (BasicValue.ofCString old str len).getStringLength = len := by
    simp [BasicValue.getStringLength, BasicValue.ofCString, Nat.mod_eq_of_lt hlen]
  have hs : (BasicValue.ofCString old str len).getString = str := by
    simp [BasicValue.getString, BasicValue.ofCString]
  rw [hl, hs] at hc
  exact ⟨key name hname, hasMember_eq_findMember_ne_end charSize h v name, hc,
    hasMember_eq_findMember_ne_end charSize h v (BasicValue.ofCString old str len)⟩

/-- C12 amended, at a concrete input: the object with the members "a", "b", "a" has the
member "b" (looked up by a value and by the C string at 4100) and has no member "ab". -/
theorem hasMember_iff_some_member_equal_witness :
    BasicValue.hasMember 1 sampleHeap sampleObject ⟨kConstStringMask, ⟨4100, 1, 0, 0⟩⟩ = true
    ∧ BasicValue.hasMemberCStr 1 sampleHeap sampleObject zeroData 4100 1 = true
    ∧ BasicValue.hasMember 1 sampleHeap sampleObject ⟨kConstStringMask, ⟨4300, 2, 0, 0⟩⟩
        = false :=
  have hb := hasMember_iff_some_member_equal 1 sampleHeap sampleObject
    ⟨kConstStringMask, ⟨4100, 1, 0, 0⟩⟩ zeroData 4100 1 (by decide) (by decide) (by decide)
  ⟨hb.1.mpr ⟨1, by decide, by decide, by decide⟩,
   hb.2.2.1.mpr ⟨1, by decide, by decide, by decide⟩,
   by decide⟩

/-! ## Release -/

theorem release_without_needFree (h : Heap) (depth : Nat) (v : BasicValue) :
    BasicValue.release false h depth v = some [] := by
  unfold BasicValue.release
  simp

theorem release_leaf (h : Heap) (depth : Nat) (v : BasicValue)
    (ha : v.mValueType ≠ kArrayMask) (ho : v.mValueType ≠ kObjectMask)
    (hc : v.mValueType ≠ kCopyStrMask) :
    BasicValue.release true h depth v = some [ReleaseEvent.print] := by
  unfold BasicValue.release
  simp [ha, ho, hc]

theorem release_array (h : Heap) (depth : Nat) (v : BasicValue)
    (ha : v.mValueType = kArrayMask) :
    BasicValue.release true h (depth + 1) v
      = (BasicValue.destroyValues (BasicValue.release true h depth) h v.mValueData.ptr
          v.mValueData.size).map
          (fun events => events ++ [ReleaseEvent.free v.mValueData.ptr]) := by
  rw [BasicValue.release]
  simp [ha]

theorem release_object (h : Heap) (depth : Nat) (v : BasicValue)
    (ho : v.mValueType = kObjectMask) :
    BasicValue.release true h (depth + 1) v
      = (BasicValue.destroyMembers (BasicValue.release true h depth) h v.mValueData.ptr
          v.mValueData.size).map
          (fun events => events ++ [ReleaseEvent.free v.mValueData.ptr]) := by
  have hne : v.mValueType ≠ kArrayMask := by rw [ho]; decide
  rw [BasicValue.release]
  simp only [if_true, if_neg hne, if_pos ho]

mutual
theorem release_tree_events (h : Heap) :
    ∀ (t : ValueTree) (depth : Nat), t.LaidOut h → t.height ≤ depth →
      BasicValue.release true h depth t.root = some t.releaseEvents
  | .leaf v, depth, hl, _ => by
    simp only [ValueTree.LaidOut] at hl
    simpa [ValueTree.root, ValueTree.releaseEvents] using
      release_leaf h depth v hl.1 hl.2.1 hl.2.2
  | .array v items, depth, hl, hd => by
    simp only [ValueTree.LaidOut] at hl
    simp only [ValueTree.height] at hd
    obtain ⟨d, rfl⟩ : ∃ d, depth = d + 1 := ⟨depth - 1, by omega⟩
    have hf := release_forest_events h items d v.mValueData.ptr hl.2.2 (by omega)
    simp only [ValueTree.root, ValueTree.releaseEvents]
    rw [release_array h d v hl.1, ← hl.2.1, hf]
    rfl
  | .object v members, depth, hl, hd => by
    simp only [ValueTree.LaidOut] at hl
    simp only [ValueTree.height] at hd
    obtain ⟨d, rfl⟩ : ∃ d, depth = d + 1 := ⟨depth - 1, by omega⟩
    have hf := release_members_events h members d v.mValueData.ptr hl.2.2 (by omega)
    simp only [ValueTree.root, ValueTree.releaseEvents]
    rw [release_object h d v hl.1, ← hl.2.1, hf]
    rfl
theorem release_forest_events (h : Heap) :
    ∀ (f : ValueForest) (depth addr : Nat), f.LaidOut h addr → f.height ≤ depth →
      BasicValue.destroyValues (BasicValue.release true h depth) h addr f.length
        = some (f.releaseEvents addr)
  | .nil, _, _, _, _ => rfl
  | .cons t rest, depth, addr, hl, hd => by
    simp only [ValueForest.LaidOut] at hl
    simp only [ValueForest.height] at hd
    have ht := release_tree_events h t depth hl.2.1 (by omega)
    have hr := release_forest_events h rest depth (addr + 1) hl.2.2 (by omega)
    simp only [ValueForest.length, BasicValue.destroyValues, hl.1, ht, hr,
      ValueForest.releaseEvents]
theorem release_members_events (h : Heap) :
    ∀ (f : MemberForest) (depth addr : Nat), f.LaidOut h addr → f.height ≤ depth →
      BasicValue.destroyMembers (BasicValue.release true h depth) h addr f.length
        = some (f.releaseEvents addr)
  | .nil, _, _, _, _ => rfl
  | .cons name value rest, depth, addr, hl, hd => by
    simp only [MemberForest.LaidOut] at hl
    simp only [MemberForest.height] at hd
    have hn := release_tree_events h name depth hl.2.1 (by omega)
    have hv := release_tree_events h value depth hl.2.2.1 (by omega)
    have hr := release_members_events h rest depth (addr + 1) hl.2.2.2 (by omega)
    simp only [MemberForest.length, BasicValue.destroyMembers, hl.1, hn, hv, hr,
      MemberForest.releaseEvents]
end

theorem freedBy_append (a b : List ReleaseEvent) :
    freedBy (a ++ b) = freedBy a ++ freedBy b := by
  induction a with
  | nil => rfl
  | cons e rest ih =>
    cases e <;> simp [freedBy, ih]

mutual
theorem freedBy_tree : ∀ (t : ValueTree), freedBy t.releaseEvents = t.buffers
  | .leaf _ => rfl
  | .array v items => by
    simp only [ValueTree.releaseEvents, ValueTree.buffers, freedBy_append,
      freedBy_forest items v.mValueData.ptr, freedBy]
  | .object v members => by
    simp only [ValueTree.releaseEvents, ValueTree.buffers, freedBy_append,
      freedBy_members members v.mValueData.ptr, freedBy]
theorem freedBy_forest :
    ∀ (f : ValueForest) (addr : Nat), freedBy (f.releaseEvents addr) = f.buffers
  | .nil, _ => rfl
  | .cons t rest, addr => by
    simp only [ValueForest.releaseEvents, ValueForest.buffers, freedBy, freedBy_append,
      freedBy_tree t, freedBy_forest rest (addr + 1)]
theorem freedBy_members :
    ∀ (f : MemberForest) (addr : Nat), freedBy (f.releaseEvents addr) = f.buffers
  | .nil, _ => rfl
  | .cons name value rest, addr => by
    simp only [MemberForest.releaseEvents, MemberForest.buffers, freedBy, freedBy_append,
      freedBy_tree name, freedBy_tree value, freedBy_members rest (addr + 1)]
end

/-- C18, the code on an owned string. With `kNeedFree` true (`CrtAllocator`), releasing a
value tagged `kCopyStringMask` frees nothing: the `switch` has a `case kCopyStrMask`, the
bare needs-free bit, which no owned string carries as its whole tag, so the `default`
branch runs and only prints its diagnostic line. -/
theorem release_owned_string_frees_nothing (h : Heap) (depth : Nat) (d : ValueData) :
    BasicValue.release CrtAllocator.kNeedFree h depth ⟨kCopyStringMask, d⟩
      = some [ReleaseEvent.print]
    ∧ freedBy [ReleaseEvent.print] = []
    ∧ kCopyStringMask ≠ kCopyStrMask
    ∧ BasicValue.release CrtAllocator.kNeedFree h depth ⟨kCopyStrMask, d⟩
      = some [ReleaseEvent.free d.ptr] := by
  have a1 : kCopyStringMask ≠ kArrayMask := by decide
  have a2 : kCopyStringMask ≠ kObjectMask := by decide
  have a3 : kCopyStringMask ≠ kCopyStrMask := by decide
  have h1 : kCopyStrMask ≠ kArrayMask := by decide
  have h2 : kCopyStrMask ≠ kObjectMask := by decide
  refine ⟨release_leaf h depth _ a1 a2 a3, rfl, a3, ?_⟩
  rw [BasicValue.release.eq_def]
  simp only [CrtAllocator.kNeedFree, if_true, if_neg h1, if_neg h2]

/-- C20. Release is a no-op under allocators that never free. With the `kNeedFree` of
`StackPoolAllocator`, `MemoryPoolAllocator`, `SimpleMemoryPoolAllocator` or
`FastMemoryPoolAllocator`, for every heap, every value (the root of any tree) and every
recursion bound, `release` returns at once with no effect: no free, no destructor call
on a child, no output. It assigns to no field, so the tag and payload of the value are
as before, and since nothing is freed the state of a pool is as before. -/
theorem release_is_noop_without_needFree (h : Heap) (depth : Nat) (v : BasicValue)
    (m : MemoryPoolAllocator.Pool) (s : SimpleMemoryPoolAllocator.Pool)
    (f : FastMemoryPoolAllocator.Pool) :
    (StackPoolAllocator.kNeedFree = false
      ∧ BasicValue.release StackPoolAllocator.kNeedFree h depth v = some [])
    ∧ (BasicValue.release MemoryPoolAllocator.kNeedFree h depth v = some []
      ∧ (BasicValue.release MemoryPoolAllocator.kNeedFree h depth v).map
          (runFrees (fun pool p => MemoryPoolAllocator.deallocate pool p none) m) = some m)
    ∧ (BasicValue.release SimpleMemoryPoolAllocator.kNeedFree h depth v = some []
      ∧ (BasicValue.release SimpleMemoryPoolAllocator.kNeedFree h depth v).map
          (runFrees (fun pool p => SimpleMemoryPoolAllocator.deallocate pool p none) s)
        = some s)
    ∧ (BasicValue.release FastMemoryPoolAllocator.kNeedFree h depth v = some []
      ∧ (BasicValue.release FastMemoryPoolAllocator.kNeedFree h depth v).map
          (runFrees (fun pool p => FastMemoryPoolAllocator.deallocate pool p none) f)
        = some f) := by
  have hr := release_without_needFree h depth v
  refine ⟨⟨rfl, hr⟩, ⟨hr, ?_⟩, ⟨hr, ?_⟩, ⟨hr, ?_⟩⟩
  · show (BasicValue.release false h depth v).map _ = _
    rw [hr]
    rfl
  · show (BasicValue.release false h depth v).map _ = _
    rw [hr]
    rfl
  · show (BasicValue.release false h depth v).map _ = _
    rw [hr]
    rfl

/-! ## The integer and floating-point predicates -/

/-- C29. `isInt()` and `isUint()` do not single out their tag. `isInt()` tests
`mValueType & kNumberIntMask`, and `kNumberIntMask` is the whole tag
`kNumberMask | kIntegerMask | kInt32Mask | kNumberType`: the test is non-zero for every tag
that shares any of these bits. On a default-constructed (null) value both `isInt()` and
`isUint()` are true while `isNumber()` is false, and over the tags a value can carry
(`valueTags`) both are true for null, true, false and all six number tags, float and
double included. The sibling predicates `isInt64()` and `isUint64()`, which test the single
bits `kInt64Mask` and `kUInt64Mask`, are true for their own tag only. -/
theorem isInt_isUint_true_beyond_their_tag :
    BasicValue.isInt BasicValue.construct = true
    ∧ BasicValue.isUint BasicValue.construct = true
    ∧ BasicValue.isNumber BasicValue.construct = false
    ∧ valueTags.filter (fun t => BasicValue.isInt ⟨t, zeroData⟩)
        = [kNullMask, kTrueMask, kFalseMask, kNumberIntMask, kNumberUIntMask, kNumberInt64Mask,
            kNumberUInt64Mask, kNumberFloatMask, kNumberDoubleMask]
    ∧ valueTags.filter (fun t => BasicValue.isUint ⟨t, zeroData⟩)
        = [kNullMask, kTrueMask, kFalseMask, kNumberIntMask, kNumberUIntMask, kNumberInt64Mask,
            kNumberUInt64Mask, kNumberFloatMask, kNumberDoubleMask]
    ∧ valueTags.filter (fun t => BasicValue.isInt64 ⟨t, zeroData⟩) = [kNumberInt64Mask]
    ∧ valueTags.filter (fun t => BasicValue.isUint64 ⟨t, zeroData⟩) = [kNumberUInt64Mask] := by
  decide

/-- C30. `isFloat()` does not tell float from double. Its body tests `kDoubleMask`, the
same bit as `isDouble()`, so the two predicates agree on every value: for a value tagged
`kNumberFloatMask` both `isFloat()` and `isDouble()` are false, for a value tagged
`kNumberDoubleMask` both are true. Both tags are `isNumber()` and neither is `isInt64()`
or `isUint64()`. -/
theorem isFloat_tests_the_double_bit (d : ValueData) :
    (∀ v : BasicValue, v.isFloat = v.isDouble)
    ∧ BasicValue.isFloat ⟨kNumberFloatMask, d⟩ = false
    ∧ BasicValue.isDouble ⟨kNumberFloatMask, d⟩ = false
    ∧ BasicValue.isFloat ⟨kNumberDoubleMask, d⟩ = true
    ∧ BasicValue.isDouble ⟨kNumberDoubleMask, d⟩ = true
    ∧ BasicValue.isNumber ⟨kNumberFloatMask, d⟩ = true
    ∧ BasicValue.isNumber ⟨kNumberDoubleMask, d⟩ = true
    ∧ BasicValue.isInt64 ⟨kNumberFloatMask, d⟩ = false
    ∧ BasicValue.isUint64 ⟨kNumberFloatMask, d⟩ = false
    ∧ BasicValue.isInt64 ⟨kNumberDoubleMask, d⟩ = false
    ∧ BasicValue.isUint64 ⟨kNumberDoubleMask, d⟩ = false := by
  refine ⟨fun _ => rfl, ?_, ?_, ?_, ?_, ?_, ?_, ?_, ?_, ?_, ?_⟩
  · show ((kNumberFloatMask &&& kDoubleMask) != 0) = false; decide
  · show ((kNumberFloatMask &&& kDoubleMask) != 0) = false; decide
  · show ((kNumberDoubleMask &&& kDoubleMask) != 0) = true; decide
  · show ((kNumberDoubleMask &&& kDoubleMask) != 0) = true; decide
  · show ((kNumberFloatMask &&& kNumberMask) != 0) = true; decide
  · show ((kNumberDoubleMask &&& kNumberMask) != 0) = true; decide
  · show ((kNumberFloatMask &&& kInt64Mask) != 0) = false; decide
  · show ((kNumberFloatMask &&& kUInt64Mask) != 0) = false; decide
  · show ((kNumberDoubleMask &&& kInt64Mask) != 0) = false; decide
  · show ((kNumberDoubleMask &&& kUInt64Mask) != 0) = false; decide

/-! ## `BasicFileStream`: mark and reset -/

/-- C26, the claim as stated fails: on a stream without an open file (`mFile == NULL`)
`markSupported()` does not return false. -/
theorem markSupported_is_not_false :
    ¬ (BasicFileStream.markSupported { mFile := 0 } = false) := by
  decide

/-- C26, amended. For every `BasicFileStream`, `markSupported()` returns the class
constant `kSupportMarked`, which is true; `mark(readlimit)` and `reset()`, whose bodies are
empty, leave the stream, and so its file handle `mFile`, unchanged. -/
theorem markSupported_true_mark_reset_keep_handle (s : BasicFileStream) (readlimit : Int) :
    s.markSupported = BasicFileStream.kSupportMarked
    ∧ s.markSupported = true
    ∧ (s.mark readlimit).mFile = s.mFile
    ∧ s.reset.mFile = s.mFile
    ∧ s.mark readlimit = s ∧ s.reset = s :=
  ⟨rfl, rfl, rfl, rfl, rfl, rfl⟩

/-! ## `setObject`, iteration and unowned payloads -/

/-- C31. `setObject` yields an empty object: for every value `v`, whatever it held, after
`v.setObject()` the predicate `isObject()` is true and `isNull()`, `isBool()`, `isArray()`,
`isString()`, `isNumber()` are false, `getMemberBegin() == getMemberEnd()`, and for every
`name` `findMember(name) == getMemberEnd()` and `hasMember(name)` is false. -/
theorem setObject_yields_empty_object (charSize : Nat) (h : Heap) (v name : BasicValue) :
    v.setObject.isObject = true
    ∧ v.setObject.isNull = false ∧ v.setObject.isBool = false ∧ v.setObject.isArray = false
    ∧ v.setObject.isString = false ∧ v.setObject.isNumber = false
    ∧ v.setObject.getMemberBegin.eq (BasicMemberIterator.ofNonConst v.setObject.getMemberEnd)
        = true
    ∧ (BasicValue.findMember charSize h v.setObject name).eq
        (BasicMemberIterator.ofNonConst v.setObject.getMemberEnd) = true
    ∧ BasicValue.hasMember charSize h v.setObject name = false := by
  refine ⟨?_, ?_, ?_, ?_, ?_, ?_, ?_, ?_, ?_⟩
  · show (kObjectMask == kObjectMask) = true; decide
  · show (kObjectMask == kNullMask) = false; decide
  · show ((kObjectMask &&& kBoolMask) != 0) = false; decide
  · show (kObjectMask == kArrayMask) = false; decide
  · show ((kObjectMask &&& kStringMask) != 0) = false; decide
  · show ((kObjectMask &&& kNumberMask) != 0) = false; decide
  · show ((0 : Nat) == 0 + 0) = true; decide
  · show ((0 : Nat) == 0 + 0) = true; decide
  · show ((0 : Nat) != 0 + 0) = false; decide

/-- C32. Member iteration: for every value `v` holding `n = size` members from `members`
on, `getMemberEnd() - getMemberBegin()` is `n`; `getMemberBegin()` incremented `i` times
points to `members + i`, so it dereferences to the `i`-th stored member, it differs from
`getMemberEnd()` for every `i < n` and equals it for `i = n`; and the conversion of a
mutable iterator to a read-only one keeps the pointer. -/
theorem member_iteration_visits_storage_order (h : Heap) (v : BasicValue) :
    v.getMemberEnd.distance (BasicMemberIterator.ofNonConst v.getMemberBegin)
        = (v.mValueData.size : Int)
    ∧ (∀ i, ((v.getMemberBegin.incTimes i).deref h) = h.members (v.mValueData.ptr + i))
    ∧ (∀ i, i < v.mValueData.size →
        (v.getMemberBegin.incTimes i).ne (BasicMemberIterator.ofNonConst v.getMemberEnd) = true)
    ∧ (v.getMemberBegin.incTimes v.mValueData.size).eq
        (BasicMemberIterator.ofNonConst v.getMemberEnd) = true
    ∧ (∀ it : MemberIterator,
        (BasicMemberIterator.ofNonConst it : ConstMemberIterator).mPtr = it.mPtr
        ∧ (BasicMemberIterator.ofNonConst it : ConstMemberIterator).eq
            (BasicMemberIterator.ofNonConst it) = true
        ∧ it.eq (BasicMemberIterator.ofNonConst it) = true) := by
  have hinc : ∀ i, (v.getMemberBegin.incTimes i).mPtr = v.mValueData.ptr + i := by
    intro i
    induction i with
    | zero => rfl
    | succ k ih =>
      show (v.getMemberBegin.incTimes k).mPtr + 1 = v.mValueData.ptr + (k + 1)
      rw [ih]
      rfl
  refine ⟨?_, ?_, ?_, ?_, ?_⟩
  · show ((v.mValueData.ptr + v.mValueData.size : Nat) : Int) - (v.mValueData.ptr : Int)
        = (v.mValueData.size : Int)
    push_cast
    ring
  · intro i
    show h.members (v.getMemberBegin.incTimes i).mPtr = _
    rw [hinc]
  · intro i hi
    show ((v.getMemberBegin.incTimes i).mPtr != v.mValueData.ptr + v.mValueData.size) = true
    rw [hinc]
    simp only [bne_iff_ne, ne_eq]
    omega
  · show ((v.getMemberBegin.incTimes v.mValueData.size).mPtr
        == v.mValueData.ptr + v.mValueData.size) = true
    rw [hinc]
    simp
  · intro it
    refine ⟨rfl, ?_, ?_⟩
    · show (it.mPtr == it.mPtr) = true
      simp
    · show (it.mPtr == it.mPtr) = true
      simp

/-- C32, at the sample object (three members stored from member address 10 on): the
distance from begin to end is 3, three increments reach the end and fewer do not, and the
members visited are those stored at 10, 11 and 12. -/
theorem member_iteration_visits_storage_order_witness :
    sampleObject.getMemberEnd.distance (BasicMemberIterator.ofNonConst sampleObject.getMemberBegin)
        = 3
    ∧ (sampleObject.getMemberBegin.incTimes 2).ne
        (BasicMemberIterator.ofNonConst sampleObject.getMemberEnd) = true
    ∧ (sampleObject.getMemberBegin.incTimes 3).eq
        (BasicMemberIterator.ofNonConst sampleObject.getMemberEnd) = true
    ∧ (sampleObject.getMemberBegin.incTimes 2).deref sampleHeap = sampleHeap.members 12 :=
  ⟨(member_iteration_visits_storage_order sampleHeap sampleObject).1,
    (member_iteration_visits_storage_order sampleHeap sampleObject).2.2.1 2 (by decide),
    (member_iteration_visits_storage_order sampleHeap sampleObject).2.2.2.1,
    (member_iteration_visits_storage_order sampleHeap sampleObject).2.1 2⟩

/-- C33. Release frees nothing it does not own: with `kNeedFree` true, releasing a value
whose tag is null, true, false, one of the six number tags, the borrowed-string tag or the
inline-string tag, or any tag with the inline bit `kInlineStrMask` set, takes the
`default` branch of the switch: its one effect is the diagnostic line, nothing is passed
to `free` and no destructor of a child runs, for every heap and recursion bound. -/
theorem release_frees_nothing_unowned (h : Heap) (depth : Nat) (v : BasicValue)
    (hv : v.mValueType ∈ [kNullMask, kTrueMask, kFalseMask, kNumberIntMask, kNumberUIntMask,
            kNumberInt64Mask, kNumberUInt64Mask, kNumberFloatMask, kNumberDoubleMask,
            kConstStringMask, kShortStringMask]
          ∨ (v.mValueType &&& kInlineStrMask) ≠ 0) :
    BasicValue.release CrtAllocator.kNeedFree h depth v = some [ReleaseEvent.print]
    ∧ (BasicValue.release CrtAllocator.kNeedFree h depth v).map freedBy = some []
    ∧ ∀ events, BasicValue.release CrtAllocator.kNeedFree h depth v = some events →
        ∀ e ∈ events, (∀ p, e ≠ ReleaseEvent.free p) ∧ (∀ a, e ≠ ReleaseEvent.destroyValue a)
          ∧ (∀ a, e ≠ ReleaseEvent.destroyMember a) := by
  have hne : v.mValueType ≠ kArrayMask ∧ v.mValueType ≠ kObjectMask
      ∧ v.mValueType ≠ kCopyStrMask := by
    rcases hv with hmem | hbit
    · simp only [List.mem_cons, List.mem_singleton, List.not_mem_nil, or_false] at hmem
      rcases hmem with h1 | h1 | h1 | h1 | h1 | h1 | h1 | h1 | h1 | h1 | h1 <;>
        (rw [h1]; decide)
    · refine ⟨?_, ?_, ?_⟩ <;>
        (intro heq; rw [heq] at hbit; exact hbit (by decide))
  have hrel : BasicValue.release CrtAllocator.kNeedFree h depth v = some [ReleaseEvent.print] :=
    release_leaf h depth v hne.1 hne.2.1 hne.2.2
  refine ⟨hrel, ?_, ?_⟩
  · rw [hrel]
    rfl
  · intro events hev e he
    rw [hrel] at hev
    cases hev
    simp only [List.mem_singleton] at he
    subst he
    exact ⟨fun _ hc => (by cases hc), fun _ hc => (by cases hc), fun _ hc => (by cases hc)⟩

/-- C33, at an inline string: a value tagged `kShortStringMask` whose data pointer is 4096
is released without any `free`. -/
theorem release_frees_nothing_unowned_witness :
    (BasicValue.release CrtAllocator.kNeedFree sampleHeap 0
        ⟨kShortStringMask, ⟨4096, 1, 0, 0⟩⟩).map freedBy = some [] :=
  (release_frees_nothing_unowned sampleHeap 0 ⟨kShortStringMask, ⟨4096, 1, 0, 0⟩⟩
    (Or.inr (by decide))).2.1

/-! ## In-place `reallocate` and the position of the next block -/

/-- C27, the code at a concrete input. On fresh pools with 128-byte chunks,
`p = allocate(8)` followed by `reallocate(p, 8, 24)` extends the block in place and returns
`p`. In `MemoryPoolAllocator` and `SimpleMemoryPoolAllocator` only `remain` is lowered (by
16), the cursor stays at `p + 8`: the next `allocate(8)` returns `p + 8`, inside
`[p, p + 24)`, and the cursor no longer equals chunk base + header + bytes accounted as
used. `FastMemoryPoolAllocator`, which raises `used`, returns `p + 24`, a disjoint
block. -/
theorem in_place_reallocate_leaves_cursor_behind :
    (MemoryPoolAllocator.allocate sampleConfig
          (MemoryPoolAllocator.init sampleConfig freshRaw) 8
        = some (4128, ⟨[⟨4096, 4136, 88, 128⟩], ⟨1, []⟩⟩)
      ∧ (MemoryPoolAllocator.reallocate sampleConfig ⟨[⟨4096, 4136, 88, 128⟩], ⟨1, []⟩⟩
            labelledMemory 4128 8 24).map (fun r => (r.1, r.2.1))
        = some (4128, ⟨[⟨4096, 4136, 72, 128⟩], ⟨1, []⟩⟩)
      ∧ MemoryPoolAllocator.allocate sampleConfig ⟨[⟨4096, 4136, 72, 128⟩], ⟨1, []⟩⟩ 8
        = some (4136, ⟨[⟨4096, 4144, 64, 128⟩], ⟨1, []⟩⟩)
      ∧ disjointBlocks 4128 24 4136 8 = false
      ∧ 4136 ≠ 4096 + sampleConfig.headSize + (128 - sampleConfig.headSize - 72))
    ∧ (SimpleMemoryPoolAllocator.allocate sampleConfigSimple
          (SimpleMemoryPoolAllocator.init sampleConfigSimple freshRaw) 8
        = (4112, ⟨⟨4120, 104, 128, [⟨4096, 128⟩], 0, 128⟩, ⟨1, []⟩⟩)
      ∧ ((fun r => (r.1, r.2.1)) (SimpleMemoryPoolAllocator.reallocate sampleConfigSimple
            ⟨⟨4120, 104, 128, [⟨4096, 128⟩], 0, 128⟩, ⟨1, []⟩⟩ labelledMemory 4112 8 24))
        = (4112, ⟨⟨4120, 88, 128, [⟨4096, 128⟩], 0, 128⟩, ⟨1, []⟩⟩)
      ∧ SimpleMemoryPoolAllocator.allocate sampleConfigSimple
          ⟨⟨4120, 88, 128, [⟨4096, 128⟩], 0, 128⟩, ⟨1, []⟩⟩ 8
        = (4120, ⟨⟨4128, 80, 128, [⟨4096, 128⟩], 0, 128⟩, ⟨1, []⟩⟩)
      ∧ disjointBlocks 4112 24 4120 8 = false
      ∧ 4120 ≠ 4096 + sampleConfigSimple.headSize + (128 - sampleConfigSimple.headSize - 88))
    ∧ (FastMemoryPoolAllocator.allocate sampleConfig
          (FastMemoryPoolAllocator.init sampleConfig freshRaw) 8
        = some (4128, ⟨[⟨4096, 40, 128⟩], 0, 128, ⟨1, []⟩⟩)
      ∧ (FastMemoryPoolAllocator.reallocate sampleConfig ⟨[⟨4096, 40, 128⟩], 0, 128, ⟨1, []⟩⟩
            labelledMemory 4128 8 24).map (fun r => (r.1, r.2.1))
        = some (4128, ⟨[⟨4096, 56, 128⟩], 0, 128, ⟨1, []⟩⟩)
      ∧ FastMemoryPoolAllocator.allocate sampleConfig ⟨[⟨4096, 56, 128⟩], 0, 128, ⟨1, []⟩⟩ 8
        = some (4152, ⟨[⟨4096, 64, 128⟩], 0, 128, ⟨1, []⟩⟩)
      ∧ disjointBlocks 4128 24 4152 8 = true) := by
  decide

/-- C22, the code at a concrete input. Fresh pools of `MemoryPoolAllocator` and
`FastMemoryPoolAllocator` with the same chunk capacity (128) and header size (32) receive
the same requests `p = allocate(8)`, `reallocate(p, 8, 24)`, `allocate(8)`. Both answer
the first two with offset 32 of the first chunk (address 4128); the third is answered with
offset 40 (address 4136) by `MemoryPoolAllocator` and with offset 56 (address 4152) by
`FastMemoryPoolAllocator`. Each pool has one chunk, at 4096. -/
theorem variants_diverge_after_in_place_reallocate :
    ((MemoryPoolAllocator.allocate sampleConfig
          (MemoryPoolAllocator.init sampleConfig freshRaw) 8).bind (fun r1 =>
        (MemoryPoolAllocator.reallocate sampleConfig r1.2 labelledMemory r1.1 8 24).bind
          (fun r2 => (MemoryPoolAllocator.allocate sampleConfig r2.2.1 8).map
            (fun r3 => ([r1.1, r2.1, r3.1], r3.2.mChunkHead.map (fun c => c.addr)))))
      = some ([4128, 4128, 4136], [4096]))
    ∧ ((FastMemoryPoolAllocator.allocate sampleConfig
          (FastMemoryPoolAllocator.init sampleConfig freshRaw) 8).bind (fun r1 =>
        (FastMemoryPoolAllocator.reallocate sampleConfig r1.2 labelledMemory r1.1 8 24).bind
          (fun r2 => (FastMemoryPoolAllocator.allocate sampleConfig r2.2.1 8).map
            (fun r3 => ([r1.1, r2.1, r3.1], r3.2.mChunkHead.map (fun c => c.addr)))))
      = some ([4128, 4128, 4152], [4096]))
    ∧ 4136 - 4096 ≠ 4152 - 4096 := by
  decide

/-! ## Requests that do not fit behind the chunk header -/

/-- C28, the code at a concrete input. With 128-byte chunks, a request smaller than the
chunk capacity but larger than the capacity minus the header (104 with the 32-byte header,
120 with the 16-byte header of `SimpleMemoryPoolAllocator`) does not fit a fresh pool; the
growth path adds a chunk at 8192 of capacity 128 and returns its first byte after the
header. Offset in chunk plus rounded size is 136, more than the capacity: the block ends
8 bytes past the end of its chunk. -/
theorem block_exceeds_chunk_after_growth :
    (MemoryPoolAllocator.allocate sampleConfig
          (MemoryPoolAllocator.init sampleConfig freshRaw) 104
        = some (8224, ⟨[⟨8192, 8224, 96, 128⟩, ⟨4096, 4128, 96, 128⟩], ⟨2, []⟩⟩)
      ∧ (8224 - 8192) + alignedTo 104 kMallocAlignmentSize = 136)
    ∧ (SimpleMemoryPoolAllocator.allocate sampleConfigSimple
          (SimpleMemoryPoolAllocator.init sampleConfigSimple freshRaw) 120
        = (8208, ⟨⟨8208, 112, 128, [⟨8192, 128⟩, ⟨4096, 128⟩], 16, 256⟩, ⟨2, []⟩⟩)
      ∧ (8208 - 8192) + alignedTo 120 kMallocAlignmentSize = 136)
    ∧ (FastMemoryPoolAllocator.allocate sampleConfig
          (FastMemoryPoolAllocator.init sampleConfig freshRaw) 104
        = some (8224, ⟨[⟨8192, 32, 128⟩, ⟨4096, 32, 128⟩], 32, 256, ⟨2, []⟩⟩)
      ∧ (8224 - 8192) + alignedTo 104 kMallocAlignmentSize = 136)
    ∧ ¬ (136 ≤ sampleConfig.chunkCapacity)
    ∧ 104 < sampleConfig.chunkCapacity ∧ 120 < sampleConfigSimple.chunkCapacity := by
  decide

/-! ## The number of chunks after a run of equal requests -/

/-- C23, the code at a concrete input. With 128-byte chunks and a 32-byte header
(`C - h = 96`, six 16-byte blocks per chunk), after 13 calls `allocate(16)` on a fresh
pool the chunk list has 2 chunks, while `ceil(13 * 16 / 96)` is 3. The seventh call opens
the second chunk and returns its first byte after the header, 8224, without accounting the
block; the eighth call returns 8224 again, so the second chunk serves seven calls and the
thirteenth still fits it. -/
theorem chunk_count_differs_from_byte_quotient :
    MemoryPoolAllocator.chunkCountAfter sampleConfig freshRaw 13 16 = some 2
    ∧ (13 * 16 + (sampleConfig.chunkCapacity - sampleConfig.headSize) - 1)
        / (sampleConfig.chunkCapacity - sampleConfig.headSize) = 3
    ∧ 16 ≤ sampleConfig.chunkCapacity - sampleConfig.headSize
    ∧ (sampleConfig.chunkCapacity - sampleConfig.headSize) % 16 = 0
    ∧ (MemoryPoolAllocator.allocateSeq sampleConfig
          (MemoryPoolAllocator.init sampleConfig freshRaw) (List.replicate 13 16)).map
          (fun r => r.1)
        = some [4128, 4144, 4160, 4176, 4192, 4208, 8224, 8224, 8240, 8256, 8272, 8288, 8304] := by
  decide

theorem MemoryPoolAllocator.mp_allocateSeq_state_append (cfg : Config) (a b : List Nat) :
    ∀ s : Pool, (allocateSeq cfg s (a ++ b)).map (fun r => r.2)
      = ((allocateSeq cfg s a).map (fun r => r.2)).bind
          (fun s' => (allocateSeq cfg s' b).map (fun r => r.2)) := by
  induction a with
  | nil =>
    intro s
    simp [allocateSeq]
  | cons n ns ih =>
    intro s
    simp only [List.cons_append, allocateSeq]
    cases h1 : allocate cfg s n with
    | none => simp
    | some r =>
      obtain ⟨p, s'⟩ := r
      have h2 := ih s'
      simp only []
      cases h3 : allocateSeq cfg s' (ns ++ b) with
      | none =>
        rw [h3] at h2
        cases h4 : allocateSeq cfg s' ns with
        | none => simp
        | some r4 =>
          rw [h4] at h2
          simpa using h2
      | some r3 =>
        rw [h3] at h2
        cases h4 : allocateSeq cfg s' ns with
        | none =>
          rw [h4] at h2
          simp at h2
        | some r4 =>
          rw [h4] at h2
          simpa using h2

theorem MemoryPoolAllocator.mp_allocateSeq_fits (cfg : Config) (next : List ChunkHead)
    (raw : RawAllocator) :
    ∀ (count : Nat) (c : ChunkHead), c.remain < wordSize → 16 * count ≤ c.remain →
      (allocateSeq cfg ⟨c :: next, raw⟩ (List.replicate count 16)).map (fun r => r.2)
        = some ⟨{ c with cursor := c.cursor + 16 * count,
                         remain := c.remain - 16 * count } :: next, raw⟩ := by
  intro count
  induction count with
  | zero =>
    intro c _ _
    simp [allocateSeq]
  | succ k ih =>
    intro c hw hle
    have hfast := mp_allocate_fast cfg c next raw 16 hw (by omega)
    have h16 : (16 + 7) / 8 * 8 = 16 := by decide
    rw [h16] at hfast
    have hih := ih { c with cursor := c.cursor + 16, remain := c.remain - 16 }
      (by show c.remain - 16 < wordSize; omega) (by show 16 * k ≤ c.remain - 16; omega)
    simp only [List.replicate_succ, allocateSeq, hfast]
    cases h4 : allocateSeq cfg
        ⟨{ c with cursor := c.cursor + 16, remain := c.remain - 16 } :: next, raw⟩
        (List.replicate k 16) with
    | none =>
      rw [h4] at hih
      simp at hih
    | some r4 =>
      rw [h4] at hih
      simp only [Option.map_some', Option.some.injEq] at hih ⊢
      rw [hih]
      have e1 : c.cursor + 16 + 16 * k = c.cursor + 16 * (k + 1) := by omega
      have e2 : c.remain - 16 - 16 * k = c.remain - 16 * (k + 1) := by omega
      simp only [e1, e2]

theorem MemoryPoolAllocator.mp_allocate_grows (cfg : Config) (c : ChunkHead)
    (next : List ChunkHead) (raw : RawAllocator) (h : c.remain < 16) :
    allocate cfg ⟨c :: next, raw⟩ 16 = some (addNewChunk cfg ⟨c :: next, raw⟩ 0) := by
  have hr : alignedTo 16 kMallocAlignmentSize = 16 := by decide
  have hn : ¬ (16 ≤ c.remain) := by omega
  simp only [allocate, hr, if_neg hn]

/-- The chunk count up to the second chunk. For a fresh `MemoryPoolAllocator` with chunk
capacity `C` (a `size_t`) and header size `h`, `C - h ≥ 16`, let `k = (C - h) / 16` be the
number of 16-byte blocks that fit behind the header of one chunk. For every `N` with
`1 ≤ N ≤ 2 * k`, after `N` sequential `allocate(16)` calls the chunk list contains exactly
`ceil(N / k)` chunks: one chunk for `N ≤ k`, two for `k < N ≤ 2 * k`. When 16 divides
`C - h` this number equals `ceil(N * 16 / (C - h))`. -/
theorem chunk_count_by_blocks_per_chunk (cfg : Config) (raw : RawAllocator) (count : Nat)
    (hC : cfg.chunkCapacity < wordSize) (hD : 16 ≤ cfg.chunkCapacity - cfg.headSize)
    (h1 : 1 ≤ count) (h2 : count ≤ 2 * ((cfg.chunkCapacity - cfg.headSize) / 16)) :
    MemoryPoolAllocator.chunkCountAfter cfg raw count 16
        = some ((count + (cfg.chunkCapacity - cfg.headSize) / 16 - 1)
            / ((cfg.chunkCapacity - cfg.headSize) / 16))
    ∧ (count ≤ (cfg.chunkCapacity - cfg.headSize) / 16 →
        MemoryPoolAllocator.chunkCountAfter cfg raw count 16 = some 1)
    ∧ ((cfg.chunkCapacity - cfg.headSize) / 16 < count →
        MemoryPoolAllocator.chunkCountAfter cfg raw count 16 = some 2)
    ∧ ((cfg.chunkCapacity - cfg.headSize) % 16 = 0 →
        (count + (cfg.chunkCapacity - cfg.headSize) / 16 - 1)
            / ((cfg.chunkCapacity - cfg.headSize) / 16)
          = (count * 16 + (cfg.chunkCapacity - cfg.headSize) - 1)
            / (cfg.chunkCapacity - cfg.headSize)) := by
  have hh : cfg.headSize ≤ cfg.chunkCapacity := by omega
  have hwadd : wadd cfg.headSize 0 = cfg.headSize :=
    wadd_of_lt (by show cfg.headSize + 0 < wordSize; omega)
  have hrem : wsub cfg.chunkCapacity (wadd cfg.headSize 0)
      = cfg.chunkCapacity - cfg.headSize := by
    rw [hwadd]
    exact wsub_of_le hC hh
  have hDw : cfg.chunkCapacity - cfg.headSize < wordSize := by omega
  generalize hDdef : cfg.chunkCapacity - cfg.headSize = D at *
  obtain ⟨k, hk⟩ : ∃ k, k = D / 16 := ⟨_, rfl⟩
  rw [← hk] at h2 ⊢
  have hk1 : 16 * k ≤ D := by omega
  have hk2 : D < 16 * (k + 1) := by omega
  have hkpos : 1 ≤ k := by omega
  have hcount : ∀ n, MemoryPoolAllocator.chunkCountAfter cfg raw n 16
      = ((MemoryPoolAllocator.allocateSeq cfg (MemoryPoolAllocator.init cfg raw)
          (List.replicate n 16)).map (fun r => r.2)).map (fun s => s.mChunkHead.length) := by
    intro n
    simp only [MemoryPoolAllocator.chunkCountAfter, Option.map_map]
    rfl
  have hinit : MemoryPoolAllocator.init cfg raw
      = ⟨[⟨cfg.heapAddr raw.mallocCount, cfg.heapAddr raw.mallocCount + cfg.headSize + 0, D,
            cfg.chunkCapacity⟩], { raw with mallocCount := raw.mallocCount + 1 }⟩ := by
    simp only [MemoryPoolAllocator.init, MemoryPoolAllocator.addNewChunk, RawAllocator.malloc,
      hrem]
  have hone : count ≤ k → MemoryPoolAllocator.chunkCountAfter cfg raw count 16 = some 1 := by
    intro hc
    rw [hcount, hinit, MemoryPoolAllocator.mp_allocateSeq_fits cfg [] _ count _ hDw
      (by show 16 * count ≤ D; omega)]
    rfl
  have htwo : k < count → MemoryPoolAllocator.chunkCountAfter cfg raw count 16 = some 2 := by
    intro hc
    have hsplit : List.replicate count 16
        = List.replicate k 16 ++ (16 :: List.replicate (count - k - 1) 16) := by
      have e : count = k + ((count - k - 1) + 1) := by omega
      conv_lhs => rw [e]
      rw [List.replicate_add, List.replicate_succ]
    rw [hcount, hinit, hsplit, MemoryPoolAllocator.mp_allocateSeq_state_append,
      MemoryPoolAllocator.mp_allocateSeq_fits cfg [] _ k _ hDw (by show 16 * k ≤ D; omega)]
    simp only [Option.some_bind, MemoryPoolAllocator.allocateSeq]
    rw [MemoryPoolAllocator.mp_allocate_grows cfg _ _ _ (by show D - 16 * k < 16; omega)]
    simp only [MemoryPoolAllocator.addNewChunk, RawAllocator.malloc, hrem]
    have hfit := MemoryPoolAllocator.mp_allocateSeq_fits cfg
      [⟨cfg.heapAddr raw.mallocCount, cfg.heapAddr raw.mallocCount + cfg.headSize + 0 + 16 * k,
        D - 16 * k, cfg.chunkCapacity⟩]
      { mallocCount := raw.mallocCount + 1 + 1, freed := raw.freed } (count - k - 1)
      ⟨cfg.heapAddr (raw.mallocCount + 1), cfg.heapAddr (raw.mallocCount + 1) + cfg.headSize + 0,
        D, cfg.chunkCapacity⟩ hDw (by show 16 * (count - k - 1) ≤ D; omega)
    cases h4 : MemoryPoolAllocator.allocateSeq cfg
        ⟨[⟨cfg.heapAddr (raw.mallocCount + 1),
            cfg.heapAddr (raw.mallocCount + 1) + cfg.headSize + 0, D, cfg.chunkCapacity⟩,
          ⟨cfg.heapAddr raw.mallocCount,
            cfg.heapAddr raw.mallocCount + cfg.headSize + 0 + 16 * k,
            D - 16 * k, cfg.chunkCapacity⟩],
          { mallocCount := raw.mallocCount + 1 + 1, freed := raw.freed }⟩
        (List.replicate (count - k - 1) 16) with
    | none =>
      rw [h4] at hfit
      simp at hfit
    | some r4 =>
      rw [h4] at hfit
      simp only [Option.map_some', Option.some.injEq] at hfit ⊢
      rw [hfit]
      rfl
  have hdiv1 : count ≤ k → (count + k - 1) / k = 1 := by
    intro hc
    exact Nat.div_eq_of_lt_le (by omega) (by omega)
  have hdiv2 : k < count → (count + k - 1) / k = 2 := by
    intro hc
    exact Nat.div_eq_of_lt_le (by omega) (by omega)
  refine ⟨?_, hone, htwo, ?_⟩
  · by_cases hc : count ≤ k
    · rw [hone hc, hdiv1 hc]
    · rw [htwo (by omega), hdiv2 (by omega)]
  · intro hmod
    have hDk : D = 16 * k := by omega
    by_cases hc : count ≤ k
    · rw [hdiv1 hc]
      exact (Nat.div_eq_of_lt_le (by omega) (by omega)).symm
    · rw [hdiv2 (by omega)]
      exact (Nat.div_eq_of_lt_le (by omega) (by omega)).symm

/-- The chunk count at concrete inputs: with 128-byte chunks and a 32-byte header six
blocks fit a chunk; 6 requests leave one chunk, 12 requests two, as `ceil(N * 16 / 96)`
says. -/
theorem chunk_count_by_blocks_per_chunk_witness :
    MemoryPoolAllocator.chunkCountAfter sampleConfig freshRaw 6 16 = some 1
    ∧ MemoryPoolAllocator.chunkCountAfter sampleConfig freshRaw 12 16 = some 2
    ∧ (12 + (sampleConfig.chunkCapacity - sampleConfig.headSize) / 16 - 1)
          / ((sampleConfig.chunkCapacity - sampleConfig.headSize) / 16)
        = (12 * 16 + (sampleConfig.chunkCapacity - sampleConfig.headSize) - 1)
          / (sampleConfig.chunkCapacity - sampleConfig.headSize) :=
  ⟨(chunk_count_by_blocks_per_chunk sampleConfig freshRaw 6 (by decide) (by decide) (by decide)
      (by decide)).2.1 (by decide),
    (chunk_count_by_blocks_per_chunk sampleConfig freshRaw 12 (by decide) (by decide) (by decide)
      (by decide)).2.2.1 (by decide),
    (chunk_count_by_blocks_per_chunk sampleConfig freshRaw 12 (by decide) (by decide) (by decide)
      (by decide)).2.2.2 (by decide)⟩

/-! ## The big-allocation branch of `allocate` -/

/-- C24, the claim as stated fails. Pools with 128-byte chunks, default chunk capacity
128, receive `allocate(200)`; `P` is 256 and the slack `P - (200 + header)` is 40 (24 with
the 32-byte header). On a fresh pool the slack is not greater than the remaining bytes
(112, resp. 96), and the block is spliced in behind the current chunk as a chunk of
capacity `200 + header`, not `P`; the current chunk stays current. On a pool with 8 bytes
left the slack is greater than the remaining bytes, and the block gets a chunk of capacity
256 of its own, which becomes the current chunk. -/
theorem big_allocation_choice_is_the_reverse :
    (SimpleMemoryPoolAllocator.allocateBigSize sampleConfigSimple 128
          ⟨⟨4112, 112, 128, [⟨4096, 128⟩], 0, 128⟩, ⟨1, []⟩⟩ 200
        = some (8208, ⟨⟨4112, 112, 128, [⟨4096, 128⟩, ⟨8192, 216⟩], 216, 344⟩, ⟨2, []⟩⟩)
      ∧ SimpleMemoryPoolAllocator.init sampleConfigSimple freshRaw
        = ⟨⟨4112, 112, 128, [⟨4096, 128⟩], 0, 128⟩, ⟨1, []⟩⟩
      ∧ SimpleMemoryPoolAllocator.allocateBigSize sampleConfigSimple 128
          ⟨⟨4216, 8, 128, [⟨4096, 128⟩], 0, 128⟩, ⟨1, []⟩⟩ 200
        = some (8208, ⟨⟨8408, 40, 256, [⟨8192, 256⟩, ⟨4096, 128⟩], 120, 384⟩, ⟨2, []⟩⟩)
      ∧ RoundToPowerOf2 (200 + sampleConfigSimple.headSize) = 256
      ∧ 256 - (200 + sampleConfigSimple.headSize) = 40)
    ∧ (FastMemoryPoolAllocator.allocateBigSize sampleConfig 128
          ⟨[⟨4096, 32, 128⟩], 0, 128, ⟨1, []⟩⟩ 200
        = some (8224, ⟨[⟨4096, 32, 128⟩, ⟨8192, 232, 232⟩], 232, 360, ⟨2, []⟩⟩)
      ∧ FastMemoryPoolAllocator.init sampleConfig freshRaw
        = ⟨[⟨4096, 32, 128⟩], 0, 128, ⟨1, []⟩⟩
      ∧ FastMemoryPoolAllocator.allocateBigSize sampleConfig 128
          ⟨[⟨4096, 120, 128⟩], 0, 128, ⟨1, []⟩⟩ 200
        = some (8224, ⟨[⟨8192, 232, 256⟩, ⟨4096, 120, 128⟩], 120, 384, ⟨2, []⟩⟩)
      ∧ RoundToPowerOf2 (200 + sampleConfig.headSize) = 256
      ∧ 256 - (200 + sampleConfig.headSize) = 24) := by
  decide

/-- C24, amended. Build switch enabled, `SimpleMemoryPoolAllocator` and
`FastMemoryPoolAllocator`. Let `r` be the rounded request size, not fitting the current
chunk and greater than `kDefaultChunkCapacity`, `A = r + header size`, `P` the next power
of two at or above `A`, and `a` the address of the chunk obtained from the raw allocator.
If the slack `P - A` is greater than the remaining bytes of the current chunk, the block
gets its own chunk of capacity `P`, linked in front of the list, which becomes the current
chunk (`r` bytes and the header accounted as used). Otherwise the block is spliced in as a
chunk of capacity `A` directly after the current chunk, the current chunk and its cursor,
remaining/used and capacity staying as they were. In both cases the block is at
`a + header size`. -/
theorem big_allocation_escape_path (cfg : Config) (kDefaultChunkCapacity n r A P : Nat)
    (cur : SimpleMemoryPoolAllocator.ChunkHead) (c : SimpleMemoryPoolAllocator.ChunkInfo)
    (next : List SimpleMemoryPoolAllocator.ChunkInfo)
    (f : FastMemoryPoolAllocator.ChunkInfo) (fnext : List FastMemoryPoolAllocator.ChunkInfo)
    (usedTotal capacityTotal : Nat) (raw : RawAllocator)
    (hr : r = alignedTo n kMallocAlignmentSize) (hA : A = wadd r cfg.headSize)
    (hP : P = RoundToPowerOf2 A) (hbig : kDefaultChunkCapacity < r)
    (hhead : cur.head = c :: next) (hs : cur.remain < r)
    (hf : f.capacity < wadd f.used r) :
    (cur.remain < wsub P A →
      SimpleMemoryPoolAllocator.allocateBigSize cfg kDefaultChunkCapacity ⟨cur, raw⟩ n
        = some (cfg.heapAddr raw.mallocCount + cfg.headSize,
            ⟨⟨cfg.heapAddr raw.mallocCount + cfg.headSize + r, wsub P (wadd cfg.headSize r), P,
                ⟨cfg.heapAddr raw.mallocCount, P⟩ :: c :: next,
                wadd cur.sizeTotal (wsub cur.capacity cur.remain), wadd cur.capacityTotal P⟩,
              ⟨raw.mallocCount + 1, raw.freed⟩⟩))
    ∧ (wsub P A ≤ cur.remain →
      SimpleMemoryPoolAllocator.allocateBigSize cfg kDefaultChunkCapacity ⟨cur, raw⟩ n
        = some (cfg.heapAddr raw.mallocCount + cfg.headSize,
            ⟨⟨cur.cursor, cur.remain, cur.capacity,
                c :: ⟨cfg.heapAddr raw.mallocCount, A⟩ :: next,
                wadd cur.sizeTotal (wadd cfg.headSize r), wadd cur.capacityTotal A⟩,
              ⟨raw.mallocCount + 1, raw.freed⟩⟩))
    ∧ (wsub f.capacity f.used < wsub P A →
      FastMemoryPoolAllocator.allocateBigSize cfg kDefaultChunkCapacity
          ⟨f :: fnext, usedTotal, capacityTotal, raw⟩ n
        = some (cfg.heapAddr raw.mallocCount + cfg.headSize,
            ⟨⟨cfg.heapAddr raw.mallocCount, wadd cfg.headSize r, P⟩ :: f :: fnext,
              wadd usedTotal f.used, wadd capacityTotal P, ⟨raw.mallocCount + 1, raw.freed⟩⟩))
    ∧ (wsub P A ≤ wsub f.capacity f.used →
      FastMemoryPoolAllocator.allocateBigSize cfg kDefaultChunkCapacity
          ⟨f :: fnext, usedTotal, capacityTotal, raw⟩ n
        = some (cfg.heapAddr raw.mallocCount + cfg.headSize,
            ⟨f :: ⟨cfg.heapAddr raw.mallocCount, wadd cfg.headSize r, A⟩ :: fnext,
              wadd usedTotal (wadd cfg.headSize r), wadd capacityTotal A,
              ⟨raw.mallocCount + 1, raw.freed⟩⟩)) := by
  subst hr hA hP
  have hs' : ¬ (alignedTo n kMallocAlignmentSize ≤ cur.remain) := by omega
  have hbig' : ¬ (alignedTo n kMallocAlignmentSize ≤ kDefaultChunkCapacity) := by omega
  have hf' : ¬ (wadd f.used (alignedTo n kMallocAlignmentSize) ≤ f.capacity) := by omega
  refine ⟨?_, ?_, ?_, ?_⟩
  · intro hslack
    simp only [SimpleMemoryPoolAllocator.allocateBigSize, if_neg hs', if_neg hbig', gt_iff_lt,
      if_pos hslack, SimpleMemoryPoolAllocator.addNewChunkOfCapacity, RawAllocator.malloc, hhead]
  · intro hslack
    have hn : ¬ (cur.remain
        < wsub (RoundToPowerOf2 (wadd (alignedTo n kMallocAlignmentSize) cfg.headSize))
            (wadd (alignedTo n kMallocAlignmentSize) cfg.headSize)) := by omega
    simp only [SimpleMemoryPoolAllocator.allocateBigSize, if_neg hs', if_neg hbig', gt_iff_lt,
      if_neg hn, SimpleMemoryPoolAllocator.insertNewChunkToLast, RawAllocator.malloc, hhead]
  · intro hslack
    simp only [FastMemoryPoolAllocator.allocateBigSize, if_neg hf', if_neg hbig', gt_iff_lt,
      if_pos hslack, FastMemoryPoolAllocator.addNewChunkOfCapacity, RawAllocator.malloc]
  · intro hslack
    have hn : ¬ (wsub f.capacity f.used
        < wsub (RoundToPowerOf2 (wadd (alignedTo n kMallocAlignmentSize) cfg.headSize))
            (wadd (alignedTo n kMallocAlignmentSize) cfg.headSize)) := by omega
    simp only [FastMemoryPoolAllocator.allocateBigSize, if_neg hf', if_neg hbig', gt_iff_lt,
      if_neg hn, FastMemoryPoolAllocator.insertNewChunkToLast, RawAllocator.malloc]

/-- C24, at concrete inputs: `allocate(200)` on pools with 128-byte chunks and 8 bytes
left in the current chunk (own chunk of capacity 256), and on fresh pools (spliced chunk
of capacity 216, resp. 232). -/
theorem big_allocation_escape_path_witness :
    (SimpleMemoryPoolAllocator.allocateBigSize sampleConfigSimple 128
          ⟨⟨4216, 8, 128, [⟨4096, 128⟩], 0, 128⟩, ⟨1, []⟩⟩ 200).map
        (fun r => (r.1, r.2.mChunkHead.head, r.2.mChunkHead.capacity))
      = some (8208, [⟨8192, 256⟩, ⟨4096, 128⟩], 256)
    ∧ (FastMemoryPoolAllocator.allocateBigSize sampleConfig 128
          ⟨[⟨4096, 32, 128⟩], 0, 128, ⟨1, []⟩⟩ 200).map (fun r => (r.1, r.2.mChunkHead))
      = some (8224, [⟨4096, 32, 128⟩, ⟨8192, 232, 232⟩]) :=
  have hs := big_allocation_escape_path sampleConfigSimple 128 200 200 216 256
    ⟨4216, 8, 128, [⟨4096, 128⟩], 0, 128⟩ ⟨4096, 128⟩ [] ⟨4096, 32, 128⟩ [] 0 128 ⟨1, []⟩
    (by decide) (by decide) (by decide) (by decide) rfl (by decide) (by decide)
  have hf := big_allocation_escape_path sampleConfig 128 200 200 232 256
    ⟨4216, 8, 128, [⟨4096, 128⟩], 0, 128⟩ ⟨4096, 128⟩ [] ⟨4096, 32, 128⟩ [] 0 128 ⟨1, []⟩
    (by decide) (by decide) (by decide) (by decide) rfl (by decide) (by decide)
  ⟨by rw [hs.1 (by decide)]; decide, by rw [hf.2.2.2 (by decide)]; decide⟩

/-- C34. Splicing keeps the current chunk. In `SimpleMemoryPoolAllocator` and
`FastMemoryPoolAllocator`, on a pool with a current chunk, `insertNewChunkToLast(capacity,
size)` returns the first byte after the header of a new chunk `a` obtained from the raw
allocator; the current chunk and its cursor, remaining/used bytes and capacity are
unchanged; the chunk list is the old list with the new chunk inserted in second place; and
a following `allocate(m)` that fits the current chunk (build switch enabled or not)
returns the same address as it would have without the splice, the cursor of the current
chunk. -/
theorem insertNewChunkToLast_keeps_current_chunk (cfg : Config)
    (kDefaultChunkCapacity capacity size m : Nat)
    (cur : SimpleMemoryPoolAllocator.ChunkHead) (c : SimpleMemoryPoolAllocator.ChunkInfo)
    (next : List SimpleMemoryPoolAllocator.ChunkInfo)
    (f : FastMemoryPoolAllocator.ChunkInfo) (fnext : List FastMemoryPoolAllocator.ChunkInfo)
    (usedTotal capacityTotal : Nat) (raw : RawAllocator)
    (hhead : cur.head = c :: next)
    (hs : alignedTo m kMallocAlignmentSize ≤ cur.remain)
    (hf : wadd f.used (alignedTo m kMallocAlignmentSize) ≤ f.capacity) :
    (SimpleMemoryPoolAllocator.insertNewChunkToLast cfg ⟨cur, raw⟩ capacity size
        = some (cfg.heapAddr raw.mallocCount + cfg.headSize,
            ⟨⟨cur.cursor, cur.remain, cur.capacity,
                c :: ⟨cfg.heapAddr raw.mallocCount, capacity⟩ :: next,
                wadd cur.sizeTotal (wadd cfg.headSize size), wadd cur.capacityTotal capacity⟩,
              ⟨raw.mallocCount + 1, raw.freed⟩⟩)
      ∧ ∀ s', (SimpleMemoryPoolAllocator.insertNewChunkToLast cfg ⟨cur, raw⟩ capacity size).map
            (fun r => r.2) = some s' →
          SimpleMemoryPoolAllocator.headAddr s'.mChunkHead
              = SimpleMemoryPoolAllocator.headAddr cur
          ∧ s'.mChunkHead.head.length = cur.head.length + 1
          ∧ (SimpleMemoryPoolAllocator.allocateBigSize cfg kDefaultChunkCapacity s' m).map
                (fun r => r.1) = some cur.cursor
          ∧ (SimpleMemoryPoolAllocator.allocateBigSize cfg kDefaultChunkCapacity ⟨cur, raw⟩
                m).map (fun r => r.1) = some cur.cursor
          ∧ (SimpleMemoryPoolAllocator.allocate cfg s' m).1 = cur.cursor
          ∧ (SimpleMemoryPoolAllocator.allocate cfg ⟨cur, raw⟩ m).1 = cur.cursor)
    ∧ (FastMemoryPoolAllocator.insertNewChunkToLast cfg
          ⟨f :: fnext, usedTotal, capacityTotal, raw⟩ capacity size
        = some (cfg.heapAddr raw.mallocCount + cfg.headSize,
            ⟨f :: ⟨cfg.heapAddr raw.mallocCount, wadd cfg.headSize size, capacity⟩ :: fnext,
              wadd usedTotal (wadd cfg.headSize size), wadd capacityTotal capacity,
              ⟨raw.mallocCount + 1, raw.freed⟩⟩)
      ∧ ∀ s', (FastMemoryPoolAllocator.insertNewChunkToLast cfg
            ⟨f :: fnext, usedTotal, capacityTotal, raw⟩ capacity size).map (fun r => r.2)
            = some s' →
          s'.mChunkHead.head? = some f
          ∧ s'.mChunkHead.length = (f :: fnext).length + 1
          ∧ (FastMemoryPoolAllocator.allocateBigSize cfg kDefaultChunkCapacity s' m).map
                (fun r => r.1) = some (f.addr + f.used)
          ∧ (FastMemoryPoolAllocator.allocateBigSize cfg kDefaultChunkCapacity
                ⟨f :: fnext, usedTotal, capacityTotal, raw⟩ m).map (fun r => r.1)
              = some (f.addr + f.used)
          ∧ (FastMemoryPoolAllocator.allocate cfg s' m).map (fun r => r.1)
              = some (f.addr + f.used)
          ∧ (FastMemoryPoolAllocator.allocate cfg ⟨f :: fnext, usedTotal, capacityTotal, raw⟩
                m).map (fun r => r.1) = some (f.addr + f.used)) := by
  have hS : SimpleMemoryPoolAllocator.insertNewChunkToLast cfg ⟨cur, raw⟩ capacity size
      = some (cfg.heapAddr raw.mallocCount + cfg.headSize,
          ⟨⟨cur.cursor, cur.remain, cur.capacity,
              c :: ⟨cfg.heapAddr raw.mallocCount, capacity⟩ :: next,
              wadd cur.sizeTotal (wadd cfg.headSize size), wadd cur.capacityTotal capacity⟩,
            ⟨raw.mallocCount + 1, raw.freed⟩⟩) := by
    simp only [SimpleMemoryPoolAllocator.insertNewChunkToLast, RawAllocator.malloc, hhead]
  have hF : FastMemoryPoolAllocator.insertNewChunkToLast cfg
        ⟨f :: fnext, usedTotal, capacityTotal, raw⟩ capacity size
      = some (cfg.heapAddr raw.mallocCount + cfg.headSize,
          ⟨f :: ⟨cfg.heapAddr raw.mallocCount, wadd cfg.headSize size, capacity⟩ :: fnext,
            wadd usedTotal (wadd cfg.headSize size), wadd capacityTotal capacity,
            ⟨raw.mallocCount + 1, raw.freed⟩⟩) := by
    simp only [FastMemoryPoolAllocator.insertNewChunkToLast, RawAllocator.malloc]
  refine ⟨⟨hS, ?_⟩, ⟨hF, ?_⟩⟩
  · intro s' hs'
    rw [hS] at hs'
    simp only [Option.map_some', Option.some.injEq] at hs'
    subst hs'
    refine ⟨?_, ?_, ?_, ?_, ?_, ?_⟩
    · simp only [SimpleMemoryPoolAllocator.headAddr, hhead]
    · simp only [hhead, List.length_cons]
    · simp only [SimpleMemoryPoolAllocator.allocateBigSize, if_pos hs, Option.map_some']
    · simp only [SimpleMemoryPoolAllocator.allocateBigSize, if_pos hs, Option.map_some']
    · simp only [SimpleMemoryPoolAllocator.allocate, if_pos hs]
    · simp only [SimpleMemoryPoolAllocator.allocate, if_pos hs]
  · intro s' hs'
    rw [hF] at hs'
    simp only [Option.map_some', Option.some.injEq] at hs'
    subst hs'
    refine ⟨rfl, ?_, ?_, ?_, ?_, ?_⟩
    · simp only [List.length_cons]
    · simp only [FastMemoryPoolAllocator.allocateBigSize, if_pos hf, Option.map_some']
    · simp only [FastMemoryPoolAllocator.allocateBigSize, if_pos hf, Option.map_some']
    · simp only [FastMemoryPoolAllocator.allocate, if_pos hf, Option.map_some']
    · simp only [FastMemoryPoolAllocator.allocate, if_pos hf, Option.map_some']

/-- C34, at concrete inputs: on fresh pools with 128-byte chunks an oversized
`allocate(200)` is spliced in as the second chunk, and the following `allocate(8)` returns
the address a first `allocate(8)` would have returned. -/
theorem insertNewChunkToLast_keeps_current_chunk_witness :
    SimpleMemoryPoolAllocator.insertNewChunkToLast sampleConfigSimple
        ⟨⟨4112, 112, 128, [⟨4096, 128⟩], 0, 128⟩, ⟨1, []⟩⟩ 216 200
      = some (8208, ⟨⟨4112, 112, 128, [⟨4096, 128⟩, ⟨8192, 216⟩], 216, 344⟩, ⟨2, []⟩⟩)
    ∧ FastMemoryPoolAllocator.insertNewChunkToLast sampleConfig
        ⟨[⟨4096, 32, 128⟩], 0, 128, ⟨1, []⟩⟩ 232 200
      = some (8224, ⟨[⟨4096, 32, 128⟩, ⟨8192, 232, 232⟩], 232, 360, ⟨2, []⟩⟩)
    ∧ ((SimpleMemoryPoolAllocator.allocateBigSize sampleConfigSimple 128
          ⟨⟨4112, 112, 128, [⟨4096, 128⟩], 0, 128⟩, ⟨1, []⟩⟩ 200).bind
        (fun r => (SimpleMemoryPoolAllocator.allocateBigSize sampleConfigSimple 128 r.2 8).map
          (fun r2 => r2.1))) = some 4112
    ∧ ((FastMemoryPoolAllocator.allocateBigSize sampleConfig 128
          ⟨[⟨4096, 32, 128⟩], 0, 128, ⟨1, []⟩⟩ 200).bind
        (fun r => (FastMemoryPoolAllocator.allocateBigSize sampleConfig 128 r.2 8).map
          (fun r2 => r2.1))) = some 4128 :=
  have hs := insertNewChunkToLast_keeps_current_chunk sampleConfigSimple 128 216 200 8
    ⟨4112, 112, 128, [⟨4096, 128⟩], 0, 128⟩ ⟨4096, 128⟩ [] ⟨4096, 32, 128⟩ [] 0 128 ⟨1, []⟩
    rfl (by decide) (by decide)
  have hf := insertNewChunkToLast_keeps_current_chunk sampleConfig 128 232 200 8
    ⟨4112, 112, 128, [⟨4096, 128⟩], 0, 128⟩ ⟨4096, 128⟩ [] ⟨4096, 32, 128⟩ [] 0 128 ⟨1, []⟩
    rfl (by decide) (by decide)
  ⟨hs.1.1, hf.2.1, by decide, by decide⟩

/-! ## `BasicDocument`: ownership of the pool allocator -/

/-- C25. Document allocator ownership. A `BasicDocument` constructed without an allocator
(`NULL`) creates a pool allocator with `new PoolAllocatorType()` (at the address `fresh`
the free store returns), keeps it and records `mPoolAllocatorNeedFree = true`; constructed
with a supplied allocator it keeps that one, creates none and records `false`. In both
cases `getAllocator()` returns the allocator in use. The destructor deletes the allocator
the document created, and deletes nothing when the allocator was supplied. -/
theorem document_allocator_ownership (supplied fresh : Nat) (hs : supplied ≠ 0)
    (hf : fresh ≠ 0) :
    (BasicDocument.construct 0 fresh
        = (⟨fresh, true⟩, [StoreEvent.newPoolAllocator fresh])
      ∧ (BasicDocument.construct 0 fresh).1.getAllocator = fresh
      ∧ (BasicDocument.construct 0 fresh).1.mPoolAllocatorNeedFree = true
      ∧ (BasicDocument.construct 0 fresh).1.destroy
        = (⟨0, true⟩, [StoreEvent.deletePoolAllocator fresh]))
    ∧ (BasicDocument.construct supplied fresh = (⟨supplied, false⟩, [])
      ∧ (BasicDocument.construct supplied fresh).1.getAllocator = supplied
      ∧ (BasicDocument.construct supplied fresh).1.mPoolAllocatorNeedFree = false
      ∧ (BasicDocument.construct supplied fresh).1.destroy = (⟨supplied, false⟩, [])) := by
  have h1 : BasicDocument.construct 0 fresh
      = (⟨fresh, true⟩, [StoreEvent.newPoolAllocator fresh]) := by
    simp [BasicDocument.construct, BasicDocument.initPoolAllocator, hf]
  have h2 : BasicDocument.construct supplied fresh = (⟨supplied, false⟩, []) := by
    simp [BasicDocument.construct, BasicDocument.initPoolAllocator, hs]
  refine ⟨⟨h1, ?_, ?_, ?_⟩, ⟨h2, ?_, ?_, ?_⟩⟩
  · rw [h1]; rfl
  · rw [h1]
  · rw [h1]
    simp [BasicDocument.destroy, hf]
  · rw [h2]; rfl
  · rw [h2]
  · rw [h2]
    simp [BasicDocument.destroy]

/-- C25, at concrete inputs: a document constructed without an allocator, the free store
returning 4096, and a document constructed with the allocator at 8192. -/
theorem document_allocator_ownership_witness :
    (BasicDocument.construct 0 4096).1.destroy
      = (⟨0, true⟩, [StoreEvent.deletePoolAllocator 4096])
    ∧ (BasicDocument.construct 8192 4096).1.destroy = (⟨8192, false⟩, []) :=
  have h := document_allocator_ownership 8192 4096 (by decide) (by decide)
  ⟨h.1.2.2.2, h.2.2.2.2⟩

/-! ## Element access by name -/

theorem jimiAssert_of_true (checked : Bool) {cond : Bool} (h : cond = true) :
    jimiAssert checked cond = some () := by
  simp [jimiAssert, h]

theorem findMemberLoopChecked_eq (checked : Bool) (charSize : Nat) (h : Heap)
    (v name : BasicValue) (hn : name.isString = true) :
    ∀ (steps p : Nat), (∀ j, j < steps → (h.members (p + j)).name.isString = true) →
      BasicValue.findMemberLoopChecked checked charSize h v name steps ⟨p⟩
        = some (BasicValue.findMemberLoop charSize h v name steps ⟨p⟩) := by
  intro steps
  induction steps with
  | zero =>
    intro p _
    rfl
  | succ k ih =>
    intro p hm
    have h0 : (h.members p).name.isString = true := by
      have := hm 0 (by omega)
      simpa using this
    have hrest : ∀ j, j < k → (h.members (p + 1 + j)).name.isString = true := by
      intro j hj
      have := hm (j + 1) (by omega)
      have e : p + (j + 1) = p + 1 + j := by omega
      rw [e] at this
      exact this
    simp only [BasicValue.findMemberLoopChecked, BasicValue.findMemberLoop,
      jimiAssert_of_true checked hn, jimiAssert_of_true checked h0]
    by_cases hne : (BasicMemberIterator.ne (⟨p⟩ : MemberIterator)
        (BasicMemberIterator.ofNonConst (BasicValue.getMemberEnd v))) = true
    · simp only [if_pos hne]
      by_cases heq : BasicValue.stringEqual charSize h name (h.members p).name = true
      · simp only [if_pos heq]
      · simp only [if_neg heq]
        exact ih (p + 1) hrest
    · simp only [if_neg hne]

/-- C21, the claim as stated fails: in the build without assertions, `operator[]` on the
sample object with the name "ac", which no member carries (`hasMember` is false), yields a
value, the default-constructed null value. -/
theorem index_of_missing_member_yields_null :
    BasicValue.hasMember 1 sampleHeap sampleObject sampleNameAC = false
    ∧ BasicValue.index false 1 sampleHeap sampleObject sampleNameAC = some BasicValue.construct
    ∧ sampleObject.isObject = true ∧ sampleNameAC.isString = true := by
  decide

/-- C21, amended. For every object value `v`, string value `name` and member names that
are strings: when `hasMember(name)` is true, `operator[](name)` returns, in either build,
the value of the first member in storage order whose name is string-equal to `name`; when
no member matches, the build with assertions fails on `jimi_assert(false)` and the build
without assertions returns the static null value. So in the build with assertions
`operator[]` yields a value exactly when `hasMember(name)` is true. -/
theorem index_returns_first_match_or_asserts (checked : Bool) (charSize : Nat) (h : Heap)
    (v name : BasicValue) (hv : v.isObject = true) (hn : name.isString = true)
    (hm : ∀ i, i < v.mValueData.size → (h.members (v.mValueData.ptr + i)).name.isString = true) :
    (BasicValue.hasMember charSize h v name = true →
      ∃ i, i < v.mValueData.size
        ∧ BasicValue.stringEqual charSize h name (h.members (v.mValueData.ptr + i)).name = true
        ∧ (∀ j, j < i → BasicValue.stringEqual charSize h name
            (h.members (v.mValueData.ptr + j)).name = false)
        ∧ BasicValue.index checked charSize h v name
            = some (h.members (v.mValueData.ptr + i)).value)
    ∧ (BasicValue.hasMember charSize h v name = false →
        BasicValue.index true charSize h v name = none
        ∧ BasicValue.index false charSize h v name = some BasicValue.construct)
    ∧ (BasicValue.index true charSize h v name).isSome
        = BasicValue.hasMember charSize h v name := by
  have hdef : BasicValue.hasMember charSize h v name
      = ((BasicValue.findMember charSize h v name).mPtr
          != v.mValueData.ptr + v.mValueData.size) := rfl
  have hfind : ∀ b, BasicValue.findMemberChecked b charSize h v name
      = some (BasicValue.findMember charSize h v name) := by
    intro b
    simp only [BasicValue.findMemberChecked, jimiAssert_of_true b hv, jimiAssert_of_true b hn]
    exact findMemberLoopChecked_eq b charSize h v name hn v.mValueData.size v.mValueData.ptr hm
  have hidx : ∀ b, BasicValue.index b charSize h v name
      = if ((BasicValue.findMember charSize h v name).mPtr
            != v.mValueData.ptr + v.mValueData.size) = true
        then some (h.members (BasicValue.findMember charSize h v name).mPtr).value
        else (match jimiAssert b false with
          | none => none
          | some _ => some BasicValue.construct) := by
    intro b
    simp only [BasicValue.index, hfind b]
    rfl
  have hhit : BasicValue.hasMember charSize h v name = true →
      ∃ i, i < v.mValueData.size
        ∧ BasicValue.stringEqual charSize h name (h.members (v.mValueData.ptr + i)).name = true
        ∧ (∀ j, j < i → BasicValue.stringEqual charSize h name
            (h.members (v.mValueData.ptr + j)).name = false)
        ∧ ∀ b, BasicValue.index b charSize h v name
            = some (h.members (v.mValueData.ptr + i)).value := by
    intro hhas
    rcases findMember_cases charSize h v name with ⟨i, hi, hmi, hlow, hres⟩ | ⟨_, hres⟩
    · refine ⟨i, hi, hmi, hlow, ?_⟩
      intro b
      rw [hdef] at hhas
      rw [hidx, if_pos hhas, hres]
    · rw [hdef, hres] at hhas
      simp [BasicValue.getMemberEnd] at hhas
  have hmiss : BasicValue.hasMember charSize h v name = false →
      BasicValue.index true charSize h v name = none
      ∧ BasicValue.index false charSize h v name = some BasicValue.construct := by
    intro hhas
    rw [hdef] at hhas
    have hn : ¬ (((BasicValue.findMember charSize h v name).mPtr
        != v.mValueData.ptr + v.mValueData.size) = true) := by
      rw [hhas]
      decide
    constructor
    · rw [hidx, if_neg hn]
      rfl
    · rw [hidx, if_neg hn]
      rfl
  refine ⟨?_, hmiss, ?_⟩
  · intro hhas
    obtain ⟨i, hi, hmi, hlow, hres⟩ := hhit hhas
    exact ⟨i, hi, hmi, hlow, hres checked⟩
  · cases hhas : BasicValue.hasMember charSize h v name with
    | true =>
      obtain ⟨i, _, _, _, hres⟩ := hhit hhas
      rw [hres true]
      rfl
    | false =>
      rw [(hmiss hhas).1]
      rfl

/-- C21, at the sample object with members ("a", 1), ("b", 2), ("a", 3): `operator[]` with
the name "a" returns the value 1 of the first member in both builds; with the name "ac" it
fails in the build with assertions. -/
theorem index_returns_first_match_or_asserts_witness :
    BasicValue.index true 1 sampleHeap sampleObject sampleNameA
      = some ⟨kNumberIntMask, ⟨1, 0, 0, 0⟩⟩
    ∧ BasicValue.index false 1 sampleHeap sampleObject sampleNameA
      = some ⟨kNumberIntMask, ⟨1, 0, 0, 0⟩⟩
    ∧ BasicValue.index true 1 sampleHeap sampleObject sampleNameAC = none
    ∧ (BasicValue.index true 1 sampleHeap sampleObject sampleNameAC).isSome
      = BasicValue.hasMember 1 sampleHeap sampleObject sampleNameAC :=
  have h := index_returns_first_match_or_asserts true 1 sampleHeap sampleObject sampleNameAC
    (by decide) (by decide) (by decide)
  ⟨by decide, by decide, (h.2.1 (by decide)).1, h.2.2⟩

end JsonFx
